import Mathlib

/-!
# code-switch-R: request-routing engine

A shallow embedding of the routing core of the relay
(`services/cache_affinity.go`, `services/providerrelay.go`) together with
the properties proved about it.

Conventions of the embedding

* Go maps are association lists; `mapGet` reads the first binding of a key,
  `mapSet` overwrites it in place (or appends), `mapDel` removes the key.
  Map iteration order is the list order, so a statement quantified over all
  lists covers every iteration order.
* `time.Time` and `time.Duration` are integers (nanoseconds);
  `now.After(x)` is `x < now`.
* Calls into collaborators that are not part of the engine (the blacklist
  store, the upstream HTTP exchange) are explicit state or explicit inputs.
-/

namespace CodeSwitch

/-! ## Go maps as association lists -/

/-- Map read `m[k]` with the comma-ok result as an `Option`. -/
def mapGet {κ α : Type} [DecidableEq κ] : List (κ × α) → κ → Option α
  | [], _ => none
  | (k', v) :: m, k => if k' = k then some v else mapGet m k

/-- Map write `m[k] = v`. -/
def mapSet {κ α : Type} [DecidableEq κ] : List (κ × α) → κ → α → List (κ × α)
  | [], k, v => [(k, v)]
  | (k', v') :: m, k, v => if k' = k then (k, v) :: m else (k', v') :: mapSet m k v

/-- Map removal `delete(m, k)`. -/
def mapDel {κ α : Type} [DecidableEq κ] (m : List (κ × α)) (k : κ) : List (κ × α) :=
  m.filter (fun e => !decide (e.1 = k))

/-! ## Affinity cache (`services/cache_affinity.go`) -/

/-- One affinity record: cached provider, expiry instant, hit counter. -/
structure CacheAffinity where
  ProviderName : String
  ExpireAt : Int
  RequestCount : Int
  deriving DecidableEq, Repr

/-- The manager: the `store` map and the configured `defaultTTL`. -/
structure CacheAffinityManager where
  store : List (String × CacheAffinity)
  defaultTTL : Int
  deriving DecidableEq, Repr

/-- `NewCacheAffinityManager`. -/
def NewCacheAffinityManager (defaultTTL : Int) : CacheAffinityManager :=
  { store := [], defaultTTL := defaultTTL }

/-- The write-locked second half of `Get`: the double check that removes the
entry when it is (still) expired with respect to the instant `now` captured
under the read lock. -/
def CacheAffinityManager.expireRecheck (cam : CacheAffinityManager) (key : String)
    (now : Int) : CacheAffinityManager :=
  match mapGet cam.store key with
  | some aff => if aff.ExpireAt < now then { cam with store := mapDel cam.store key } else cam
  | none => cam

/-- `CacheAffinityManager.Get`: the provider name (empty string on a miss or on
an expired entry) and the manager afterwards. -/
def CacheAffinityManager.Get (cam : CacheAffinityManager) (key : String) (now : Int) :
    String × CacheAffinityManager :=
  match mapGet cam.store key with
  | none => ("", cam)
  | some affinity =>
    if affinity.ExpireAt < now then
      ("", cam.expireRecheck key now)
    else
      let hit : CacheAffinity := { affinity with RequestCount := affinity.RequestCount + 1 }
      (affinity.ProviderName, { cam with store := mapSet cam.store key hit })

/-- `CacheAffinityManager.Set`. -/
def CacheAffinityManager.Set (cam : CacheAffinityManager) (key providerName : String)
    (now : Int) : CacheAffinityManager :=
  let fresh : CacheAffinity :=
    { ProviderName := providerName, ExpireAt := now + cam.defaultTTL, RequestCount := 1 }
  { cam with store := mapSet cam.store key fresh }

/-- `CacheAffinityManager.Invalidate`. -/
def CacheAffinityManager.Invalidate (cam : CacheAffinityManager) (key : String) :
    CacheAffinityManager :=
  match mapGet cam.store key with
  | some _ => { cam with store := mapDel cam.store key }
  | none => cam

/-- `CacheAffinityManager.cleanup`: the sweep removing every expired entry. -/
def CacheAffinityManager.cleanup (cam : CacheAffinityManager) (now : Int) :
    CacheAffinityManager :=
  { cam with store := cam.store.filter (fun e => !decide (e.2.ExpireAt < now)) }

/-- `CacheAffinityManager.Stats`: total and expired entry counts. -/
def CacheAffinityManager.Stats (cam : CacheAffinityManager) (now : Int) : Nat × Nat :=
  (cam.store.length, (cam.store.filter (fun e => decide (e.2.ExpireAt < now))).length)

/-- The operations other tasks may run on the shared manager. `expireRecheck`
is the write-locked half of a `Get` whose read-locked half ran earlier, so its
instant may be stale. -/
inductive AffinityOp where
  | get (key : String) (now : Int)
  | expireRecheck (key : String) (now : Int)
  | set (key providerName : String) (now : Int)
  | invalidate (key : String)
  | cleanup (now : Int)
  deriving DecidableEq, Repr

/-- The instant an operation reads from the clock (`Invalidate` reads none). -/
def AffinityOp.time : AffinityOp → Option Int
  | .get _ now => some now
  | .expireRecheck _ now => some now
  | .set _ _ now => some now
  | .invalidate _ => none
  | .cleanup now => some now

/-- Whether the operation is `Invalidate(k)` or `Set(k, _)`. -/
def AffinityOp.writes (k : String) : AffinityOp → Bool
  | .set key _ _ => decide (key = k)
  | .invalidate key => decide (key = k)
  | _ => false

/-- Run one operation. -/
def AffinityOp.apply (cam : CacheAffinityManager) : AffinityOp → CacheAffinityManager
  | .get key now => (cam.Get key now).2
  | .expireRecheck key now => cam.expireRecheck key now
  | .set key name now => cam.Set key name now
  | .invalidate key => cam.Invalidate key
  | .cleanup now => cam.cleanup now

/-- Run a sequence of operations in order. -/
def runAffinityOps (cam : CacheAffinityManager) (ops : List AffinityOp) : CacheAffinityManager :=
  ops.foldl AffinityOp.apply cam

/-- The entry for `k` is the one written by `Set(k, P)` with expiry `X`. -/
def FreshEntry (cam : CacheAffinityManager) (k P : String) (X : Int) : Prop :=
  ∃ e, mapGet cam.store k = some e ∧ e.ProviderName = P ∧ e.ExpireAt = X

/-! ## HTTP headers (`net/http` as used by `services/providerrelay.go`) -/

/-- The Go type `http.Header`, a map from header name to its list of values. -/
abbrev Header := List (String × List String)

/-- The token bytes `net/textproto` accepts in a header field name: digits,
letters and the punctuation of RFC 7230 (given by code point). -/
def validHeaderFieldByte (c : Char) : Bool :=
  let n := c.toNat
  (48 ≤ n && n ≤ 57) || (97 ≤ n && n ≤ 122) || (65 ≤ n && n ≤ 90) ||
    [33, 35, 36, 37, 38, 39, 42, 43, 45, 46, 94, 95, 96, 124, 126].contains n

/-- One byte of the canonical form: upper case at the start and after a dash,
lower case elsewhere. -/
def canonicalByte (upper : Bool) (c : Char) : Char :=
  if upper && (97 ≤ c.toNat && c.toNat ≤ 122) then c.toUpper
  else if !upper && (65 ≤ c.toNat && c.toNat ≤ 90) then c.toLower
  else c

/-- The rewriting loop of `textproto.canonicalMIMEHeaderKey`. -/
def canonicalMIMEHeaderKey : Bool → List Char → List Char
  | _, [] => []
  | upper, c :: a =>
    canonicalByte upper c :: canonicalMIMEHeaderKey (canonicalByte upper c == '-') a

/-- The library function `http.CanonicalHeaderKey`: a name made of token bytes
only is put in canonical form, any other name is returned unchanged. -/
def CanonicalHeaderKey (s : String) : String :=
  if s.data.all validHeaderFieldByte then String.mk (canonicalMIMEHeaderKey true s.data) else s

/-- `http.Header.Get`: first value stored under the canonical form of `key`,
the empty string when there is none. -/
def Header.Get (h : Header) (key : String) : String :=
  match mapGet h (CanonicalHeaderKey key) with
  | some (v :: _) => v
  | _ => ""

/-- `http.Header.Set`. -/
def Header.Set (h : Header) (key value : String) : Header :=
  mapSet h (CanonicalHeaderKey key) [value]

/-- `http.Header.Del`. -/
def Header.Del (h : Header) (key : String) : Header :=
  mapDel h (CanonicalHeaderKey key)

/-- `hopByHopHeaders`: the headers a proxy must not forward. -/
def hopByHopHeaders : List (String × Bool) :=
  [("Connection", true), ("Keep-Alive", true), ("Proxy-Authenticate", true),
   ("Proxy-Authorization", true), ("Te", true), ("Trailer", true),
   ("Transfer-Encoding", true), ("Upgrade", true)]

/-- `isHopByHopHeader`: the map read `hopByHopHeaders[header]` (false when absent). -/
def isHopByHopHeader (header : String) : Bool :=
  (mapGet hopByHopHeaders header).getD false

/-- One iteration of the loop of `cloneHeaders`. -/
def cloneHeadersStep (cloned : Header) (entry : String × List String) : Header :=
  let canonicalKey := CanonicalHeaderKey entry.1
  if canonicalKey = "Authorization" ∨ canonicalKey = "X-Api-Key" then cloned
  else if isHopByHopHeader canonicalKey then cloned
  else mapSet cloned canonicalKey entry.2

/-- `cloneHeaders`: copy of the request headers without the two inbound
credential headers the source names and without the hop-by-hop headers. -/
def cloneHeaders (header : Header) : Header :=
  header.foldl cloneHeadersStep []

/-- The inbound credential headers of the specification (section 4.1, step 1). -/
def inboundAuthHeaders : List String := ["Authorization", "X-Api-Key", "X-Goog-Api-Key"]

/-! ## Providers and the header rewrite -/

/-- Modelled from the spec: the `Provider` record (section 3 of the
specification); its Go declaration lies outside the files of the engine, the
field names are those the engine and its tests use. -/
structure Provider where
  ID : Int := 0
  Name : String
  APIURL : String := ""
  APIKey : String := ""
  Enabled : Bool := false
  Level : Int := 0
  Endpoint : String := ""
  AuthType : String := ""
  SupportedModels : List (String × Bool) := []
  ModelMapping : List (String × String) := []
  StripHeaders : List String := []
  OverrideHeaders : List (String × String) := []
  ExtraHeaders : List (String × String) := []
  deriving DecidableEq, Repr

/-- Read of a provider header map the way `http.Header` matches names: the
first binding whose canonical name is `c`. -/
def lookupCanonical (m : List (String × String)) (c : String) : Option String :=
  mapGet (m.map (fun e => (CanonicalHeaderKey e.1, e.2))) c

/-- Step 2 of the rewrite: remove every name listed in `stripHeaders`. -/
def stripForwardHeaders (h : Header) (strip : List String) : Header :=
  strip.foldl Header.Del h

/-- Step 3 of the rewrite: every override replaces the header unconditionally. -/
def overrideForwardHeaders (h : Header) (override : List (String × String)) : Header :=
  override.foldl (fun acc e => Header.Set acc e.1 e.2) h

/-- Step 4 of the rewrite: an extra header is added only when the name is absent. -/
def extraForwardHeaders (h : Header) (extra : List (String × String)) : Header :=
  extra.foldl
    (fun acc e => if mapGet acc (CanonicalHeaderKey e.1) = none then Header.Set acc e.1 e.2 else acc) h

/-- Modelled from the spec: `buildForwardHeaders`, which the repository declares
outside the files of the engine (only its tests in `header_config_test.go` are
at hand). Section 4.1, steps 2 to 4, on a copy of the inbound set: strip, then
override, then extra; names are matched the way `http.Header` matches them (the
tests read the result through `Get`). A nil provider gives the plain copy. -/
def buildForwardHeaders (original : Header) (provider : Option Provider) : Header :=
  match provider with
  | none => original
  | some p =>
    extraForwardHeaders
      (overrideForwardHeaders (stripForwardHeaders original p.StripHeaders) p.OverrideHeaders)
      p.ExtraHeaders

/-- What the priority rule strip, override, extra prescribes for the name `k`:
the override value if there is one; otherwise the inbound values unless the
name is stripped; otherwise the extra value if there is one; otherwise nothing. -/
def forwardHeaderRule (original : Header) (p : Provider) (k : String) : Option (List String) :=
  match lookupCanonical p.OverrideHeaders k with
  | some v => some [v]
  | none =>
    match (if (p.StripHeaders.map CanonicalHeaderKey).contains k then none else mapGet original k) with
    | some vs => some vs
    | none => (lookupCanonical p.ExtraHeaders k).map (fun v => [v])

/-- Scenario S6: the inbound set. -/
def s6Headers : Header := [("X-Target", ["original"])]

/-- Scenario S6: the provider configuration. -/
def s6Provider : Provider :=
  { Name := "test",
    StripHeaders := ["X-Target"],
    OverrideHeaders := [("X-Target", "override-value")],
    ExtraHeaders := [("X-Target", "extra-value"), ("X-New", "new-value")] }

/-! ## One forward attempt (`forwardRequest`) -/

/-- What `errors.Is` finds at the end of a transport error chain. The sentinels
`context.DeadlineExceeded` and `context.Canceled` are leaf errors, so a chain
ends in at most one of them. -/
inductive TransportCause where
  | deadlineExceeded
  | canceled
  | other
  deriving DecidableEq, Repr

/-- A non-nil error returned by `httpClient.Do`. -/
structure TransportError where
  cause : TransportCause
  text : String
  deriving DecidableEq, Repr

/-- Everything the outside world contributes to one call of `forwardRequest`:
the error of `http.NewRequestWithContext` (if any), the pair returned by
`httpClient.Do` (the status code of a non-nil response, a non-nil error), and
the error met while copying the body to the client (if the copy is made and
fails). -/
structure Exchange where
  reqErr : Option String := none
  resp : Option Int := none
  err : Option TransportError := none
  copyErr : Option String := none
  deriving DecidableEq, Repr

/-- The error values `forwardRequest` returns. -/
inductive ForwardError where
  | requestBuild (text : String)
  | timeout (cause : TransportError)
  | clientAbort (cause : TransportError)
  | transport (cause : TransportError)
  | emptyResponse
  | upstreamStatus (status : Int)
  deriving DecidableEq, Repr

/-- The text of `err.Error()`. -/
def ForwardError.Error : ForwardError → String
  | .requestBuild text => text
  | .timeout cause => "request timeout: " ++ cause.text
  | .clientAbort cause => "client aborted, skip failure count: " ++ cause.text
  | .transport cause => cause.text
  | .emptyResponse => "empty response"
  | .upstreamStatus status => "upstream status " ++ toString status

/-- The test `errors.Is(err, errClientAbort)`: only the errors built by wrapping
the sentinel carry it. -/
def ForwardError.isClientAbort : ForwardError → Bool
  | .clientAbort _ => true
  | _ => false

/-- What a call of `forwardRequest` leaves behind: the pair it returns, the
`HttpCode` of the log row, whether the upstream response was handed to the
client, and the copy error that was only logged. -/
structure ForwardResult where
  ok : Bool
  err : Option ForwardError
  HttpCode : Int
  proxied : Bool
  loggedCopyErr : Option String
  deriving DecidableEq, Repr

/-- `forwardRequest`, from the creation of the outbound request to the returned
pair (the construction of the URL and of the headers happens before and does
not branch). -/
def forwardRequest (x : Exchange) : ForwardResult :=
  match x.reqErr with
  | some text =>
    { ok := false, err := some (.requestBuild text), HttpCode := 0, proxied := false,
      loggedCopyErr := none }
  | none =>
    let code : Int := x.resp.getD 0
    match x.err with
    | some e =>
      if e.cause = .deadlineExceeded then
        { ok := false, err := some (.timeout e), HttpCode := code, proxied := false,
          loggedCopyErr := none }
      else if e.cause = .canceled then
        { ok := false, err := some (.clientAbort e), HttpCode := code, proxied := false,
          loggedCopyErr := none }
      else if x.resp.isSome && code == 0 then
        { ok := false, err := some (.clientAbort e), HttpCode := code, proxied := false,
          loggedCopyErr := none }
      else
        { ok := false, err := some (.transport e), HttpCode := code, proxied := false,
          loggedCopyErr := none }
    | none =>
      match x.resp with
      | none =>
        { ok := false, err := some .emptyResponse, HttpCode := 0, proxied := false,
          loggedCopyErr := none }
      | some status =>
        if status = 0 then
          { ok := true, err := none, HttpCode := status, proxied := true,
            loggedCopyErr := x.copyErr }
        else if 200 ≤ status ∧ status < 300 then
          { ok := true, err := none, HttpCode := status, proxied := true,
            loggedCopyErr := x.copyErr }
        else
          { ok := false, err := some (.upstreamStatus status), HttpCode := status,
            proxied := false, loggedCopyErr := none }

/-! ## Collaborators of the router -/

/-- The methods of `Provider` the router calls; their Go bodies lie outside the
files of the engine, so they are parameters. -/
structure ProviderMethods where
  ValidateConfiguration : Provider → List String
  IsModelSupported : Provider → String → Bool
  GetEffectiveModel : Provider → String → String
  GetEffectiveEndpoint : Provider → String → String

/-- `RetryConfig` of the blacklist service. -/
structure RetryConfig where
  FailureThreshold : Int
  RetryWaitSeconds : Int
  deriving DecidableEq, Repr

/-- The blacklist service as the router uses it, over an arbitrary store `σ`
(the service itself lies outside the files of the engine). Platform first,
provider name second, as in the Go calls. -/
structure BlacklistService (σ : Type) where
  IsBlacklisted : σ → String → String → Bool
  RecordSuccess : σ → String → String → σ
  RecordFailure : σ → String → String → σ
  ShouldUseFixedMode : σ → Bool
  GetRetryConfig : σ → RetryConfig

/-- The arguments of one call of `forwardRequest` that vary between attempts. -/
structure ForwardCall where
  provider : Provider
  endpoint : String
  body : String
  model : String
  deriving DecidableEq, Repr

/-- Everything the handlers depend on besides their own state: the provider
methods, the blacklist service, the JSON rewrite of the `model` field (`none`
is a returned error), the upstream exchange met by the n-th forward call of the
request, the clock (indexed by the number of forward calls made so far), the
round-robin switch of the application settings and whether a notification
service is installed. -/
structure Deps (σ : Type) where
  methods : ProviderMethods
  blacklistService : BlacklistService σ
  ReplaceModelInRequestBody : String → String → Option String
  exchange : Nat → ForwardCall → Exchange
  now : Nat → Int
  EnableRoundRobin : Bool
  hasNotificationService : Bool

/-- How a forward attempt ended, as the router distinguishes it.
`failureWritten` is the Gemini failure with `responseWritten = true`. -/
inductive Outcome where
  | success
  | clientAbort
  | failure
  | failureWritten
  deriving DecidableEq, Repr

/-- The actions of a handler that other components can observe. -/
inductive Event where
  | forward (provider : String) (outcome : Outcome)
  | recordSuccess (platform provider : String)
  | recordFailure (platform provider : String)
  | affinitySet (key provider : String)
  | affinityInvalidate (key : String)
  | notifySwitch (fromProvider toProvider : String)
  | sleep (seconds : Int)
  deriving DecidableEq, Repr

/-- The provider name of a forward event. -/
def Event.forwardName : Event → Option String
  | .forward provider _ => some provider
  | _ => none

/-- Whether the event is a forward attempt. -/
def Event.isForward : Event → Bool
  | .forward _ _ => true
  | _ => false

/-- Whether the event is a `RecordFailure` call. -/
def Event.isRecordFailure : Event → Bool
  | .recordFailure _ _ => true
  | _ => false

/-- The JSON error answers of the handlers. -/
inductive Response where
  | badRequest
  | internalError
  | notFound (message : String)
  | badGateway (lastProvider : String) (lastError : String) (totalAttempts : Int)
      (mode : Option String)
  deriving DecidableEq, Repr

/-- The state a handler reads and writes: the blacklist store, the affinity
manager, the round-robin map, the last-used registry, the number of forward
calls made and the trace of actions (oldest first). -/
structure Relay (σ : Type) where
  blacklist : σ
  affinity : CacheAffinityManager
  rrLastStart : List (String × String) := []
  lastUsed : List (String × String) := []
  calls : Nat := 0
  trace : List Event := []

/-- The local variables `lastError`, `lastProvider`, `totalAttempts`. -/
structure Attempts where
  lastError : Option ForwardError := none
  lastProvider : String := ""
  totalAttempts : Int := 0
  deriving DecidableEq, Repr

/-- Control after a loop: the handler has returned, or it goes on. -/
inductive Flow (σ : Type) where
  | returned (s : Relay σ)
  | running (s : Relay σ) (a : Attempts)

/-- The test `errors.Is(err, errClientAbort)` on a possibly nil error. -/
def isClientAbortErr : Option ForwardError → Bool
  | some e => e.isClientAbort
  | none => false

/-- The message `errorMsg` built from `lastError`. -/
def errorMessage : Option ForwardError → String
  | some e => e.Error
  | none => "未知错误"

/-- The outcome recorded for a forward attempt. -/
def outcomeOf (r : ForwardResult) : Outcome :=
  if r.ok then .success else if isClientAbortErr r.err then .clientAbort else .failure

/-- One call of `forwardRequest` by a handler. -/
def Relay.forward {σ : Type} (d : Deps σ) (s : Relay σ) (call : ForwardCall) :
    ForwardResult × Relay σ :=
  let r := forwardRequest (d.exchange s.calls call)
  (r, { s with calls := s.calls + 1,
               trace := s.trace ++ [Event.forward call.provider.Name (outcomeOf r)] })

/-- `blacklistService.RecordSuccess`. -/
def Relay.recordSuccess {σ : Type} (d : Deps σ) (s : Relay σ) (kind name : String) : Relay σ :=
  { s with blacklist := d.blacklistService.RecordSuccess s.blacklist kind name,
           trace := s.trace ++ [Event.recordSuccess kind name] }

/-- `blacklistService.RecordFailure`. -/
def Relay.recordFailure {σ : Type} (d : Deps σ) (s : Relay σ) (kind name : String) : Relay σ :=
  { s with blacklist := d.blacklistService.RecordFailure s.blacklist kind name,
           trace := s.trace ++ [Event.recordFailure kind name] }

/-- `setLastUsedProvider`. -/
def Relay.setLastUsedProvider {σ : Type} (s : Relay σ) (platform name : String) : Relay σ :=
  { s with lastUsed := mapSet s.lastUsed platform name }

/-- `affinityManager.Set` at the current instant. -/
def Relay.affinitySet {σ : Type} (d : Deps σ) (s : Relay σ) (key name : String) : Relay σ :=
  { s with affinity := s.affinity.Set key name (d.now s.calls),
           trace := s.trace ++ [Event.affinitySet key name] }

/-- `affinityManager.Invalidate`. -/
def Relay.affinityInvalidate {σ : Type} (s : Relay σ) (key : String) : Relay σ :=
  { s with affinity := s.affinity.Invalidate key,
           trace := s.trace ++ [Event.affinityInvalidate key] }

/-- Append one event to the trace. -/
def Relay.emit {σ : Type} (s : Relay σ) (e : Event) : Relay σ :=
  { s with trace := s.trace ++ [e] }

/-- `GenerateAffinityKey`. -/
def GenerateAffinityKey (userID platform model : String) : String :=
  userID ++ ":" ++ platform ++ ":" ++ (if model = "" then "_default" else model)

/-! ## Provider selection (`proxyHandler`, candidate filter) -/

/-- One iteration of the filter loop: the candidates so far and `skippedCount`. -/
def selectStep {σ : Type} (d : Deps σ) (store : σ) (kind requestedModel : String)
    (acc : List Provider × Nat) (provider : Provider) : List Provider × Nat :=
  if !provider.Enabled || provider.APIURL == "" || provider.APIKey == "" then acc
  else if (d.methods.ValidateConfiguration provider).length > 0 then (acc.1, acc.2 + 1)
  else if requestedModel != "" && !d.methods.IsModelSupported provider requestedModel then
    (acc.1, acc.2 + 1)
  else if d.blacklistService.IsBlacklisted store kind provider.Name then (acc.1, acc.2 + 1)
  else (acc.1 ++ [provider], acc.2)

/-- The filter loop of `proxyHandler`: `active` and `skippedCount`. -/
def selectActive {σ : Type} (d : Deps σ) (store : σ) (kind requestedModel : String)
    (providers : List Provider) : List Provider × Nat :=
  providers.foldl (selectStep d store kind requestedModel) ([], 0)

/-- The selection criteria, as one predicate. -/
def isCandidate {σ : Type} (d : Deps σ) (store : σ) (kind requestedModel : String)
    (p : Provider) : Bool :=
  p.Enabled && p.APIURL != "" && p.APIKey != "" &&
    (d.methods.ValidateConfiguration p).isEmpty &&
    (requestedModel == "" || d.methods.IsModelSupported p requestedModel) &&
    !d.blacklistService.IsBlacklisted store kind p.Name

/-! ## Level tiers -/

/-- The level a provider is grouped under: values `<= 0` count as level 1. -/
def normalizedLevel (p : Provider) : Int := if p.Level ≤ 0 then 1 else p.Level

/-- The map `levelGroups` built by `proxyHandler`. -/
def groupByLevel (active : List Provider) : List (Int × List Provider) :=
  active.foldl
    (fun groups p =>
      mapSet groups (normalizedLevel p) ((mapGet groups (normalizedLevel p)).getD [] ++ [p])) []

/-- The read `levelGroups[level]`. -/
def levelGroup (groups : List (Int × List Provider)) (level : Int) : List Provider :=
  (mapGet groups level).getD []

/-- The slice `levels`: the keys of `levelGroups`, sorted ascending. -/
def sortedLevels (groups : List (Int × List Provider)) : List Int :=
  (groups.map Prod.fst).insertionSort (fun a b => a ≤ b)

/-- The candidates in the order the tier iteration visits them. -/
def tierOrder (active : List Provider) : List Provider :=
  (sortedLevels (groupByLevel active)).flatMap (levelGroup (groupByLevel active))

/-! ## `proxyHandler`: blacklist-retry mode -/

/-- The body sent to a provider: `none` when a model mapping applies and the
rewrite of the `model` field returns an error (the loops then skip the
provider), otherwise the rewritten or the original body. -/
def mappedBody {σ : Type} (d : Deps σ) (provider : Provider) (requestedModel body : String) :
    Option String :=
  let effectiveModel := d.methods.GetEffectiveModel provider requestedModel
  if effectiveModel != requestedModel && requestedModel != "" then
    d.ReplaceModelInRequestBody body effectiveModel
  else some body

/-- The arguments of the forward call for `provider` with the body `currentBody`:
effective endpoint and effective model. -/
def forwardCallFor {σ : Type} (d : Deps σ) (provider : Provider)
    (endpoint requestedModel currentBody : String) : ForwardCall :=
  { provider := provider,
    endpoint := d.methods.GetEffectiveEndpoint provider endpoint,
    body := currentBody,
    model := d.methods.GetEffectiveModel provider requestedModel }

/-- The retry loop `for retryCount := 0; retryCount < maxRetryPerProvider;
retryCount++` for one provider; the first argument counts the iterations that
remain. `running` is the exit by `break` or by exhaustion. -/
def retryLoop {σ : Type} (d : Deps σ) (kind : String) (call : ForwardCall)
    (maxRetryPerProvider retryWaitSeconds : Int) :
    Nat → Int → Relay σ → Attempts → Flow σ
  | 0, _, s, a => .running s a
  | n + 1, retryCount, s, a =>
    let a1 : Attempts := { a with totalAttempts := a.totalAttempts + 1 }
    if d.blacklistService.IsBlacklisted s.blacklist kind call.provider.Name then .running s a1
    else
      let fr := s.forward d call
      if fr.1.ok then
        .returned ((fr.2.recordSuccess d kind call.provider.Name).setLastUsedProvider kind
          call.provider.Name)
      else
        let a2 : Attempts := { a1 with lastError := fr.1.err, lastProvider := call.provider.Name }
        if isClientAbortErr fr.1.err then .returned fr.2
        else
          let s1 := fr.2.recordFailure d kind call.provider.Name
          if d.blacklistService.IsBlacklisted s1.blacklist kind call.provider.Name then
            .running s1 a2
          else
            let s2 := if retryCount < maxRetryPerProvider - 1 then
              s1.emit (Event.sleep retryWaitSeconds) else s1
            retryLoop d kind call maxRetryPerProvider retryWaitSeconds n (retryCount + 1) s2 a2

/-- The loop over the providers of one level in blacklist-retry mode. -/
def blacklistProviders {σ : Type} (d : Deps σ) (kind endpoint requestedModel body : String)
    (cfg : RetryConfig) : List Provider → Relay σ → Attempts → Flow σ
  | [], s, a => .running s a
  | provider :: rest, s, a =>
    if d.blacklistService.IsBlacklisted s.blacklist kind provider.Name then
      blacklistProviders d kind endpoint requestedModel body cfg rest s a
    else
      match mappedBody d provider requestedModel body with
      | none => blacklistProviders d kind endpoint requestedModel body cfg rest s a
      | some currentBody =>
        let call := forwardCallFor d provider endpoint requestedModel currentBody
        match retryLoop d kind call cfg.FailureThreshold cfg.RetryWaitSeconds
            cfg.FailureThreshold.toNat 0 s a with
        | .returned s1 => .returned s1
        | .running s1 a1 => blacklistProviders d kind endpoint requestedModel body cfg rest s1 a1

/-- The loop over the levels in blacklist-retry mode. -/
def blacklistLevels {σ : Type} (d : Deps σ) (kind endpoint requestedModel body : String)
    (cfg : RetryConfig) (groups : List (Int × List Provider)) :
    List Int → Relay σ → Attempts → Flow σ
  | [], s, a => .running s a
  | level :: rest, s, a =>
    match blacklistProviders d kind endpoint requestedModel body cfg (levelGroup groups level) s a with
    | .returned s1 => .returned s1
    | .running s1 a1 => blacklistLevels d kind endpoint requestedModel body cfg groups rest s1 a1

/-- The end of a mode branch: nothing more is written when the loops returned,
otherwise the 502 answer with the last provider, the last error, the attempt
count and the mode tag (present in blacklist-retry mode only). -/
def finalAnswer {σ : Type} (mode : Option String) : Flow σ → Relay σ × Option Response
  | .returned s1 => (s1, none)
  | .running s1 a =>
    (s1, some (.badGateway a.lastProvider (errorMessage a.lastError) a.totalAttempts mode))

/-- The blacklist-retry branch of `proxyHandler`, up to its answer. -/
def blacklistRetryMode {σ : Type} (d : Deps σ) (kind endpoint requestedModel body : String)
    (groups : List (Int × List Provider)) (levels : List Int) (s : Relay σ) :
    Relay σ × Option Response :=
  let cfg := d.blacklistService.GetRetryConfig s.blacklist
  finalAnswer (some "blacklist_retry")
    (blacklistLevels d kind endpoint requestedModel body cfg groups levels s {})

/-! ## `proxyHandler`: failover mode -/

/-- `roundRobinOrder`: the rotated tier and the updated `rrLastStart`. -/
def roundRobinOrder (rrLastStart : List (String × String)) (platform : String) (level : Int)
    (providers : List Provider) : List Provider × List (String × String) :=
  if providers.length ≤ 1 then (providers, rrLastStart)
  else
    let key := platform ++ ":" ++ toString level
    let lastStart := (mapGet rrLastStart key).getD ""
    let rr1 := match providers.head? with
      | some p => mapSet rrLastStart key p.Name
      | none => rrLastStart
    if lastStart = "" then (providers, rr1)
    else
      match providers.findIdx? (fun p => p.Name == lastStart) with
      | none => (providers, rr1)
      | some lastIdx =>
        let result := (List.range providers.length).filterMap
          (fun i => providers[(lastIdx + 1 + i) % providers.length]?)
        let rr2 := match result.head? with
          | some p => mapSet rr1 key p.Name
          | none => rr1
        (result, rr2)

/-- `AffinityTryResult` (without the duration). -/
structure AffinityTryResult where
  Handled : Bool := false
  UsedProvider : String := ""
  LastError : Option ForwardError := none
  deriving DecidableEq, Repr

/-- `tryAffinityProvider`. -/
def tryAffinityProvider {σ : Type} (d : Deps σ) (kind affinityKey cachedProviderName : String)
    (activeProviders : List Provider) (endpoint body requestedModel : String) (s : Relay σ) :
    AffinityTryResult × Relay σ :=
  if cachedProviderName = "" then ({}, s)
  else
    match activeProviders.find? (fun p => p.Name == cachedProviderName) with
    | none => ({}, s)
    | some cachedProvider =>
      let call := forwardCallFor d cachedProvider endpoint requestedModel
        ((mappedBody d cachedProvider requestedModel body).getD body)
      let fr := s.forward d call
      if fr.1.ok then
        let s1 := fr.2.affinitySet d affinityKey cachedProvider.Name
        let s2 := s1.recordSuccess d kind cachedProvider.Name
        ({ Handled := true, UsedProvider := cachedProvider.Name },
          s2.setLastUsedProvider kind cachedProvider.Name)
      else
        let s1 := fr.2.affinityInvalidate affinityKey
        if isClientAbortErr fr.1.err then
          ({ Handled := true, UsedProvider := cachedProvider.Name, LastError := fr.1.err }, s1)
        else
          ({ Handled := false, UsedProvider := cachedProvider.Name, LastError := fr.1.err },
            s1.recordFailure d kind cachedProvider.Name)

/-- The name announced by the switch notification: the next provider of the
tier, else the first provider of the first later level that has one. -/
def nextProviderName (groups : List (Int × List Provider)) (levels : List Int) (level : Int)
    (providersInLevel : List Provider) (i : Nat) : String :=
  match providersInLevel[i + 1]? with
  | some p => p.Name
  | none =>
    match levels.find? (fun nextLevel => decide (level < nextLevel) &&
        decide (0 < (levelGroup groups nextLevel).length)) with
    | some nextLevel =>
      match (levelGroup groups nextLevel).head? with
      | some p => p.Name
      | none => ""
    | none => ""

/-- The loop over the providers of one (possibly rotated) tier in failover
mode; `i` is the index of the head of the remaining list in `providersInLevel`. -/
def failoverProviders {σ : Type} (d : Deps σ)
    (kind endpoint requestedModel body affinityKey cachedProviderName : String)
    (groups : List (Int × List Provider)) (levels : List Int) (level : Int)
    (providersInLevel : List Provider) :
    Nat → List Provider → Relay σ → Attempts → Flow σ
  | _, [], s, a => .running s a
  | i, provider :: rest, s, a =>
    if provider.Name = cachedProviderName then
      failoverProviders d kind endpoint requestedModel body affinityKey cachedProviderName
        groups levels level providersInLevel (i + 1) rest s a
    else
      let a1 : Attempts := { a with totalAttempts := a.totalAttempts + 1 }
      match mappedBody d provider requestedModel body with
      | none =>
        failoverProviders d kind endpoint requestedModel body affinityKey cachedProviderName
          groups levels level providersInLevel (i + 1) rest s a1
      | some currentBody =>
        let call := forwardCallFor d provider endpoint requestedModel currentBody
        let fr := s.forward d call
        if fr.1.ok then
          let s1 := fr.2.affinitySet d affinityKey provider.Name
          let s2 := s1.recordSuccess d kind provider.Name
          .returned (s2.setLastUsedProvider kind provider.Name)
        else
          let a2 : Attempts := { a1 with lastError := fr.1.err, lastProvider := provider.Name }
          let s1 := if isClientAbortErr fr.1.err then fr.2
            else fr.2.recordFailure d kind provider.Name
          let next := nextProviderName groups levels level providersInLevel i
          let s2 := if d.hasNotificationService && next != "" then
            s1.emit (Event.notifySwitch provider.Name next) else s1
          failoverProviders d kind endpoint requestedModel body affinityKey cachedProviderName
            groups levels level providersInLevel (i + 1) rest s2 a2

/-- The loop over the levels in failover mode. -/
def failoverLevels {σ : Type} (d : Deps σ)
    (kind endpoint requestedModel body affinityKey cachedProviderName : String)
    (roundRobinEnabled : Bool) (groups : List (Int × List Provider)) (levels : List Int) :
    List Int → Relay σ → Attempts → Flow σ
  | [], s, a => .running s a
  | level :: rest, s, a =>
    let rotated :=
      if roundRobinEnabled then roundRobinOrder s.rrLastStart kind level (levelGroup groups level)
      else (levelGroup groups level, s.rrLastStart)
    let s0 : Relay σ := { s with rrLastStart := rotated.2 }
    match failoverProviders d kind endpoint requestedModel body affinityKey cachedProviderName
        groups levels level rotated.1 0 rotated.1 s0 a with
    | .returned s1 => .returned s1
    | .running s1 a1 =>
      failoverLevels d kind endpoint requestedModel body affinityKey cachedProviderName
        roundRobinEnabled groups levels rest s1 a1

/-- `isRoundRobinEnabled`. -/
def isRoundRobinEnabled {σ : Type} (d : Deps σ) (store : σ) : Bool :=
  if d.blacklistService.ShouldUseFixedMode store then false else d.EnableRoundRobin

/-- The failover branch of `proxyHandler`, up to its answer. -/
def failoverMode {σ : Type} (d : Deps σ)
    (kind endpoint requestedModel body affinityKey cachedProviderName : String)
    (active : List Provider) (groups : List (Int × List Provider)) (levels : List Int)
    (s : Relay σ) : Relay σ × Option Response :=
  let roundRobinEnabled := isRoundRobinEnabled d s.blacklist
  let tried :=
    if cachedProviderName != "" then
      tryAffinityProvider d kind affinityKey cachedProviderName active endpoint body
        requestedModel s
    else ({}, s)
  if cachedProviderName != "" && tried.1.Handled then (tried.2, none)
  else
    let a : Attempts :=
      if cachedProviderName != "" && tried.1.UsedProvider != "" then
        { lastError := tried.1.LastError, lastProvider := tried.1.UsedProvider, totalAttempts := 1 }
      else {}
    finalAnswer none
      (failoverLevels d kind endpoint requestedModel body affinityKey cachedProviderName
        roundRobinEnabled groups levels levels tried.2 a)

/-! ## `proxyHandler` -/

/-- What the handler extracts from the inbound request: whether reading the
body failed, the body, the JSON fields `stream` and `model`, and the user id
derived from the inbound credential. -/
structure Inbound where
  bodyReadErr : Bool := false
  body : String := ""
  isStream : Bool := false
  requestedModel : String := ""
  userID : String := "anonymous"
  deriving DecidableEq, Repr

/-- `proxyHandler(kind, endpoint)` on one inbound request, given the result of
`LoadProviders(kind)` (`none` is a load error). -/
def proxyHandler {σ : Type} (d : Deps σ) (kind endpoint : String) (req : Inbound)
    (loaded : Option (List Provider)) (s : Relay σ) : Relay σ × Option Response :=
  if req.bodyReadErr then (s, some .badRequest)
  else
    let affinityKey := GenerateAffinityKey req.userID kind req.requestedModel
    match loaded with
    | none => (s, some .internalError)
    | some providers =>
      let selected := selectActive d s.blacklist kind req.requestedModel providers
      let active := selected.1
      if active.length = 0 then
        if req.requestedModel != "" then
          (s, some (.notFound ("没有可用的 provider 支持模型 '" ++ req.requestedModel ++
            "'（已跳过 " ++ toString selected.2 ++ " 个不兼容的 provider）")))
        else (s, some (.notFound "no providers available"))
      else
        let got := s.affinity.Get affinityKey (d.now s.calls)
        let s1 : Relay σ := { s with affinity := got.2 }
        let groups := groupByLevel active
        let levels := sortedLevels groups
        if d.blacklistService.ShouldUseFixedMode s1.blacklist then
          blacklistRetryMode d kind endpoint req.requestedModel req.body groups levels s1
        else
          failoverMode d kind endpoint req.requestedModel req.body affinityKey got.1 active
            groups levels s1

/-! ## The blacklist store of the specification -/

/-- Modelled from the spec: a `BlacklistEntry` (section 3), with the suspension
deadline reduced to the flag "suspended now": deadlines lie beyond the request
being handled. -/
structure BlacklistEntry where
  failureCount : Int := 0
  suspended : Bool := false
  deriving DecidableEq, Repr

/-- Modelled from the spec: the blacklist store (section 4.3), one entry per
(platform, provider name), with the mode flag and the retry configuration. -/
structure BlacklistStore where
  entries : List ((String × String) × BlacklistEntry) := []
  fixedMode : Bool := false
  retry : RetryConfig := { FailureThreshold := 3, RetryWaitSeconds := 0 }
  deriving DecidableEq, Repr

/-- The entry of a provider (a missing row counts as a zero entry). -/
def BlacklistStore.entry (st : BlacklistStore) (platform name : String) : BlacklistEntry :=
  (mapGet st.entries (platform, name)).getD {}

/-- Modelled from the spec: the blacklist service (section 4.3), which lies
outside the files of the engine. `RecordFailure` increments the count and
suspends the provider when the count reaches the threshold; `RecordSuccess`
zeroes the count and lifts the suspension; `IsBlacklisted` reads the
suspension. -/
def specBlacklistService : BlacklistService BlacklistStore where
  IsBlacklisted := fun st platform name => (st.entry platform name).suspended
  RecordSuccess := fun st platform name =>
    { st with entries := mapSet st.entries (platform, name) {} }
  RecordFailure := fun st platform name =>
    let e := st.entry platform name
    let updated : BlacklistEntry :=
      { failureCount := e.failureCount + 1,
        suspended := e.suspended || decide (st.retry.FailureThreshold ≤ e.failureCount + 1) }
    { st with entries := mapSet st.entries (platform, name) updated }
  ShouldUseFixedMode := fun st => st.fixedMode
  GetRetryConfig := fun st => st.retry

/-! ## Scenarios -/

/-- Provider methods of a plain configuration: valid, every model supported, no
model mapping, no endpoint override. -/
def plainMethods : ProviderMethods where
  ValidateConfiguration := fun _ => []
  IsModelSupported := fun _ _ => true
  GetEffectiveModel := fun _ m => m
  GetEffectiveEndpoint := fun _ e => e

/-- Dependencies of the scenarios: plain providers, the store of the
specification, notifications on, round-robin off, and the given upstream. -/
def scenarioDeps (exchange : Nat → ForwardCall → Exchange) : Deps BlacklistStore where
  methods := plainMethods
  blacklistService := specBlacklistService
  ReplaceModelInRequestBody := fun body _ => some body
  exchange := exchange
  now := fun n => 1000 * (n + 1)
  EnableRoundRobin := false
  hasNotificationService := true

/-- An enabled provider of the given name and level. -/
def scenarioProvider (name : String) (level : Int) : Provider :=
  { Name := name, APIURL := "https://" ++ name ++ ".example/api", APIKey := "k-" ++ name,
    Enabled := true, Level := level }

/-- The initial state of the scenarios: TTL of five minutes (in milliseconds),
empty affinity cache, the given blacklist store. -/
def scenarioRelay (store : BlacklistStore) : Relay BlacklistStore :=
  { blacklist := store, affinity := NewCacheAffinityManager 300000 }

/-- The inbound request of the scenarios. -/
def scenarioInbound : Inbound :=
  { body := "\x7b\x7d", requestedModel := "m", userID := "user1" }

/-- An upstream on which the client has gone away: every call ends with
`context.Canceled`. -/
def clientGone : Nat → ForwardCall → Exchange :=
  fun _ _ => { err := some ⟨.canceled, "context canceled"⟩ }

/-! ## Gemini handler (`geminiProxyHandler`, `forwardGeminiRequest`) -/

/-- Modelled from the spec: the `GeminiProvider` record (section 3: the shape of
a provider with one fixed model); its Go declaration lies outside the files of
the engine, the field names are those the handler uses. -/
structure GeminiProvider where
  Name : String
  BaseURL : String := ""
  APIKey : String := ""
  Enabled : Bool := false
  Level : Int := 0
  Model : String := ""
  deriving DecidableEq, Repr

/-- Everything the outside world contributes to one call of
`forwardGeminiRequest`: the error of `http.NewRequest`, the error of
`client.Do`, the status code and error body of the response, the error of the
streamed copy, the error of reading the whole body. -/
structure GeminiExchange where
  reqErr : Option String := none
  doErr : Option String := none
  status : Int := 200
  errorBody : String := ""
  copyErr : Option String := none
  readErr : Option String := none
  deriving DecidableEq, Repr

/-- The triple returned by `forwardGeminiRequest` and the `HttpCode` it logs. -/
structure GeminiForwardResult where
  success : Bool
  errMsg : String
  responseWritten : Bool
  HttpCode : Int
  deriving DecidableEq, Repr

/-- `forwardGeminiRequest`, from the creation of the outbound request on. -/
def forwardGeminiRequest (isStream : Bool) (x : GeminiExchange) : GeminiForwardResult :=
  match x.reqErr with
  | some e => { success := false, errMsg := "创建请求失败: " ++ e, responseWritten := false,
                HttpCode := 0 }
  | none =>
    match x.doErr with
    | some e => { success := false, errMsg := "请求失败: " ++ e, responseWritten := false,
                  HttpCode := 0 }
    | none =>
      if x.status < 200 ∨ x.status ≥ 300 then
        { success := false, errMsg := "HTTP " ++ toString x.status ++ ": " ++ x.errorBody,
          responseWritten := false, HttpCode := x.status }
      else if isStream then
        match x.copyErr with
        | some e => { success := false, errMsg := "流式传输中断: " ++ e, responseWritten := true,
                      HttpCode := x.status }
        | none => { success := true, errMsg := "", responseWritten := true,
                    HttpCode := x.status }
      else
        match x.readErr with
        | some e => { success := false, errMsg := "读取响应失败: " ++ e,
                      responseWritten := false, HttpCode := x.status }
        | none => { success := true, errMsg := "", responseWritten := true,
                    HttpCode := x.status }

/-- The dependencies of the Gemini handler: the blacklist service, the upstream
exchange met by the n-th forward call, the clock and the round-robin switch. -/
structure GeminiDeps (σ : Type) where
  blacklistService : BlacklistService σ
  exchange : Nat → GeminiProvider → GeminiExchange
  now : Nat → Int
  EnableRoundRobin : Bool

/-- The local variables `lastError`, `lastProvider`, `totalAttempts` of the
Gemini handler. -/
structure GeminiAttempts where
  lastError : String := ""
  lastProvider : String := ""
  totalAttempts : Int := 0
  deriving DecidableEq, Repr

/-- Control after a loop of the Gemini handler. -/
inductive GeminiFlow (σ : Type) where
  | returned (s : Relay σ)
  | running (s : Relay σ) (a : GeminiAttempts)

/-- The JSON error answers of the Gemini handler. -/
inductive GeminiResponse where
  | badRequest
  | notFound (message : String)
  | badGateway (lastProvider : String) (lastError : String) (totalAttempts : Int)
  | allFailed (details : String)
  deriving DecidableEq, Repr

/-- The outcome recorded for a Gemini forward attempt. -/
def geminiOutcomeOf (r : GeminiForwardResult) : Outcome :=
  if r.success then .success else if r.responseWritten then .failureWritten else .failure

/-- One call of `forwardGeminiRequest` by the handler. -/
def Relay.forwardGemini {σ : Type} (d : GeminiDeps σ) (s : Relay σ) (isStream : Bool)
    (provider : GeminiProvider) : GeminiForwardResult × Relay σ :=
  let r := forwardGeminiRequest isStream (d.exchange s.calls provider)
  (r, { s with calls := s.calls + 1,
               trace := s.trace ++ [Event.forward provider.Name (geminiOutcomeOf r)] })

/-- `RecordSuccess("gemini", name)`. -/
def Relay.geminiSuccess {σ : Type} (d : GeminiDeps σ) (s : Relay σ) (name : String) : Relay σ :=
  { s with blacklist := d.blacklistService.RecordSuccess s.blacklist "gemini" name,
           trace := s.trace ++ [Event.recordSuccess "gemini" name] }

/-- `RecordFailure("gemini", name)`. -/
def Relay.geminiFailure {σ : Type} (d : GeminiDeps σ) (s : Relay σ) (name : String) : Relay σ :=
  { s with blacklist := d.blacklistService.RecordFailure s.blacklist "gemini" name,
           trace := s.trace ++ [Event.recordFailure "gemini" name] }

/-- `affinityManager.Set` by the Gemini handler. -/
def Relay.geminiAffinitySet {σ : Type} (d : GeminiDeps σ) (s : Relay σ) (key name : String) :
    Relay σ :=
  { s with affinity := s.affinity.Set key name (d.now s.calls),
           trace := s.trace ++ [Event.affinitySet key name] }

/-- The filter loop of the Gemini handler: enabled, base URL configured, not
blacklisted; levels `<= 0` become 1. -/
def selectActiveGemini {σ : Type} (d : GeminiDeps σ) (store : σ)
    (providers : List GeminiProvider) : List GeminiProvider :=
  providers.foldl
    (fun active p =>
      if !p.Enabled || p.BaseURL == "" then active
      else if d.blacklistService.IsBlacklisted store "gemini" p.Name then active
      else active ++ [if p.Level ≤ 0 then { p with Level := 1 } else p]) []

/-- The map `levelGroups` of the Gemini handler. -/
def groupByLevelGemini (active : List GeminiProvider) : List (Int × List GeminiProvider) :=
  active.foldl
    (fun groups p => mapSet groups p.Level ((mapGet groups p.Level).getD [] ++ [p])) []

/-- The read `levelGroups[level]` of the Gemini handler. -/
def levelGroupGemini (groups : List (Int × List GeminiProvider)) (level : Int) :
    List GeminiProvider :=
  (mapGet groups level).getD []

/-- `roundRobinOrderGemini`: the rotated tier and the updated `rrLastStart`. -/
def roundRobinOrderGemini (rrLastStart : List (String × String)) (level : Int)
    (providers : List GeminiProvider) : List GeminiProvider × List (String × String) :=
  if providers.length ≤ 1 then (providers, rrLastStart)
  else
    let key := "gemini:" ++ toString level
    let lastStart := (mapGet rrLastStart key).getD ""
    let rr1 := match providers.head? with
      | some p => mapSet rrLastStart key p.Name
      | none => rrLastStart
    if lastStart = "" then (providers, rr1)
    else
      match providers.findIdx? (fun p => p.Name == lastStart) with
      | none => (providers, rr1)
      | some lastIdx =>
        let result := (List.range providers.length).filterMap
          (fun i => providers[(lastIdx + 1 + i) % providers.length]?)
        let rr2 := match result.head? with
          | some p => mapSet rr1 key p.Name
          | none => rr1
        (result, rr2)

/-- The retry loop of the Gemini handler in blacklist-retry mode. -/
def geminiRetryLoop {σ : Type} (d : GeminiDeps σ) (isStream : Bool) (provider : GeminiProvider)
    (maxRetryPerProvider retryWaitSeconds : Int) :
    Nat → Int → Relay σ → GeminiAttempts → GeminiFlow σ
  | 0, _, s, a => .running s a
  | n + 1, retryCount, s, a =>
    let a1 : GeminiAttempts := { a with totalAttempts := a.totalAttempts + 1 }
    if d.blacklistService.IsBlacklisted s.blacklist "gemini" provider.Name then .running s a1
    else
      let fr := s.forwardGemini d isStream provider
      if fr.1.success then
        .returned ((fr.2.geminiSuccess d provider.Name).setLastUsedProvider "gemini"
          provider.Name)
      else if fr.1.responseWritten then
        .returned (fr.2.geminiFailure d provider.Name)
      else
        let a2 : GeminiAttempts :=
          { a1 with lastError := fr.1.errMsg, lastProvider := provider.Name }
        let s1 := fr.2.geminiFailure d provider.Name
        if d.blacklistService.IsBlacklisted s1.blacklist "gemini" provider.Name then
          .running s1 a2
        else
          let s2 := if retryCount < maxRetryPerProvider - 1 then
            s1.emit (Event.sleep retryWaitSeconds) else s1
          geminiRetryLoop d isStream provider maxRetryPerProvider retryWaitSeconds n
            (retryCount + 1) s2 a2

/-- The loop over the providers of one level, blacklist-retry mode. -/
def geminiBlacklistProviders {σ : Type} (d : GeminiDeps σ) (isStream : Bool)
    (cfg : RetryConfig) : List GeminiProvider → Relay σ → GeminiAttempts → GeminiFlow σ
  | [], s, a => .running s a
  | provider :: rest, s, a =>
    if d.blacklistService.IsBlacklisted s.blacklist "gemini" provider.Name then
      geminiBlacklistProviders d isStream cfg rest s a
    else
      match geminiRetryLoop d isStream provider cfg.FailureThreshold cfg.RetryWaitSeconds
          cfg.FailureThreshold.toNat 0 s a with
      | .returned s1 => .returned s1
      | .running s1 a1 => geminiBlacklistProviders d isStream cfg rest s1 a1

/-- The loop over the levels, blacklist-retry mode. -/
def geminiBlacklistLevels {σ : Type} (d : GeminiDeps σ) (isStream : Bool) (cfg : RetryConfig)
    (groups : List (Int × List GeminiProvider)) :
    List Int → Relay σ → GeminiAttempts → GeminiFlow σ
  | [], s, a => .running s a
  | level :: rest, s, a =>
    match geminiBlacklistProviders d isStream cfg (levelGroupGemini groups level) s a with
    | .returned s1 => .returned s1
    | .running s1 a1 => geminiBlacklistLevels d isStream cfg groups rest s1 a1

/-- `GeminiAffinityTryResult`. -/
structure GeminiAffinityTryResult where
  Handled : Bool := false
  UsedProvider : String := ""
  LastError : String := ""
  ResponseWritten : Bool := false
  deriving DecidableEq, Repr

/-- `tryGeminiAffinityProvider`. -/
def tryGeminiAffinityProvider {σ : Type} (d : GeminiDeps σ)
    (affinityKey cachedProviderName : String) (activeProviders : List GeminiProvider)
    (isStream : Bool) (s : Relay σ) : GeminiAffinityTryResult × Relay σ :=
  if cachedProviderName = "" then ({}, s)
  else
    match activeProviders.find? (fun p => p.Name == cachedProviderName) with
    | none => ({}, s)
    | some cachedProvider =>
      let fr := s.forwardGemini d isStream cachedProvider
      if fr.1.success then
        let s1 := fr.2.geminiAffinitySet d affinityKey cachedProvider.Name
        let s2 := s1.geminiSuccess d cachedProvider.Name
        ({ Handled := true, UsedProvider := cachedProvider.Name,
           ResponseWritten := fr.1.responseWritten },
          s2.setLastUsedProvider "gemini" cachedProvider.Name)
      else
        let s1 := fr.2.affinityInvalidate affinityKey
        let s2 := s1.geminiFailure d cachedProvider.Name
        ({ Handled := fr.1.responseWritten, UsedProvider := cachedProvider.Name,
           LastError := fr.1.errMsg, ResponseWritten := fr.1.responseWritten }, s2)

/-- The loop over the providers of one (possibly rotated) tier, failover mode. -/
def geminiFailoverProviders {σ : Type} (d : GeminiDeps σ) (isStream : Bool)
    (affinityKey cachedProviderName : String) :
    List GeminiProvider → Relay σ → GeminiAttempts → GeminiFlow σ
  | [], s, a => .running s a
  | provider :: rest, s, a =>
    if provider.Name = cachedProviderName then
      geminiFailoverProviders d isStream affinityKey cachedProviderName rest s a
    else
      let fr := s.forwardGemini d isStream provider
      if fr.1.success then
        let s1 := fr.2.geminiAffinitySet d affinityKey provider.Name
        let s2 := s1.geminiSuccess d provider.Name
        .returned (s2.setLastUsedProvider "gemini" provider.Name)
      else if fr.1.responseWritten then
        .returned (fr.2.geminiFailure d provider.Name)
      else
        geminiFailoverProviders d isStream affinityKey cachedProviderName rest
          (fr.2.geminiFailure d provider.Name) { a with lastError := fr.1.errMsg }

/-- The loop over the levels, failover mode. -/
def geminiFailoverLevels {σ : Type} (d : GeminiDeps σ) (isStream : Bool)
    (affinityKey cachedProviderName : String) (roundRobinEnabled : Bool)
    (groups : List (Int × List GeminiProvider)) :
    List Int → Relay σ → GeminiAttempts → GeminiFlow σ
  | [], s, a => .running s a
  | level :: rest, s, a =>
    let rotated :=
      if roundRobinEnabled then
        roundRobinOrderGemini s.rrLastStart level (levelGroupGemini groups level)
      else (levelGroupGemini groups level, s.rrLastStart)
    let s0 : Relay σ := { s with rrLastStart := rotated.2 }
    match geminiFailoverProviders d isStream affinityKey cachedProviderName rotated.1 s0 a with
    | .returned s1 => .returned s1
    | .running s1 a1 =>
      geminiFailoverLevels d isStream affinityKey cachedProviderName roundRobinEnabled groups
        rest s1 a1

/-- What the Gemini handler extracts from the inbound request: whether reading
the body failed, whether the endpoint asks for a stream, the model named in
the endpoint and the user id. -/
structure GeminiInbound where
  bodyReadErr : Bool := false
  isStream : Bool := false
  geminiModel : String := ""
  userID : String := "anonymous"
  deriving DecidableEq, Repr

/-- The end of the blacklist-retry branch of the Gemini handler. -/
def geminiBlacklistAnswer {σ : Type} : GeminiFlow σ → Relay σ × Option GeminiResponse
  | .returned s1 => (s1, none)
  | .running s1 a => (s1, some (.badGateway a.lastProvider a.lastError a.totalAttempts))

/-- The end of the failover branch of the Gemini handler. -/
def geminiFailoverAnswer {σ : Type} : GeminiFlow σ → Relay σ × Option GeminiResponse
  | .returned s1 => (s1, none)
  | .running s1 a => (s1, some (.allFailed a.lastError))

/-- `geminiProxyHandler` on one inbound request, given the configured providers. -/
def geminiProxyHandler {σ : Type} (d : GeminiDeps σ) (req : GeminiInbound)
    (providers : List GeminiProvider) (s : Relay σ) : Relay σ × Option GeminiResponse :=
  if req.bodyReadErr then (s, some .badRequest)
  else
    let affinityKey := GenerateAffinityKey req.userID "gemini" req.geminiModel
    if providers.length = 0 then (s, some (.notFound "no gemini providers configured"))
    else
      let active := selectActiveGemini d s.blacklist providers
      if active.length = 0 then
        (s, some (.notFound "no active gemini provider (all disabled or blacklisted)"))
      else
        let groups := groupByLevelGemini active
        let levels := (groups.map Prod.fst).insertionSort (fun a b => a ≤ b)
        if d.blacklistService.ShouldUseFixedMode s.blacklist then
          geminiBlacklistAnswer
            (geminiBlacklistLevels d req.isStream
              (d.blacklistService.GetRetryConfig s.blacklist) groups levels s {})
        else
          let roundRobinEnabled :=
            if d.blacklistService.ShouldUseFixedMode s.blacklist then false
            else d.EnableRoundRobin
          let got := s.affinity.Get affinityKey (d.now s.calls)
          let s1 : Relay σ := { s with affinity := got.2 }
          let tried :=
            if got.1 != "" then
              tryGeminiAffinityProvider d affinityKey got.1 active req.isStream s1
            else ({}, s1)
          if got.1 != "" && tried.1.Handled then (tried.2, none)
          else
            let a : GeminiAttempts :=
              if got.1 != "" && tried.1.UsedProvider != "" then
                { lastError := tried.1.LastError }
              else {}
            geminiFailoverAnswer
              (geminiFailoverLevels d req.isStream affinityKey got.1 roundRobinEnabled groups
                levels tried.2 a)

/-- No event of the list is a forward attempt that failed after the response
had been written. -/
def NoWritten (l : List Event) : Prop :=
  ∀ P, Event.forward P Outcome.failureWritten ∉ l

/-- What the loops of the Gemini handler guarantee from the state `s` on: while
they go on, no attempt has failed with the response written; when they return,
either that is still so, or the appended events end with one such attempt
followed by events among which exactly one is a recorded failure, for that
provider, and none is a forward. -/
def GeminiPost {σ : Type} (s : Relay σ) : GeminiFlow σ → Prop
  | .running s1 _ => ∃ rest, s1.trace = s.trace ++ rest ∧ NoWritten rest
  | .returned s1 =>
    ∃ rest, s1.trace = s.trace ++ rest ∧
      (NoWritten rest ∨
        ∃ pre P tail, rest = pre ++ Event.forward P Outcome.failureWritten :: tail ∧
          NoWritten pre ∧ NoWritten tail ∧
          tail.filter Event.isRecordFailure = [Event.recordFailure "gemini" P] ∧
          ∀ e ∈ tail, e.isForward = false)

/-! ## Trace predicates -/

/-- No event of the list is a successful forward. -/
def NoSuccess (rest : List Event) : Prop :=
  ∀ B, Event.forward B Outcome.success ∉ rest

/-- No event of the list is a forward to `A` or a failure recorded for `A`. -/
def Avoids (kind A : String) (rest : List Event) : Prop :=
  ∀ e ∈ rest, e.forwardName ≠ some A ∧ e ≠ Event.recordFailure kind A

/-- What the failover loops guarantee from the state `s` on, when the cached
provider is `A`: either they go on, having appended only events that avoid `A`
and no success, with the affinity cache untouched; or they return right after
a success of some `B ≠ A`, followed by `Set(key, B)` and `RecordSuccess(B)`. -/
def FailoverPost {σ : Type} (kind key A : String) (s : Relay σ) : Flow σ → Prop
  | .running s1 _ =>
    ∃ rest, s1.trace = s.trace ++ rest ∧ Avoids kind A rest ∧ NoSuccess rest ∧
      s1.affinity = s.affinity
  | .returned s1 =>
    ∃ rest B t, s1.trace = s.trace ++ (rest ++ [Event.forward B Outcome.success,
        Event.affinitySet key B, Event.recordSuccess kind B]) ∧
      Avoids kind A rest ∧ NoSuccess rest ∧ B ≠ A ∧ s1.affinity = s.affinity.Set key B t

/-- What the blacklist-retry loops guarantee from the state `s` on when every
attempt fails: they go on (they never return), the forward calls appended are
exactly `calls`, `totalAttempts` grows by `attempts`, the configuration of the
store is unchanged and so is the entry of every provider outside `touched`. -/
def BlacklistPost (kind : String) (calls : List String) (attempts : Int)
    (touched : List String) (s : Relay BlacklistStore) (a : Attempts) :
    Flow BlacklistStore → Prop
  | .returned _ => False
  | .running s1 a1 =>
    ∃ rest, s1.trace = s.trace ++ rest ∧
      rest.filterMap Event.forwardName = calls ∧
      a1.totalAttempts = a.totalAttempts + attempts ∧
      s1.blacklist.fixedMode = s.blacklist.fixedMode ∧
      s1.blacklist.retry = s.blacklist.retry ∧
      ∀ x, x ∉ touched → s1.blacklist.entry kind x = s.blacklist.entry kind x

/-- Scenario S3: every upstream call answers 502. -/
def alwaysBadGateway : Nat → ForwardCall → Exchange :=
  fun _ _ => { resp := some 502 }

/-- Scenario S4: provider A answers 500, every other provider answers 200. -/
def s4Upstream : Nat → ForwardCall → Exchange :=
  fun _ call => if call.provider.Name = "A" then { resp := some 500 } else { resp := some 200 }

/-- Scenario S4: the affinity cache names A for the key of the request. -/
def s4Relay : Relay BlacklistStore :=
  { blacklist := {}, affinity := (NewCacheAffinityManager 300000).Set "user1:claude:m" "A" 0 }

/-- What the Gemini handler guarantees about the events `new` it appends and
its answer: either no attempt failed with the response written, or `new` ends
with one such attempt followed by events among which exactly one is a recorded
failure, for that provider, and none is a forward, and no error answer is
written. -/
def GeminiFinal {σ : Type} (s : Relay σ) (out : Relay σ × Option GeminiResponse) : Prop :=
  ∃ new, out.1.trace = s.trace ++ new ∧
    (NoWritten new ∨
      ∃ pre P tail, new = pre ++ Event.forward P Outcome.failureWritten :: tail ∧
        NoWritten pre ∧ NoWritten tail ∧
        tail.filter Event.isRecordFailure = [Event.recordFailure "gemini" P] ∧
        (∀ e ∈ tail, e.isForward = false) ∧ out.2 = none)

/-- A Gemini upstream whose first stream breaks after the first flush. -/
def geminiStreamBreaks : Nat → GeminiProvider → GeminiExchange :=
  fun n _ => if n = 0 then { status := 200, copyErr := some "connection reset by peer" }
    else { status := 200 }

/-- Dependencies of the Gemini scenarios. -/
def geminiScenarioDeps (exchange : Nat → GeminiProvider → GeminiExchange) :
    GeminiDeps BlacklistStore where
  blacklistService := specBlacklistService
  exchange := exchange
  now := fun n => 1000 * (n + 1)
  EnableRoundRobin := false

/-- An enabled Gemini provider of the given name and level. -/
def geminiScenarioProvider (name : String) (level : Int) : GeminiProvider :=
  { Name := name, BaseURL := "https://" ++ name ++ ".example", APIKey := "k-" ++ name,
    Enabled := true, Level := level, Model := "gemini-2.5-pro" }

/-! ## Token usage (`RequestLog`, `mergeGeminiUsageMetadata`) -/

/-- The fields of `RequestLog` the routing engine writes (costs and timestamps
are filled in elsewhere). -/
structure RequestLog where
  Platform : String := ""
  Model : String := ""
  Provider : String := ""
  HttpCode : Int := 0
  InputTokens : Int := 0
  OutputTokens : Int := 0
  CacheCreateTokens : Int := 0
  CacheReadTokens : Int := 0
  ReasoningTokens : Int := 0
  IsStream : Bool := false
  deriving DecidableEq, Repr

/-- A `usageMetadata` object as `gjson` presents it: each count is either
missing or an integer (`Int()` of a missing count is 0). -/
structure UsageMetadata where
  promptTokenCount : Option Int := none
  candidatesTokenCount : Option Int := none
  cachedContentTokenCount : Option Int := none
  thoughtsTokenCount : Option Int := none
  totalTokenCount : Option Int := none
  deriving DecidableEq, Repr

/-- `mergeGeminiUsageMetadata`; `none` is a result for which `Exists()` is false.
The four guarded assignments and the final estimate are the successive values
of the fields of `reqLog`. -/
def mergeGeminiUsageMetadata (usage : Option UsageMetadata) (reqLog : RequestLog) : RequestLog :=
  match usage with
  | none => reqLog
  | some u =>
    let inputTokens :=
      if u.promptTokenCount.getD 0 > reqLog.InputTokens then u.promptTokenCount.getD 0
      else reqLog.InputTokens
    let outputTokens :=
      if u.candidatesTokenCount.getD 0 > reqLog.OutputTokens then u.candidatesTokenCount.getD 0
      else reqLog.OutputTokens
    let cacheReadTokens :=
      if u.cachedContentTokenCount.getD 0 > reqLog.CacheReadTokens then
        u.cachedContentTokenCount.getD 0
      else reqLog.CacheReadTokens
    let reasoningTokens :=
      if u.thoughtsTokenCount.getD 0 > reqLog.ReasoningTokens then u.thoughtsTokenCount.getD 0
      else reqLog.ReasoningTokens
    let total := u.totalTokenCount.getD 0
    let estimated :=
      if total > 0 ∧ outputTokens = 0 ∧ inputTokens > 0 ∧ inputTokens < total then
        total - inputTokens
      else outputTokens
    { reqLog with InputTokens := inputTokens, OutputTokens := estimated,
                  CacheReadTokens := cacheReadTokens, ReasoningTokens := reasoningTokens }

/-- Feed the `usageMetadata` objects of the chunks of one stream, in order. -/
def mergeGeminiChunks (us : List UsageMetadata) (reqLog : RequestLog) : RequestLog :=
  us.foldl (fun acc u => mergeGeminiUsageMetadata (some u) acc) reqLog

/-- The orders returned by `n` consecutive calls of `roundRobinOrder` with the same
platform, level and tier, each call starting from the `rrLastStart` the previous
one left. -/
def roundRobinCalls (platform : String) (level : Int) (tier : List Provider) :
    Nat → List (String × String) → List (List Provider)
  | 0, _ => []
  | n + 1, rr =>
    (roundRobinOrder rr platform level tier).1 ::
      roundRobinCalls platform level tier n (roundRobinOrder rr platform level tier).2

/-! ## `forwardRequest`: target URL and outbound headers -/

/-- `AuthMethod`: the credential style of the inbound request. -/
inductive AuthMethod where
  | AuthMethodBearer
  | AuthMethodXAPIKey
  deriving DecidableEq, Repr

/-- `detectAuthMethod`. -/
def detectAuthMethod (header : Header) : AuthMethod :=
  if Header.Get header "X-Api-Key" ≠ "" then .AuthMethodXAPIKey else .AuthMethodBearer

/-- `http.Header.Add`: append a value under the canonical form of `key`. -/
def Header.Add (h : Header) (key value : String) : Header :=
  mapSet h (CanonicalHeaderKey key) ((mapGet h (CanonicalHeaderKey key)).getD [] ++ [value])

/-- `strings.TrimSuffix`. -/
def TrimSuffix (s suffix : String) : String :=
  if suffix.data.isSuffixOf s.data then
    String.mk (s.data.take (s.data.length - suffix.data.length))
  else s

/-- `strings.TrimPrefix`. -/
def TrimPrefix (s pre : String) : String :=
  if pre.data.isPrefixOf s.data then String.mk (s.data.drop pre.data.length) else s

/-- `joinURL`. -/
def joinURL (base endpoint : String) : String :=
  TrimSuffix base "/" ++ ("/" ++ TrimPrefix endpoint "/")

/-- The target URL of `forwardRequest`. `withQuery` stands for the library calls
that merge the query parameters into a URL (`url.Parse`, `Query().Set`, `Encode`,
`String`, the URL being left as it is when it does not parse). -/
def forwardRequestTargetURL (withQuery : String → List (String × String) → String)
    (provider : Provider) (endpoint : String) (query : List (String × String)) : String :=
  let targetURL := joinURL provider.APIURL endpoint
  if query.length > 0 then withQuery targetURL query else targetURL

/-- The map `headers` of `forwardRequest` once the credential of the provider and
the default `Accept` are in place. -/
def forwardRequestHeaders (clientHeaders : Header) (authMethod : AuthMethod)
    (provider : Provider) : Header :=
  let copied : Header := clientHeaders.foldl (fun hs e => mapSet hs e.1 e.2) []
  let withAuth : Header :=
    match authMethod with
    | .AuthMethodXAPIKey =>
      Header.Del (Header.Set copied "X-Api-Key" provider.APIKey) "Authorization"
    | .AuthMethodBearer =>
      Header.Del (Header.Set copied "Authorization" ("Bearer " ++ provider.APIKey)) "X-Api-Key"
  if Header.Get withAuth "Accept" = "" then Header.Set withAuth "Accept" "application/json"
  else withAuth

/-- The header of the outbound request: every value of `headers` added in turn,
then `Content-Type` set. -/
def outboundRequestHeader (headers : Header) : Header :=
  Header.Set (headers.foldl (fun req e => e.2.foldl (fun r v => Header.Add r e.1 v) req) [])
    "Content-Type" "application/json"

/-- The outbound header of an attempt of the handler, which passes
`cloneHeaders` and `detectAuthMethod` of the inbound header to `forwardRequest`. -/
def outboundHeaders (inbound : Header) (provider : Provider) : Header :=
  outboundRequestHeader
    (forwardRequestHeaders (cloneHeaders inbound) (detectAuthMethod inbound) provider)

/-- A header map as Go holds it: no name twice, every name in canonical form. -/
def CanonicalKeys (h : Header) : Prop :=
  (h.map Prod.fst).Nodup ∧ ∀ k ∈ h.map Prod.fst, CanonicalHeaderKey k = k

/-! ## SSE usage parsing -/

/-- The library calls of the SSE parsers: `strings.TrimSpace`, the read
`gjson.Get(data, path).Int()`, and the object `gjson.Get(data, "usageMetadata")`
(`none` when `Exists()` is false). A Go string is a list with one element per
byte. -/
structure SSELib where
  TrimSpace : List Char → List Char
  gjsonInt : List Char → String → Int
  usageMetadata : List Char → Option UsageMetadata

/-- `strings.HasPrefix`. -/
def bytesHasPrefix (s pre : List Char) : Bool := pre.isPrefixOf s

/-- `strings.TrimPrefix`. -/
def bytesTrimPrefix (s pre : List Char) : List Char :=
  if pre.isPrefixOf s then s.drop pre.length else s

/-- `strings.Index`: the position of the first occurrence, `none` for -1. -/
def bytesIndex (sep : List Char) : List Char → Option Nat
  | [] => if sep.isEmpty then some 0 else none
  | c :: cs =>
    if sep.isPrefixOf (c :: cs) then some 0 else (bytesIndex sep cs).map (fun i => i + 1)

/-- `strings.Contains`. -/
def bytesContains (s sub : List Char) : Bool := (bytesIndex sub s).isSome

/-- `strings.Split(s, "\n")`. -/
def splitLines : List Char → List (List Char)
  | [] => [[]]
  | c :: cs =>
    if c = '\n' then [] :: splitLines cs
    else (c :: (splitLines cs).headD []) :: (splitLines cs).tail

/-- `GeminiParseTokenUsageFromResponse`. -/
def GeminiParseTokenUsageFromResponse (lib : SSELib) (data : List Char) (usage : RequestLog) :
    RequestLog :=
  mergeGeminiUsageMetadata (lib.usageMetadata data) usage

/-- The body of the loop of `parseGeminiSSELine`, for one line. -/
def geminiDataLine (lib : SSELib) (requestLog : RequestLog) (rawLine : List Char) : RequestLog :=
  let line := lib.TrimSpace rawLine
  if !bytesHasPrefix line "data:".data then requestLog
  else
    let data := lib.TrimSpace (bytesTrimPrefix line "data:".data)
    if data = "[DONE]".data ∨ data = [] then requestLog
    else if !bytesContains data "usageMetadata".data then requestLog
    else GeminiParseTokenUsageFromResponse lib data requestLog

/-- `parseGeminiSSELine`. -/
def parseGeminiSSELine (lib : SSELib) (event : List Char) (requestLog : RequestLog) :
    RequestLog :=
  (splitLines event).foldl (geminiDataLine lib) requestLog

/-- The search of `parseGeminiSSEWithBuffer` for the end of the first complete
event: just after the first blank line, `none` when the loop breaks. -/
def nextEventEnd (content : List Char) : Option Nat :=
  match bytesIndex "\n\n".data content with
  | some idx => some (idx + 2)
  | none =>
    match bytesIndex "\r\n\r\n".data content with
    | some idx => some (idx + 4)
    | none => none

/-- The loop of `parseGeminiSSEWithBuffer`, at most `fuel` iterations: the
residue and the request log when it stops. -/
def geminiEventLoop (lib : SSELib) : Nat → List Char → RequestLog → List Char × RequestLog
  | 0, content, requestLog => (content, requestLog)
  | fuel + 1, content, requestLog =>
    match nextEventEnd content with
    | none => (content, requestLog)
    | some idx =>
      geminiEventLoop lib fuel (content.drop idx)
        (parseGeminiSSELine lib (content.take idx) requestLog)

/-- `parseGeminiSSEWithBuffer`: the new buffer and the request log. Every
iteration removes at least two bytes, so the length of the content bounds the
number of iterations. -/
def parseGeminiSSEWithBuffer (lib : SSELib) (chunk lineBuf : List Char)
    (requestLog : RequestLog) : List Char × RequestLog :=
  geminiEventLoop lib (lineBuf ++ chunk).length (lineBuf ++ chunk) requestLog

/-- `streamGeminiResponseWithHook` on a body whose reads return `chunks` in turn
and then the end of the stream (every write to the client succeeding): the
request log when it returns. -/
def streamGeminiResponseWithHook (lib : SSELib) (chunks : List (List Char))
    (requestLog : RequestLog) : RequestLog :=
  let st := chunks.foldl
    (fun (st : List Char × RequestLog) chunk =>
      if chunk.length > 0 then parseGeminiSSEWithBuffer lib chunk st.1 st.2 else st)
    ([], requestLog)
  if st.1.length > 0 then parseGeminiSSELine lib st.1 st.2 else st.2

/-- `ClaudeCodeParseTokenUsageFromResponse`. -/
def ClaudeCodeParseTokenUsageFromResponse (lib : SSELib) (data : List Char)
    (usage : RequestLog) : RequestLog :=
  { usage with
    InputTokens := usage.InputTokens + lib.gjsonInt data "message.usage.input_tokens"
      + lib.gjsonInt data "usage.input_tokens"
    OutputTokens := usage.OutputTokens + lib.gjsonInt data "message.usage.output_tokens"
      + lib.gjsonInt data "usage.output_tokens"
    CacheCreateTokens := usage.CacheCreateTokens
      + lib.gjsonInt data "message.usage.cache_creation_input_tokens"
    CacheReadTokens := usage.CacheReadTokens
      + lib.gjsonInt data "message.usage.cache_read_input_tokens" }

/-- `CodexParseTokenUsageFromResponse`. -/
def CodexParseTokenUsageFromResponse (lib : SSELib) (data : List Char)
    (usage : RequestLog) : RequestLog :=
  { usage with
    InputTokens := usage.InputTokens + lib.gjsonInt data "response.usage.input_tokens"
    OutputTokens := usage.OutputTokens + lib.gjsonInt data "response.usage.output_tokens"
    CacheReadTokens := usage.CacheReadTokens
      + lib.gjsonInt data "response.usage.input_tokens_details.cached_tokens"
    ReasoningTokens := usage.ReasoningTokens
      + lib.gjsonInt data "response.usage.output_tokens_details.reasoning_tokens" }

/-- `parseEventPayload`. -/
def parseEventPayload (lib : SSELib) (payload : List Char)
    (parser : List Char → RequestLog → RequestLog) (usage : RequestLog) : RequestLog :=
  (splitLines payload).foldl
    (fun acc rawLine =>
      let line := lib.TrimSpace rawLine
      if bytesHasPrefix line "data:".data then parser (bytesTrimPrefix line "data: ".data) acc
      else acc)
    usage

/-- `RequestLogHook`: the request log after the hook has seen `data`. -/
def RequestLogHook (lib : SSELib) (kind : String) (usage : RequestLog) (data : List Char) :
    RequestLog :=
  let payload := lib.TrimSpace data
  let parserFn :=
    if kind = "codex" then CodexParseTokenUsageFromResponse lib
    else if kind = "gemini" then GeminiParseTokenUsageFromResponse lib
    else ClaudeCodeParseTokenUsageFromResponse lib
  parseEventPayload lib payload parserFn usage

/-- `copyResponseBodyWithHookAndCollector` with the hook of `RequestLogHook` on a
body whose reads return `chunks` in turn: the request log at the end. -/
def copyResponseBodyWithHook (lib : SSELib) (kind : String) (chunks : List (List Char))
    (usage : RequestLog) : RequestLog :=
  chunks.foldl (fun acc data => if data.length > 0 then RequestLogHook lib kind acc data else acc)
    usage

/-- The white space of `strings.TrimSpace` among the ASCII bytes. -/
def asciiSpace (c : Char) : Bool :=
  c = ' ' || c = '\t' || c = '\n' || c = '\r' || c.toNat = 11 || c.toNat = 12

/-- `strings.TrimSpace` on a string of ASCII bytes. -/
def asciiTrimSpace (s : List Char) : List Char :=
  ((s.dropWhile asciiSpace).reverse.dropWhile asciiSpace).reverse

/-- Library of the scenarios, for ASCII streams: `gjson` finds the counts given
for the JSON text given and nothing in any other text. -/
def scenarioSSELib (json : List Char) (ints : List (String × Int))
    (usage : Option UsageMetadata) : SSELib where
  TrimSpace := asciiTrimSpace
  gjsonInt := fun data path => if data = json then (mapGet ints path).getD 0 else 0
  usageMetadata := fun data => if data = json then usage else none

/-! ## Request details (`services/requestdetailcache.go`) -/

/-- `TruncateBody`: the kept bytes and the flag; `none` is the panic of the slice
expression `body[:maxSize]` when `maxSize` is negative. -/
def TruncateBody (body : List Char) (maxSize : Int) : Option (List Char × Bool) :=
  if (body.length : Int) ≤ maxSize then some (body, false)
  else if maxSize < 0 then none
  else some (body.take maxSize.toNat, true)

/-- A UTF-8 continuation byte. -/
def isContinuationByte (b : Char) : Bool := 0x80 ≤ b.toNat && b.toNat ≤ 0xBF

/-- For the first byte of a multi-byte UTF-8 sequence: the length of the sequence
and the bounds of its second byte; `none` for an ASCII byte and for a byte that
starts no sequence. -/
def utf8Lead (b0 : Nat) : Option (Nat × Nat × Nat) :=
  if 0xC2 ≤ b0 ∧ b0 ≤ 0xDF then some (2, 0x80, 0xBF)
  else if b0 = 0xE0 then some (3, 0xA0, 0xBF)
  else if 0xE1 ≤ b0 ∧ b0 ≤ 0xEC then some (3, 0x80, 0xBF)
  else if b0 = 0xED then some (3, 0x80, 0x9F)
  else if 0xEE ≤ b0 ∧ b0 ≤ 0xEF then some (3, 0x80, 0xBF)
  else if b0 = 0xF0 then some (4, 0x90, 0xBF)
  else if 0xF1 ≤ b0 ∧ b0 ≤ 0xF3 then some (4, 0x80, 0xBF)
  else if b0 = 0xF4 then some (4, 0x80, 0x8F)
  else none

/-- The number of bytes a `for i := range s` loop advances over at the start of
the string: the length of a well-formed UTF-8 sequence, 1 for an ASCII byte and
for a malformed or truncated sequence. -/
def runeWidth : List Char → Nat
  | [] => 1
  | b0 :: rest =>
    match utf8Lead b0.toNat with
    | none => 1
    | some (size, lo, hi) =>
      match rest with
      | [] => 1
      | b1 :: rest2 =>
        if b1.toNat < lo ∨ hi < b1.toNat then 1
        else if size ≤ 2 then 2
        else
          match rest2 with
          | [] => 1
          | b2 :: rest3 =>
            if !isContinuationByte b2 then 1
            else if size ≤ 3 then 3
            else
              match rest3 with
              | [] => 1
              | b3 :: _ => if !isContinuationByte b3 then 1 else 4

/-- The loop of `toLower`: `skip` bytes of the current character are still to be
passed over; they stay 0 in the result, as `make` left them. The byte at the
start of a character is copied, moved to lower case when it is `A` to `Z`. -/
def toLowerFrom : Nat → List Char → List Char
  | _, [] => []
  | 0, c :: rest =>
    (if 'A' ≤ c ∧ c ≤ 'Z' then Char.ofNat (c.toNat + 32) else c) ::
      toLowerFrom (runeWidth (c :: rest) - 1) rest
  | skip + 1, _ :: rest => Char.ofNat 0 :: toLowerFrom skip rest

/-- `toLower`: the loop `for i := range s` visits the first byte of every
character only. -/
def toLower (s : List Char) : List Char := toLowerFrom 0 s

/-- The map `sensitiveKeys` of `SanitizeHeaders`. -/
def sensitiveKeys : List (List Char × Bool) :=
  [("authorization".data, true), ("x-api-key".data, true), ("x-goog-api-key".data, true),
   ("api-key".data, true), ("bearer".data, true)]

/-- The value stored for a sensitive key. -/
def sanitizeValue (v : List Char) : List Char :=
  if v.length > 12 then v.take 8 ++ "****".data ++ v.drop (v.length - 4)
  else if v.length > 4 then v.take 4 ++ "****".data
  else "****".data

/-- One iteration of the loop of `SanitizeHeaders`. -/
def sanitizeStep (sanitized : List (List Char × List Char)) (e : List Char × List Char) :
    List (List Char × List Char) :=
  let lowerKey := toLower e.1
  if (mapGet sensitiveKeys lowerKey).getD false then mapSet sanitized e.1 (sanitizeValue e.2)
  else mapSet sanitized e.1 e.2

/-- `SanitizeHeaders`. -/
def SanitizeHeaders (headers : List (List Char × List Char)) : List (List Char × List Char) :=
  headers.foldl sanitizeStep []

/-- What `SanitizeHeaders` stores for one entry of the map. -/
def sanitizeEntry (e : List Char × List Char) : List Char × List Char :=
  (e.1, if (mapGet sensitiveKeys (toLower e.1)).getD false then sanitizeValue e.2 else e.2)

/-! ## The listening address -/

/-- The fields of `ProviderRelayService` that are plain data. -/
structure ProviderRelayService where
  addr : String
  rrLastStart : List (String × String)
  deriving DecidableEq, Repr

/-- `NewProviderRelayService`, for its `addr` argument. -/
def NewProviderRelayService (addr : String) : ProviderRelayService :=
  { addr := if addr = "" then "127.0.0.1:18100" else addr, rrLastStart := [] }

/-- `Addr`. -/
def ProviderRelayService.Addr (prs : ProviderRelayService) : String := prs.addr

/-- The `Addr` field of the `http.Server` that `Start` creates. -/
def ProviderRelayService.serverAddr (prs : ProviderRelayService) : String := prs.addr

/-- The host of a `host:port` address: what stands before the last colon. -/
def listenHost (addr : String) : List Char :=
  (addr.data.reverse.dropWhile (fun c => c != ':')).drop 1 |>.reverse

/-- A listening address is a loopback address when its host is `localhost`,
`[::1]` or an address of the block 127.0.0.0/8. -/
def isLoopbackAddr (addr : String) : Bool :=
  listenHost addr = "localhost".data || listenHost addr = "[::1]".data ||
    "127.".data.isPrefixOf (listenHost addr)

/-! ## The stream forwarder -/

/-- The error of a read of the upstream body. -/
inductive ReadError where
  | eof
  | other (text : String)
  deriving DecidableEq, Repr

/-- `MaxStreamResponseSize`. -/
def MaxStreamResponseSize : Nat := 500 * 1024

/-- The state of `copyResponseBodyWithHookAndCollector` between two reads: the
chunks written to the client so far (in order), the request log the hook
updates, and the bytes collected. -/
structure CopyState where
  written : List (List Char)
  usage : RequestLog
  collected : List Char
  deriving DecidableEq, Repr

/-- What `copyResponseBodyWithHookAndCollector` leaves when it returns: the last
state and the error returned (`none` for nil). -/
structure CopyResult where
  state : CopyState
  err : Option String
  deriving DecidableEq, Repr

/-- The body of the loop for the bytes of one read: nothing for an empty read;
otherwise the hook of `RequestLogHook` (which returns the bytes as they are), the
collector if there is one, and the write to the client. `writeErr k` is the error
of the write that follows `k` successful ones; a write error is returned with
the state it leaves (the hook and the collector have run, nothing is written). -/
def copyChunk (lib : SSELib) (kind : String) (writeErr : Nat → Option String)
    (collect : Bool) (st : CopyState) (data : List Char) : CopyState × Option String :=
  if data.length > 0 then
    let usage := RequestLogHook lib kind st.usage data
    let collected :=
      if collect ∧ st.collected.length < MaxStreamResponseSize then
        st.collected ++ data.take (min data.length (MaxStreamResponseSize - st.collected.length))
      else st.collected
    match writeErr st.written.length with
    | some e => ({ written := st.written, usage := usage, collected := collected }, some e)
    | none => ({ written := st.written ++ [data], usage := usage, collected := collected }, none)
  else (st, none)

/-- The loop of `copyResponseBodyWithHookAndCollector` on a body whose reads
return the chunks of `reads` without error and then `final` with its error. -/
def copyLoop (lib : SSELib) (kind : String) (writeErr : Nat → Option String) (collect : Bool)
    (final : List Char × ReadError) : List (List Char) → CopyState → CopyResult
  | [], st =>
    match copyChunk lib kind writeErr collect st final.1 with
    | (st1, some e) => { state := st1, err := some e }
    | (st1, none) =>
      match final.2 with
      | .eof => { state := st1, err := none }
      | .other text => { state := st1, err := some text }
  | data :: rest, st =>
    match copyChunk lib kind writeErr collect st data with
    | (st1, some e) => { state := st1, err := some e }
    | (st1, none) => copyLoop lib kind writeErr collect final rest st1

/-- `copyResponseBodyWithHookAndCollector` with the hook `RequestLogHook(c, kind,
usage)`. -/
def copyResponseBodyWithHookAndCollector (lib : SSELib) (kind : String)
    (writeErr : Nat → Option String) (collect : Bool) (reads : List (List Char))
    (final : List Char × ReadError) (usage : RequestLog) : CopyResult :=
  copyLoop lib kind writeErr collect final reads { written := [], usage := usage, collected := [] }

/-- The request log `forwardRequest` writes when the upstream answered with
`status` and no error: the status, and for a status 0 or 2xx what the hook
found while the body was copied to the client. -/
def forwardRequestLog (lib : SSELib) (kind : String) (provider : Provider) (model : String)
    (isStream : Bool) (status : Int) (writeErr : Nat → Option String) (collect : Bool)
    (reads : List (List Char)) (final : List Char × ReadError) : RequestLog :=
  let requestLog : RequestLog :=
    { Platform := kind, Provider := provider.Name, Model := model, IsStream := isStream,
      HttpCode := status }
  if status = 0 ∨ (200 ≤ status ∧ status < 300) then
    (copyResponseBodyWithHookAndCollector lib kind writeErr collect reads final requestLog).state.usage
  else requestLog

/-! ## Network-level retry (`RetryTransport`) -/

/-- The flags of a `net.DNSError`. -/
structure DNSFlags where
  IsNotFound : Bool
  IsTemporary : Bool
  IsTimeout : Bool
  deriving DecidableEq, Repr

/-- One error of a chain, as the type tests of `errors.As` see it: a
`*net.OpError` with the results of its methods `Timeout` and `Error`, a
`*net.DNSError` with its flags, or an error of another type, which may implement
`net.Error` and then has a result of `Timeout`. -/
inductive ChainError where
  | opError (timeout : Bool) (text : List Char)
  | dnsError (flags : DNSFlags)
  | otherError (isNetError : Bool) (timeout : Bool)
  deriving DecidableEq, Repr

/-- An error value: the error itself followed by the errors it wraps in the order
`errors.As` visits them, the text of `Error()`, and the results of `errors.Is`
for `context.Canceled` and `context.DeadlineExceeded`. -/
structure GoError where
  chain : List ChainError
  text : List Char
  isCanceled : Bool := false
  isDeadlineExceeded : Bool := false
  deriving DecidableEq, Repr

/-- The result of `Timeout()` when the error implements `net.Error`. Both
`*net.OpError` and `*net.DNSError` do; the method of `*net.DNSError` returns its
field `IsTimeout`. -/
def ChainError.netErrorTimeout : ChainError → Option Bool
  | .opError timeout _ => some timeout
  | .dnsError flags => some flags.IsTimeout
  | .otherError isNetError timeout => if isNetError then some timeout else none

/-- The target of `errors.As(err, &opErr)`: the text of `opErr.Error()`. -/
def ChainError.asOpError : ChainError → Option (List Char)
  | .opError _ text => some text
  | _ => none

/-- The target of `errors.As(err, &dnsErr)`. -/
def ChainError.asDNSError : ChainError → Option DNSFlags
  | .dnsError flags => some flags
  | _ => none

/-- The list `transientErrors` of `isTransientNetworkError`. -/
def transientErrors : List (List Char) :=
  ["unexpected eof".data, "read: eof".data, " eof".data, "eof\n".data, "broken pipe".data,
   "connection reset by peer".data, "tls handshake timeout".data]

/-- `isTransientNetworkError`; `ToLower` is `strings.ToLower` and `none` is the nil
error. -/
def isTransientNetworkError (ToLower : List Char → List Char) (err : Option GoError) : Bool :=
  match err with
  | none => false
  | some e =>
    if e.chain.findSome? ChainError.netErrorTimeout = some true then true
    else
      match e.chain.findSome? ChainError.asOpError with
      | some opText =>
        bytesContains (ToLower opText) "reset".data ||
          bytesContains (ToLower opText) "broken pipe".data
      | none =>
        match e.chain.findSome? ChainError.asDNSError with
        | some dnsErr =>
          if dnsErr.IsNotFound then false else dnsErr.IsTemporary || dnsErr.IsTimeout
        | none => transientErrors.any (fun te => bytesContains (ToLower e.text) te)

/-- What `RoundTrip` of `RetryTransport` returns, with the number of calls of the
base transport it made: a response (named by the call that produced it) or an
error; `bodyReset` marks the error of `GetBody`. -/
structure RoundTripResult where
  resp : Option Nat
  err : Option GoError
  bodyReset : Bool := false
  baseCalls : Nat
  deriving DecidableEq, Repr

/-- The world of one `RoundTrip`: the error of the request context at the start of
each attempt, the error `GetBody` returns before each retry (`GetBody` being
set), and the error of each call of the base transport (`none`: a response). -/
structure RoundTripEnv where
  ctxErr : Nat → Option GoError
  getBodyErr : Nat → Option GoError
  base : Nat → Option GoError

/-- The loop of `RoundTrip` from attempt `attempt` on, `remaining` iterations
being left before `attempt` exceeds `MaxRetries`. -/
def roundTripLoop (ToLower : List Char → List Char) (env : RoundTripEnv) :
    (remaining : Nat) → (attempt : Nat) → (lastErr : Option GoError) → RoundTripResult
  | 0, attempt, lastErr => { resp := none, err := lastErr, baseCalls := attempt }
  | remaining + 1, attempt, _ =>
    match env.ctxErr attempt with
    | some e => { resp := none, err := some e, baseCalls := attempt }
    | none =>
      match (if attempt > 0 then env.getBodyErr attempt else none) with
      | some e => { resp := none, err := some e, bodyReset := true, baseCalls := attempt }
      | none =>
        match env.base attempt with
        | none => { resp := some attempt, err := none, baseCalls := attempt + 1 }
        | some err =>
          if err.isCanceled || err.isDeadlineExceeded then
            { resp := none, err := some err, baseCalls := attempt + 1 }
          else if !isTransientNetworkError ToLower (some err) then
            { resp := none, err := some err, baseCalls := attempt + 1 }
          else roundTripLoop ToLower env remaining (attempt + 1) (some err)

/-- `RetryTransport.RoundTrip`: attempts 0 to `MaxRetries`. -/
def RoundTrip (ToLower : List Char → List Char) (MaxRetries : Int) (env : RoundTripEnv) :
    RoundTripResult :=
  roundTripLoop ToLower env (MaxRetries + 1).toNat 0 none

/-! ## The ring buffer of request details -/

/-- `RequestDetail` (the fields the cache reads, and what tells two details apart). -/
structure RequestDetail where
  SequenceID : Int
  Provider : String := ""
  HttpCode : Int := 0
  deriving DecidableEq, Repr

/-- `RequestDetailCache`. -/
structure RequestDetailCache where
  mode : String
  buffer : List (Option RequestDetail)
  capacity : Nat
  head : Nat
  count : Nat
  seqToIndex : List (Int × Nat)
  deriving DecidableEq, Repr

/-- `DefaultCacheCapacity`. -/
def DefaultCacheCapacity : Nat := 100

/-- `NewRequestDetailCache`. -/
def NewRequestDetailCache (capacity : Int) : RequestDetailCache :=
  let capacity := if capacity ≤ 0 then DefaultCacheCapacity else capacity.toNat
  { mode := "off", buffer := List.replicate capacity none, capacity := capacity,
    head := 0, count := 0, seqToIndex := [] }

/-- `SetMode`. -/
def RequestDetailCache.SetMode (c : RequestDetailCache) (mode : String) : RequestDetailCache :=
  { c with mode := mode }

/-- `Store`; `none` is the nil detail. -/
def RequestDetailCache.Store (c : RequestDetailCache) (detail : Option RequestDetail) :
    RequestDetailCache :=
  match detail with
  | none => c
  | some d =>
    if c.mode = "off" then c
    else
      let seq1 :=
        match (c.buffer[c.head]?).join with
        | some old => mapDel c.seqToIndex old.SequenceID
        | none => c.seqToIndex
      { c with
        buffer := c.buffer.set c.head (some d)
        seqToIndex := mapSet seq1 d.SequenceID c.head
        head := (c.head + 1) % c.capacity
        count := if c.count < c.capacity then c.count + 1 else c.count }

/-- `Get`; `none` is nil. -/
def RequestDetailCache.Get (c : RequestDetailCache) (sequenceID : Int) : Option RequestDetail :=
  match mapGet c.seqToIndex sequenceID with
  | none => none
  | some idx => (c.buffer[idx]?).join

/-- `Clear`. -/
def RequestDetailCache.Clear (c : RequestDetailCache) : RequestDetailCache :=
  { c with buffer := List.replicate c.capacity none, seqToIndex := [], head := 0, count := 0 }

/-- A call on the cache that changes it. -/
inductive CacheOp where
  | store (detail : Option RequestDetail)
  | clear
  | setMode (mode : String)
  deriving DecidableEq, Repr

/-- The cache after one call. -/
def CacheOp.apply (c : RequestDetailCache) : CacheOp → RequestDetailCache
  | .store detail => c.Store detail
  | .clear => c.Clear
  | .setMode mode => c.SetMode mode

/-- The cache after a sequence of calls. -/
def runCacheOps (c : RequestDetailCache) (ops : List CacheOp) : RequestDetailCache :=
  ops.foldl CacheOp.apply c

/-- The state invariant of the ring buffer: the buffer has `capacity` slots, the
occupied slots are the first `count` ones, `head` is the next slot to write, and
every entry of `seqToIndex` points to an occupied slot holding a detail with
that sequence id. -/
def RingInvariant (c : RequestDetailCache) : Prop :=
  0 < c.capacity ∧ c.buffer.length = c.capacity ∧ c.head < c.capacity ∧
  c.count ≤ c.capacity ∧
  (∀ j, j < c.capacity → ((c.buffer[j]?).join.isSome = true ↔ j < c.count)) ∧
  (c.count < c.capacity → c.head = c.count) ∧
  (∀ id i, mapGet c.seqToIndex id = some i →
    ∃ d, c.buffer[i]? = some (some d) ∧ d.SequenceID = id)

/-- The number of occupied slots of the buffer. -/
def occupiedSlots (c : RequestDetailCache) : Nat :=
  (c.buffer.filter (fun slot => slot.isSome)).length

/-! # Properties -/

/-! ## Map lemmas -/

theorem mapGet_mapSet_same {κ α : Type} [DecidableEq κ] (m : List (κ × α)) (k : κ) (v : α) :
    mapGet (mapSet m k v) k = some v := by
  induction m with
  | nil => simp [mapSet, mapGet]
  | cons e m ih =>
    obtain ⟨k', v'⟩ := e
    by_cases h : k' = k
    · simp [mapSet, mapGet, h]
    · simp [mapSet, mapGet, h, ih]

theorem mapGet_mapSet_other {κ α : Type} [DecidableEq κ] (m : List (κ × α)) (k k0 : κ) (v : α)
    (h : k ≠ k0) : mapGet (mapSet m k v) k0 = mapGet m k0 := by
  induction m with
  | nil => simp [mapSet, mapGet, h]
  | cons e m ih =>
    obtain ⟨k', v'⟩ := e
    by_cases h1 : k' = k
    · subst h1
      simp [mapSet, mapGet, h]
    · by_cases h2 : k' = k0
      · subst h2
        simp [mapSet, mapGet, h1]
      · simp [mapSet, mapGet, h1, h2, ih]

theorem mapGet_filter_keep {κ α : Type} [DecidableEq κ] (p : κ × α → Bool) (m : List (κ × α))
    (k : κ) (v : α) (hget : mapGet m k = some v) (hp : p (k, v) = true) :
    mapGet (m.filter p) k = some v := by
  induction m with
  | nil => simp [mapGet] at hget
  | cons e m ih =>
    obtain ⟨k', v'⟩ := e
    by_cases h : k' = k
    · subst h
      simp [mapGet] at hget
      subst hget
      simp [List.filter, hp, mapGet]
    · simp [mapGet, h] at hget
      cases hpe : p (k', v') with
      | true => simp [List.filter, hpe, mapGet, h, ih hget]
      | false => simp [List.filter, hpe, ih hget]

theorem mapGet_mapDel_same {κ α : Type} [DecidableEq κ] (m : List (κ × α)) (k : κ) :
    mapGet (mapDel m k) k = none := by
  induction m with
  | nil => simp [mapDel, mapGet]
  | cons e m ih =>
    obtain ⟨k', v'⟩ := e
    by_cases h : k' = k
    · simpa [mapDel, List.filter, h] using ih
    · simpa [mapDel, List.filter, h, mapGet] using ih

theorem mapGet_mapDel_other {κ α : Type} [DecidableEq κ] (m : List (κ × α)) (k k0 : κ)
    (h : k ≠ k0) : mapGet (mapDel m k) k0 = mapGet m k0 := by
  induction m with
  | nil => simp [mapDel, mapGet]
  | cons e m ih =>
    obtain ⟨k', v'⟩ := e
    by_cases h1 : k' = k
    · subst h1
      simpa [mapDel, List.filter, mapGet, h] using ih
    · by_cases h2 : k' = k0
      · subst h2
        simp [mapDel, List.filter, h1, mapGet]
      · simpa [mapDel, List.filter, h1, mapGet, h2] using ih

/-! ## Canonical header names -/

theorem char_eq_ofNat_toNat (c : Char) : c = Char.ofNat c.toNat := (Char.ofNat_toNat c).symm

theorem toUpper_toNat (c : Char) (h1 : 97 ≤ c.toNat) (h2 : c.toNat ≤ 122) :
    c.toUpper.toNat = c.toNat - 32 := by
  have hc : c.toUpper = Char.ofNat (c.toNat - 32) := by
    simp [Char.toUpper, h1, h2]
  rw [hc]
  generalize c.toNat = n at h1 h2
  interval_cases n <;> rfl

theorem toLower_toNat (c : Char) (h1 : 65 ≤ c.toNat) (h2 : c.toNat ≤ 90) :
    c.toLower.toNat = c.toNat + 32 := by
  have hc : c.toLower = Char.ofNat (c.toNat + 32) := by
    simp [Char.toLower, h1, h2]
  rw [hc]
  generalize c.toNat = n at h1 h2
  interval_cases n <;> rfl

theorem canonicalByte_idem (upper : Bool) (c : Char) :
    canonicalByte upper (canonicalByte upper c) = canonicalByte upper c := by
  cases upper with
  | true =>
    by_cases h : 97 ≤ c.toNat ∧ c.toNat ≤ 122
    · have hu := toUpper_toNat c h.1 h.2
      have h1 : canonicalByte true c = c.toUpper := by simp [canonicalByte, h.1, h.2]
      rw [h1]
      have h2 : ¬ (97 ≤ c.toUpper.toNat ∧ c.toUpper.toNat ≤ 122) := by omega
      simp only [canonicalByte, Bool.true_and, Bool.not_true, Bool.false_and]
      simp only [Bool.and_eq_true, decide_eq_true_eq, h2, if_false]
      simp
    · have h1 : canonicalByte true c = c := by
        simp only [canonicalByte, Bool.true_and, Bool.not_true, Bool.false_and]
        simp only [Bool.and_eq_true, decide_eq_true_eq, h, if_false]
        simp
      rw [h1, h1]
  | false =>
    by_cases h : 65 ≤ c.toNat ∧ c.toNat ≤ 90
    · have hu := toLower_toNat c h.1 h.2
      have h1 : canonicalByte false c = c.toLower := by simp [canonicalByte, h.1, h.2]
      rw [h1]
      have h2 : ¬ (65 ≤ c.toLower.toNat ∧ c.toLower.toNat ≤ 90) := by omega
      simp only [canonicalByte, Bool.false_and, Bool.not_false, Bool.true_and]
      simp only [Bool.and_eq_true, decide_eq_true_eq, h2, if_false]
      simp
    · have h1 : canonicalByte false c = c := by
        simp only [canonicalByte, Bool.false_and, Bool.not_false, Bool.true_and]
        simp only [Bool.and_eq_true, decide_eq_true_eq, h, if_false]
        simp
      rw [h1, h1]

theorem canonicalByte_valid (upper : Bool) (c : Char) (hv : validHeaderFieldByte c = true) :
    validHeaderFieldByte (canonicalByte upper c) = true := by
  cases upper with
  | true =>
    by_cases h : 97 ≤ c.toNat ∧ c.toNat ≤ 122
    · have hu := toUpper_toNat c h.1 h.2
      have h1 : canonicalByte true c = c.toUpper := by simp [canonicalByte, h.1, h.2]
      rw [h1]
      have h3 : 65 ≤ c.toUpper.toNat ∧ c.toUpper.toNat ≤ 90 := by omega
      simp [validHeaderFieldByte, h3.1, h3.2]
    · have h1 : canonicalByte true c = c := by
        simp only [canonicalByte, Bool.true_and, Bool.not_true, Bool.false_and]
        simp only [Bool.and_eq_true, decide_eq_true_eq, h, if_false]
        simp
      rw [h1]; exact hv
  | false =>
    by_cases h : 65 ≤ c.toNat ∧ c.toNat ≤ 90
    · have hu := toLower_toNat c h.1 h.2
      have h1 : canonicalByte false c = c.toLower := by simp [canonicalByte, h.1, h.2]
      rw [h1]
      have h3 : 97 ≤ c.toLower.toNat ∧ c.toLower.toNat ≤ 122 := by omega
      simp [validHeaderFieldByte, h3.1, h3.2]
    · have h1 : canonicalByte false c = c := by
        simp only [canonicalByte, Bool.false_and, Bool.not_false, Bool.true_and]
        simp only [Bool.and_eq_true, decide_eq_true_eq, h, if_false]
        simp
      rw [h1]; exact hv

theorem canonicalMIMEHeaderKey_idem (a : List Char) (upper : Bool) :
    canonicalMIMEHeaderKey upper (canonicalMIMEHeaderKey upper a) =
      canonicalMIMEHeaderKey upper a := by
  induction a generalizing upper with
  | nil => rfl
  | cons c a ih =>
    simp only [canonicalMIMEHeaderKey, canonicalByte_idem, ih]

theorem canonicalMIMEHeaderKey_valid (a : List Char) (upper : Bool)
    (hv : a.all validHeaderFieldByte = true) :
    (canonicalMIMEHeaderKey upper a).all validHeaderFieldByte = true := by
  induction a generalizing upper with
  | nil => rfl
  | cons c a ih =>
    simp only [List.all_cons, Bool.and_eq_true] at hv
    simp only [canonicalMIMEHeaderKey, List.all_cons, Bool.and_eq_true]
    exact ⟨canonicalByte_valid upper c hv.1, ih _ hv.2⟩

/-- Canonicalising a header name twice is the same as canonicalising it once. -/
theorem CanonicalHeaderKey_idem (s : String) :
    CanonicalHeaderKey (CanonicalHeaderKey s) = CanonicalHeaderKey s := by
  by_cases hv : s.data.all validHeaderFieldByte = true
  · have h1 : CanonicalHeaderKey s = String.mk (canonicalMIMEHeaderKey true s.data) := by
      simp only [CanonicalHeaderKey, hv, if_true]
    rw [h1]
    have hv2 := canonicalMIMEHeaderKey_valid s.data true hv
    simp only [CanonicalHeaderKey, hv2, if_true, canonicalMIMEHeaderKey_idem]
  · have h1 : CanonicalHeaderKey s = s := by
      simp only [CanonicalHeaderKey, hv, if_false]
      simp
    rw [h1, h1]

/-! ## `cloneHeaders` -/

theorem cloneHeadersStep_keep (acc : Header) (x : String × List String)
    (hauth : ¬ (CanonicalHeaderKey x.1 = "Authorization" ∨ CanonicalHeaderKey x.1 = "X-Api-Key"))
    (hhop : isHopByHopHeader (CanonicalHeaderKey x.1) = false) :
    cloneHeadersStep acc x = mapSet acc (CanonicalHeaderKey x.1) x.2 := by
  simp [cloneHeadersStep, hauth, hhop]

theorem cloneHeaders_lookup_cases (l : Header) (acc : Header) (n : String) (vs : List String)
    (h : mapGet (l.foldl cloneHeadersStep acc) n = some vs) :
    mapGet acc n = some vs ∨
      ∃ e ∈ l, n = CanonicalHeaderKey e.1 ∧ vs = e.2 ∧
        ¬ (CanonicalHeaderKey e.1 = "Authorization" ∨ CanonicalHeaderKey e.1 = "X-Api-Key") ∧
        isHopByHopHeader (CanonicalHeaderKey e.1) = false := by
  induction l generalizing acc with
  | nil => exact Or.inl h
  | cons x xs ih =>
    simp only [List.foldl_cons] at h
    rcases ih _ h with h1 | ⟨e, he, h2⟩
    · by_cases hauth : CanonicalHeaderKey x.1 = "Authorization" ∨ CanonicalHeaderKey x.1 = "X-Api-Key"
      · simp only [cloneHeadersStep, hauth, if_true] at h1
        exact Or.inl h1
      · cases hhop : isHopByHopHeader (CanonicalHeaderKey x.1) with
        | true =>
          simp only [cloneHeadersStep, hauth, if_false, hhop, if_true] at h1
          exact Or.inl h1
        | false =>
          rw [cloneHeadersStep_keep acc x hauth hhop] at h1
          by_cases hk : CanonicalHeaderKey x.1 = n
          · rw [hk, mapGet_mapSet_same] at h1
            refine Or.inr ⟨x, List.mem_cons_self _ _, hk.symm, ?_, hauth, hhop⟩
            exact (Option.some.inj h1).symm
          · rw [mapGet_mapSet_other _ _ _ _ hk] at h1
            simpa using Or.inl h1
    · exact Or.inr ⟨e, List.mem_cons_of_mem _ he, h2⟩

theorem cloneHeaders_lookup_untouched (l : Header) (acc : Header) (n : String)
    (h : ∀ e ∈ l, CanonicalHeaderKey e.1 ≠ n) :
    mapGet (l.foldl cloneHeadersStep acc) n = mapGet acc n := by
  induction l generalizing acc with
  | nil => rfl
  | cons x xs ih =>
    simp only [List.foldl_cons]
    rw [ih _ (fun e he => h e (List.mem_cons_of_mem _ he))]
    have hx : CanonicalHeaderKey x.1 ≠ n := h x (List.mem_cons_self _ _)
    unfold cloneHeadersStep
    simp only []
    split
    · rfl
    · split
      · rfl
      · exact mapGet_mapSet_other _ _ _ _ hx

theorem cloneHeaders_lookup_value (l : Header) (acc : Header) (e : String × List String)
    (hnd : (l.map (fun x => CanonicalHeaderKey x.1)).Nodup) (he : e ∈ l)
    (hauth : ¬ (CanonicalHeaderKey e.1 = "Authorization" ∨ CanonicalHeaderKey e.1 = "X-Api-Key"))
    (hhop : isHopByHopHeader (CanonicalHeaderKey e.1) = false) :
    mapGet (l.foldl cloneHeadersStep acc) (CanonicalHeaderKey e.1) = some e.2 := by
  induction l generalizing acc with
  | nil => simp at he
  | cons x xs ih =>
    simp only [List.map_cons, List.nodup_cons] at hnd
    simp only [List.foldl_cons]
    rcases List.mem_cons.mp he with hx | hxs
    · subst hx
      rw [cloneHeaders_lookup_untouched]
      · rw [cloneHeadersStep_keep acc e hauth hhop]
        exact mapGet_mapSet_same _ _ _
      · intro y hy hyk
        exact hnd.1 (List.mem_map.mpr ⟨y, hy, hyk⟩)
    · exact ih _ hnd.2 hxs

/-- Whatever the casing of the inbound names, `cloneHeaders` keeps no
`Authorization` and no `X-Api-Key` entry: the two credential headers the source
names are dropped. -/
theorem cloneHeaders_drops_authorization_and_api_key (header : Header) (name : String)
    (hn : CanonicalHeaderKey name = "Authorization" ∨ CanonicalHeaderKey name = "X-Api-Key") :
    mapGet (cloneHeaders header) name = none ∧ Header.Get (cloneHeaders header) name = "" := by
  have key : ∀ n : String,
      (CanonicalHeaderKey n = "Authorization" ∨ CanonicalHeaderKey n = "X-Api-Key") →
      mapGet (cloneHeaders header) n = none := by
    intro n hcn
    cases hg : mapGet (cloneHeaders header) n with
    | none => rfl
    | some vs =>
      rcases cloneHeaders_lookup_cases header [] n vs hg with h0 | ⟨e, _, hne, _, hauth, _⟩
      · simp [mapGet] at h0
      · exfalso
        apply hauth
        have : CanonicalHeaderKey n = CanonicalHeaderKey e.1 := by
          rw [hne, CanonicalHeaderKey_idem]
        rw [← this]; exact hcn
  refine ⟨key name hn, ?_⟩
  have h2 : mapGet (cloneHeaders header) (CanonicalHeaderKey name) = none := by
    apply key
    rw [CanonicalHeaderKey_idem]; exact hn
  simp [Header.Get, h2]

/-- C9 at the failing input: an inbound `X-Goog-Api-Key` header survives
`cloneHeaders`, in canonical or in lower-case spelling, while the test
`TestCloneHeaders_AuthHeadersFiltered` expects it to be filtered. -/
theorem cloneHeaders_keeps_goog_api_key :
    Header.Get (cloneHeaders [("X-Goog-Api-Key", ["AIza-xxx"])]) "X-Goog-Api-Key" = "AIza-xxx" ∧
    Header.Get (cloneHeaders [("x-goog-api-key", ["AIza-xxx"])]) "X-Goog-Api-Key" = "AIza-xxx" ∧
    Header.Get (cloneHeaders [("Authorization", ["Bearer sk-xxx"])]) "Authorization" = "" ∧
    Header.Get (cloneHeaders [("X-Api-Key", ["sk-ant-xxx"])]) "X-Api-Key" = "" := by
  decide

theorem isHopByHopHeader_iff (c : String) :
    isHopByHopHeader c = true ↔
      c ∈ ["Connection", "Keep-Alive", "Proxy-Authenticate", "Proxy-Authorization", "Te",
          "Trailer", "Transfer-Encoding", "Upgrade"] := by
  simp only [isHopByHopHeader, hopByHopHeaders, mapGet]
  split_ifs with h1 h2 h3 h4 h5 h6 h7 h8
  all_goals try subst_vars
  all_goals try simp
  exact ⟨fun h => h1 h.symm, fun h => h2 h.symm, fun h => h3 h.symm, fun h => h4 h.symm,
    fun h => h5 h.symm, fun h => h6 h.symm, fun h => h7 h.symm, fun h => h8 h.symm⟩

/-- C10: for an inbound header set whose names stay pairwise distinct after
canonicalisation, `cloneHeaders` has no entry under any name that canonicalises
to Connection, Keep-Alive, Proxy-Authenticate, Proxy-Authorization, Te (the
canonical form of TE), Trailer, Transfer-Encoding or Upgrade (direct lookup and
`Get` alike), and every inbound header whose canonical name is none of these
eight and none of Authorization, X-Api-Key, X-Goog-Api-Key is found under its
canonical name with exactly its list of values. -/
theorem cloneHeaders_hop_by_hop_and_values (header : Header)
    (hdistinct : (header.map (fun e => CanonicalHeaderKey e.1)).Nodup) :
    ["Connection", "Keep-Alive", "Proxy-Authenticate", "Proxy-Authorization", "TE",
        "Trailer", "Transfer-Encoding", "Upgrade"].map CanonicalHeaderKey =
      ["Connection", "Keep-Alive", "Proxy-Authenticate", "Proxy-Authorization", "Te",
        "Trailer", "Transfer-Encoding", "Upgrade"] ∧
    (∀ name,
        CanonicalHeaderKey name ∈
          ["Connection", "Keep-Alive", "Proxy-Authenticate", "Proxy-Authorization", "Te",
            "Trailer", "Transfer-Encoding", "Upgrade"] →
        mapGet (cloneHeaders header) name = none ∧
        Header.Get (cloneHeaders header) name = "") ∧
    (∀ key values, (key, values) ∈ header →
        CanonicalHeaderKey key ∉
          ["Connection", "Keep-Alive", "Proxy-Authenticate", "Proxy-Authorization", "Te",
            "Trailer", "Transfer-Encoding", "Upgrade"] →
        CanonicalHeaderKey key ∉ ["Authorization", "X-Api-Key", "X-Goog-Api-Key"] →
        mapGet (cloneHeaders header) (CanonicalHeaderKey key) = some values) := by
  have key : ∀ n : String, isHopByHopHeader (CanonicalHeaderKey n) = true →
      mapGet (cloneHeaders header) n = none := by
    intro n hcn
    cases hg : mapGet (cloneHeaders header) n with
    | none => rfl
    | some vs =>
      rcases cloneHeaders_lookup_cases header [] n vs hg with h0 | ⟨e, _, hne, _, _, hhop⟩
      · simp [mapGet] at h0
      · exfalso
        have : CanonicalHeaderKey n = CanonicalHeaderKey e.1 := by
          rw [hne, CanonicalHeaderKey_idem]
        rw [this, hhop] at hcn
        exact Bool.false_ne_true hcn
  refine ⟨by decide, fun name hn => ?_, ?_⟩
  · have hn1 : isHopByHopHeader (CanonicalHeaderKey name) = true :=
      (isHopByHopHeader_iff _).mpr hn
    refine ⟨key name hn1, ?_⟩
    have h2 : mapGet (cloneHeaders header) (CanonicalHeaderKey name) = none := by
      apply key
      rw [CanonicalHeaderKey_idem]; exact hn1
    simp [Header.Get, h2]
  · intro k values hmem hhop hauth
    have hhop1 : isHopByHopHeader (CanonicalHeaderKey k) = false := by
      cases hb : isHopByHopHeader (CanonicalHeaderKey k) with
      | false => rfl
      | true => exact absurd ((isHopByHopHeader_iff _).mp hb) hhop
    have hauth2 : ¬ (CanonicalHeaderKey k = "Authorization" ∨ CanonicalHeaderKey k = "X-Api-Key") := by
      intro h
      apply hauth
      rcases h with h | h <;> simp [h]
    exact cloneHeaders_lookup_value header [] (k, values) hdistinct hmem hauth2 hhop1

/-- Witness for C10: a header set with the eight hop-by-hop names in mixed case, a
multi-valued header and a plain one. Only the last two are in the clone, under
their canonical names and with their values in order. -/
theorem cloneHeaders_hop_by_hop_and_values_witness :
    cloneHeaders
      [("accept-encoding", ["gzip", "deflate", "br"]), ("cOnNeCtIoN", ["keep-alive"]),
        ("keep-alive", ["timeout=5"]), ("PROXY-AUTHENTICATE", ["Basic"]),
        ("proxy-authorization", ["Basic abc"]), ("TE", ["trailers"]), ("trailer", ["Expires"]),
        ("Transfer-encoding", ["chunked"]), ("UPGRADE", ["websocket"]),
        ("x-request-id", ["r1"])] =
      [("Accept-Encoding", ["gzip", "deflate", "br"]), ("X-Request-Id", ["r1"])] ∧
    (mapGet (cloneHeaders
      [("accept-encoding", ["gzip", "deflate", "br"]), ("cOnNeCtIoN", ["keep-alive"]),
        ("keep-alive", ["timeout=5"]), ("PROXY-AUTHENTICATE", ["Basic"]),
        ("proxy-authorization", ["Basic abc"]), ("TE", ["trailers"]), ("trailer", ["Expires"]),
        ("Transfer-encoding", ["chunked"]), ("UPGRADE", ["websocket"]),
        ("x-request-id", ["r1"])]) "cOnNeCtIoN" = none ∧
     Header.Get (cloneHeaders
      [("accept-encoding", ["gzip", "deflate", "br"]), ("cOnNeCtIoN", ["keep-alive"]),
        ("keep-alive", ["timeout=5"]), ("PROXY-AUTHENTICATE", ["Basic"]),
        ("proxy-authorization", ["Basic abc"]), ("TE", ["trailers"]), ("trailer", ["Expires"]),
        ("Transfer-encoding", ["chunked"]), ("UPGRADE", ["websocket"]),
        ("x-request-id", ["r1"])]) "cOnNeCtIoN" = "") ∧
    (mapGet (cloneHeaders
      [("accept-encoding", ["gzip", "deflate", "br"]), ("cOnNeCtIoN", ["keep-alive"]),
        ("keep-alive", ["timeout=5"]), ("PROXY-AUTHENTICATE", ["Basic"]),
        ("proxy-authorization", ["Basic abc"]), ("TE", ["trailers"]), ("trailer", ["Expires"]),
        ("Transfer-encoding", ["chunked"]), ("UPGRADE", ["websocket"]),
        ("x-request-id", ["r1"])]) "TE" = none ∧
     Header.Get (cloneHeaders
      [("accept-encoding", ["gzip", "deflate", "br"]), ("cOnNeCtIoN", ["keep-alive"]),
        ("keep-alive", ["timeout=5"]), ("PROXY-AUTHENTICATE", ["Basic"]),
        ("proxy-authorization", ["Basic abc"]), ("TE", ["trailers"]), ("trailer", ["Expires"]),
        ("Transfer-encoding", ["chunked"]), ("UPGRADE", ["websocket"]),
        ("x-request-id", ["r1"])]) "TE" = "") ∧
    mapGet (cloneHeaders
      [("accept-encoding", ["gzip", "deflate", "br"]), ("cOnNeCtIoN", ["keep-alive"]),
        ("keep-alive", ["timeout=5"]), ("PROXY-AUTHENTICATE", ["Basic"]),
        ("proxy-authorization", ["Basic abc"]), ("TE", ["trailers"]), ("trailer", ["Expires"]),
        ("Transfer-encoding", ["chunked"]), ("UPGRADE", ["websocket"]),
        ("x-request-id", ["r1"])]) (CanonicalHeaderKey "accept-encoding") = some ["gzip", "deflate", "br"] :=
  ⟨by decide,
   (cloneHeaders_hop_by_hop_and_values
      [("accept-encoding", ["gzip", "deflate", "br"]), ("cOnNeCtIoN", ["keep-alive"]),
        ("keep-alive", ["timeout=5"]), ("PROXY-AUTHENTICATE", ["Basic"]),
        ("proxy-authorization", ["Basic abc"]), ("TE", ["trailers"]), ("trailer", ["Expires"]),
        ("Transfer-encoding", ["chunked"]), ("UPGRADE", ["websocket"]),
        ("x-request-id", ["r1"])] (by decide)).2.1 "cOnNeCtIoN" (by decide),
   (cloneHeaders_hop_by_hop_and_values
      [("accept-encoding", ["gzip", "deflate", "br"]), ("cOnNeCtIoN", ["keep-alive"]),
        ("keep-alive", ["timeout=5"]), ("PROXY-AUTHENTICATE", ["Basic"]),
        ("proxy-authorization", ["Basic abc"]), ("TE", ["trailers"]), ("trailer", ["Expires"]),
        ("Transfer-encoding", ["chunked"]), ("UPGRADE", ["websocket"]),
        ("x-request-id", ["r1"])] (by decide)).2.1 "TE" (by decide),
   (cloneHeaders_hop_by_hop_and_values
      [("accept-encoding", ["gzip", "deflate", "br"]), ("cOnNeCtIoN", ["keep-alive"]),
        ("keep-alive", ["timeout=5"]), ("PROXY-AUTHENTICATE", ["Basic"]),
        ("proxy-authorization", ["Basic abc"]), ("TE", ["trailers"]), ("trailer", ["Expires"]),
        ("Transfer-encoding", ["chunked"]), ("UPGRADE", ["websocket"]),
        ("x-request-id", ["r1"])] (by decide)).2.2 "accept-encoding" ["gzip", "deflate", "br"] (by decide) (by decide)
      (by decide)⟩

/-! ## Header rewrite priority -/

theorem mapGet_strip (strip : List String) (h : Header) (c : String) :
    mapGet (stripForwardHeaders h strip) c =
      if (strip.map CanonicalHeaderKey).contains c then none else mapGet h c := by
  induction strip generalizing h with
  | nil => simp [stripForwardHeaders]
  | cons s rest ih =>
    have ih2 := ih (Header.Del h s)
    simp only [stripForwardHeaders, List.foldl_cons] at ih2 ⊢
    rw [ih2]
    by_cases hs : CanonicalHeaderKey s = c
    · subst hs
      simp [Header.Del, mapGet_mapDel_same]
    · have hs2 : ¬ c = CanonicalHeaderKey s := fun h => hs h.symm
      simp [Header.Del, mapGet_mapDel_other _ _ _ hs, hs2]

theorem lookupCanonical_none (m : List (String × String)) (c : String)
    (h : c ∉ m.map (fun e => CanonicalHeaderKey e.1)) : lookupCanonical m c = none := by
  induction m with
  | nil => rfl
  | cons e rest ih =>
    simp only [List.map_cons, List.mem_cons, not_or] at h
    have h1 : ¬ CanonicalHeaderKey e.1 = c := fun hc => h.1 hc.symm
    have := ih h.2
    simp only [lookupCanonical] at this ⊢
    simp [mapGet, h1, this]

theorem mapGet_override (ov : List (String × String)) (h : Header) (c : String)
    (hnd : (ov.map (fun e => CanonicalHeaderKey e.1)).Nodup) :
    mapGet (overrideForwardHeaders h ov) c =
      match lookupCanonical ov c with
      | some v => some [v]
      | none => mapGet h c := by
  induction ov generalizing h with
  | nil => simp [overrideForwardHeaders, lookupCanonical, mapGet]
  | cons e rest ih =>
    simp only [List.map_cons, List.nodup_cons] at hnd
    have ih2 := ih (Header.Set h e.1 e.2) hnd.2
    simp only [overrideForwardHeaders, List.foldl_cons] at ih2 ⊢
    rw [ih2]
    by_cases hk : CanonicalHeaderKey e.1 = c
    · subst hk
      rw [lookupCanonical_none rest _ hnd.1]
      simp [lookupCanonical, mapGet, Header.Set, mapGet_mapSet_same]
    · have : lookupCanonical (e :: rest) c = lookupCanonical rest c := by
        simp [lookupCanonical, mapGet, hk]
      rw [this]
      cases lookupCanonical rest c with
      | some v => rfl
      | none => simp [Header.Set, mapGet_mapSet_other _ _ _ _ hk]

theorem mapGet_extra (ex : List (String × String)) (h : Header) (c : String) :
    mapGet (extraForwardHeaders h ex) c =
      match mapGet h c with
      | some vs => some vs
      | none => (lookupCanonical ex c).map (fun v => [v]) := by
  induction ex generalizing h with
  | nil =>
    simp only [extraForwardHeaders, List.foldl_nil, lookupCanonical, List.map_nil, mapGet,
      Option.map_none']
    cases mapGet h c <;> rfl
  | cons e rest ih =>
    simp only [extraForwardHeaders, List.foldl_cons] at ih ⊢
    rw [ih]
    by_cases hk : CanonicalHeaderKey e.1 = c
    · subst hk
      cases hg : mapGet h (CanonicalHeaderKey e.1) with
      | none =>
        simp [Header.Set, mapGet_mapSet_same, lookupCanonical, mapGet]
      | some vs =>
        simp [hg]
    · have hl : lookupCanonical (e :: rest) c = lookupCanonical rest c := by
        simp [lookupCanonical, mapGet, hk]
      rw [hl]
      by_cases hab : mapGet h (CanonicalHeaderKey e.1) = none
      · simp only [hab, if_true, Header.Set, mapGet_mapSet_other _ _ _ _ hk]
      · simp only [hab, if_false]

/-- C8: with provider header maps whose override names are pairwise distinct
after canonicalisation, the set returned by `buildForwardHeaders` binds every
name `k` as the priority rule prescribes: the override value if `k` is
overridden, else the inbound values if `k` is inbound and not stripped, else
the extra value if `k` is an extra header, else nothing. -/
theorem buildForwardHeaders_priority (original : Header) (p : Provider) (k : String)
    (hnd : (p.OverrideHeaders.map (fun e => CanonicalHeaderKey e.1)).Nodup) :
    mapGet (buildForwardHeaders original (some p)) k = forwardHeaderRule original p k := by
  simp only [buildForwardHeaders, forwardHeaderRule]
  rw [mapGet_extra, mapGet_override _ _ _ hnd, mapGet_strip]
  cases lookupCanonical p.OverrideHeaders k with
  | some v => rfl
  | none => rfl

/-- Witness for C8 (scenario S6): `X-Target` is stripped, overridden and also an
extra header, and carries the override value; `X-New` is added. -/
theorem buildForwardHeaders_priority_witness :
    mapGet (buildForwardHeaders s6Headers (some s6Provider)) "X-Target" = some ["override-value"] ∧
    mapGet (buildForwardHeaders s6Headers (some s6Provider)) "X-New" = some ["new-value"] :=
  ⟨(buildForwardHeaders_priority s6Headers s6Provider "X-Target" (by decide)).trans (by decide),
   (buildForwardHeaders_priority s6Headers s6Provider "X-New" (by decide)).trans (by decide)⟩

/-! ## Attempt outcome classification -/

/-- C7: `forwardRequest` reports success exactly when the request was built, the
HTTP call returned no transport error and the upstream status is 0 or lies in
200..299; the error met while copying the body to the client changes neither
the verdict nor the returned error; every other status `N` gives failure with
the text `upstream status N`; a transport error whose cause is
`context.Canceled` is returned as an error carrying the `errClientAbort`
sentinel. -/
theorem forwardRequest_classification :
    (∀ x : Exchange, (forwardRequest x).ok = true ↔
        x.reqErr = none ∧ x.err = none ∧
          ∃ status, x.resp = some status ∧ (status = 0 ∨ (200 ≤ status ∧ status ≤ 299))) ∧
    (∀ (x : Exchange) (c : Option String),
        (forwardRequest { x with copyErr := c }).ok = (forwardRequest x).ok ∧
        (forwardRequest { x with copyErr := c }).err = (forwardRequest x).err) ∧
    (∀ (N : Int) (c : Option String), ¬ (N = 0 ∨ (200 ≤ N ∧ N ≤ 299)) →
        (forwardRequest { resp := some N, copyErr := c }).ok = false ∧
        (forwardRequest { resp := some N, copyErr := c }).err = some (.upstreamStatus N) ∧
        (ForwardError.upstreamStatus N).Error = "upstream status " ++ toString N) ∧
    (∀ (text : String) (resp : Option Int) (c : Option String),
        (forwardRequest { resp := resp, err := some ⟨.canceled, text⟩, copyErr := c }).ok = false ∧
        ∃ e, (forwardRequest { resp := resp, err := some ⟨.canceled, text⟩, copyErr := c }).err
            = some e ∧ e.isClientAbort = true) := by
  refine ⟨?_, ?_, ?_, ?_⟩
  · intro x
    obtain ⟨reqErr, resp, err, copyErr⟩ := x
    cases reqErr with
    | some t => simp [forwardRequest]
    | none =>
      cases err with
      | some e =>
        simp only [forwardRequest]
        split_ifs <;> simp
      | none =>
        cases resp with
        | none => simp [forwardRequest]
        | some status =>
          simp only [forwardRequest]
          split_ifs with h0 h2
          · simp [h0]
          · simp only [true_and, Option.some.injEq, exists_eq_left', true_iff]
            right; omega
          · simp only [true_and, Option.some.injEq, exists_eq_left', Bool.false_eq_true, false_iff]
            rintro (h | h)
            · exact h0 h
            · exact h2 (by omega)
  · intro x c
    obtain ⟨reqErr, resp, err, copyErr⟩ := x
    cases reqErr with
    | some t => simp [forwardRequest]
    | none =>
      cases err with
      | some e =>
        simp only [forwardRequest]
        exact ⟨trivial, trivial⟩
      | none =>
        cases resp with
        | none => simp [forwardRequest]
        | some status =>
          simp only [forwardRequest]
          split_ifs <;> simp
  · intro N c hN
    have h0 : ¬ N = 0 := fun h => hN (Or.inl h)
    have h2 : ¬ (200 ≤ N ∧ N < 300) := fun h => hN (Or.inr (by omega))
    simp [forwardRequest, h0, h2, ForwardError.Error]
  · intro text resp c
    simp [forwardRequest, ForwardError.isClientAbort]

/-! ## Provider selection -/

theorem selectStep_fst {σ : Type} (d : Deps σ) (store : σ) (kind requestedModel : String)
    (acc : List Provider × Nat) (p : Provider) :
    (selectStep d store kind requestedModel acc p).1 =
      if isCandidate d store kind requestedModel p then acc.1 ++ [p] else acc.1 := by
  unfold selectStep isCandidate
  cases p.Enabled <;> by_cases h1 : p.APIURL = "" <;> by_cases h2 : p.APIKey = ""
    <;> by_cases h3 : (d.methods.ValidateConfiguration p) = []
    <;> by_cases h4 : requestedModel = ""
    <;> cases d.methods.IsModelSupported p requestedModel
    <;> cases d.blacklistService.IsBlacklisted store kind p.Name
    <;> simp [h1, h2, h3, h4, List.length_pos]

theorem selectActive_fold {σ : Type} (d : Deps σ) (store : σ) (kind requestedModel : String)
    (providers : List Provider) (acc : List Provider × Nat) :
    (providers.foldl (selectStep d store kind requestedModel) acc).1 =
      acc.1 ++ providers.filter (isCandidate d store kind requestedModel) := by
  induction providers generalizing acc with
  | nil => simp
  | cons p rest ih =>
    rw [List.foldl_cons, ih, selectStep_fst]
    by_cases hc : isCandidate d store kind requestedModel p = true
    · simp [hc, List.filter]
    · simp [hc, List.filter]

theorem selectActive_eq_filter {σ : Type} (d : Deps σ) (store : σ)
    (kind requestedModel : String) (providers : List Provider) :
    (selectActive d store kind requestedModel providers).1 =
      providers.filter (isCandidate d store kind requestedModel) := by
  have h := selectActive_fold d store kind requestedModel providers ([], 0)
  simpa [selectActive] using h

theorem selectActive_not_blacklisted {σ : Type} (d : Deps σ) (store : σ)
    (kind requestedModel : String) (providers : List Provider) (p : Provider)
    (hp : p ∈ (selectActive d store kind requestedModel providers).1) :
    d.blacklistService.IsBlacklisted store kind p.Name = false := by
  rw [selectActive_eq_filter, List.mem_filter] at hp
  have := hp.2
  simp only [isCandidate, Bool.and_eq_true, Bool.not_eq_true'] at this
  exact this.2

/-- C6: the candidate list computed by `proxyHandler` is exactly the sub-list, in
configuration order, of the providers that are enabled, have a non-empty URL
and key, pass `ValidateConfiguration`, support the requested model when one is
requested, and are not blacklisted; so no blacklisted provider is a candidate. -/
theorem selectActive_is_filter {σ : Type} (d : Deps σ) (store : σ)
    (kind requestedModel : String) (providers : List Provider) :
    (selectActive d store kind requestedModel providers).1 =
        providers.filter (fun p =>
          p.Enabled && p.APIURL != "" && p.APIKey != "" &&
          (d.methods.ValidateConfiguration p).isEmpty &&
          (requestedModel == "" || d.methods.IsModelSupported p requestedModel) &&
          !d.blacklistService.IsBlacklisted store kind p.Name) ∧
    ∀ p ∈ (selectActive d store kind requestedModel providers).1,
        d.blacklistService.IsBlacklisted store kind p.Name = false :=
  ⟨selectActive_eq_filter d store kind requestedModel providers,
   fun p hp => selectActive_not_blacklisted d store kind requestedModel providers p hp⟩

/-! ## Client abort in failover mode -/

/-- C2 at the failing input: failover mode, candidates A and B, the client goes
away during the attempt to A. No failure is recorded for A, yet the tier
iteration goes on: a switch is announced, B is forwarded to, and a 502 with two
attempts is answered. The affinity path and the blacklist-retry loop return at
once on the same abort. -/
theorem failover_client_abort_continues :
    (proxyHandler (scenarioDeps clientGone) "claude" "/v1/messages" scenarioInbound
        (some [scenarioProvider "A" 1, scenarioProvider "B" 1]) (scenarioRelay {})).1.trace =
      [.forward "A" .clientAbort, .notifySwitch "A" "B", .forward "B" .clientAbort] ∧
    (proxyHandler (scenarioDeps clientGone) "claude" "/v1/messages" scenarioInbound
        (some [scenarioProvider "A" 1, scenarioProvider "B" 1]) (scenarioRelay {})).2 =
      some (.badGateway "B" "client aborted, skip failure count: context canceled" 2 none) ∧
    (proxyHandler (scenarioDeps clientGone) "claude" "/v1/messages" scenarioInbound
        (some [scenarioProvider "A" 1, scenarioProvider "B" 1])
        (scenarioRelay { fixedMode := true })).1.trace = [.forward "A" .clientAbort] ∧
    (proxyHandler (scenarioDeps clientGone) "claude" "/v1/messages" scenarioInbound
        (some [scenarioProvider "A" 1, scenarioProvider "B" 1])
        { scenarioRelay {} with
          affinity := (NewCacheAffinityManager 300000).Set "user1:claude:m" "A" 0 }).1.trace =
      [.forward "A" .clientAbort, .affinityInvalidate "user1:claude:m"] := by
  decide

/-! ## Failover with affinity -/

theorem outcomeOf_ne_success (r : ForwardResult) (h : r.ok = false) :
    outcomeOf r ≠ Outcome.success := by
  unfold outcomeOf
  rw [h]
  cases isClientAbortErr r.err <;> simp

theorem outcomeOf_success (r : ForwardResult) (h : r.ok = true) :
    outcomeOf r = Outcome.success := by
  simp [outcomeOf, h]

theorem outcomeOf_failure (r : ForwardResult) (h : r.ok = false)
    (h2 : isClientAbortErr r.err = false) : outcomeOf r = Outcome.failure := by
  simp [outcomeOf, h, h2]

theorem failoverPost_extend {σ : Type} (kind key A : String) (s s2 : Relay σ) (pre : List Event)
    (f : Flow σ) (htrace : s2.trace = s.trace ++ pre) (havoid : Avoids kind A pre)
    (hns : NoSuccess pre) (haff : s2.affinity = s.affinity)
    (h : FailoverPost kind key A s2 f) : FailoverPost kind key A s f := by
  cases f with
  | running s1 a =>
    obtain ⟨rest, h1, h2, h3, h4⟩ := h
    refine ⟨pre ++ rest, ?_, ?_, ?_, ?_⟩
    · rw [h1, htrace, List.append_assoc]
    · intro e he
      rcases List.mem_append.mp he with he | he
      · exact havoid e he
      · exact h2 e he
    · intro B hB
      rcases List.mem_append.mp hB with hB | hB
      · exact hns B hB
      · exact h3 B hB
    · rw [h4, haff]
  | returned s1 =>
    obtain ⟨rest, B, t, h1, h2, h3, h4, h5⟩ := h
    refine ⟨pre ++ rest, B, t, ?_, ?_, ?_, h4, ?_⟩
    · rw [h1, htrace, List.append_assoc, List.append_assoc]
    · intro e he
      rcases List.mem_append.mp he with he | he
      · exact havoid e he
      · exact h2 e he
    · intro B hB
      rcases List.mem_append.mp hB with hB | hB
      · exact hns B hB
      · exact h3 B hB
    · rw [h5, haff]

theorem failoverProviders_post {σ : Type} (d : Deps σ)
    (kind endpoint requestedModel body key A : String)
    (groups : List (Int × List Provider)) (levels : List Int) (level : Int)
    (providersInLevel : List Provider) (l : List Provider) :
    ∀ (i : Nat) (s : Relay σ) (a : Attempts),
      FailoverPost kind key A s
        (failoverProviders d kind endpoint requestedModel body key A groups levels level
          providersInLevel i l s a) := by
  induction l with
  | nil =>
    intro i s a
    exact ⟨[], by simp, by intro e he; simp at he, by intro B hB; simp at hB, rfl⟩
  | cons provider rest ih =>
    intro i s a
    unfold failoverProviders
    by_cases hname : provider.Name = A
    · simp only [hname, if_true]
      exact ih _ _ _
    · simp only [hname, if_false]
      cases hbody : mappedBody d provider requestedModel body with
      | none => exact ih _ _ _
      | some currentBody =>
        show FailoverPost kind key A s
          (if (s.forward d (forwardCallFor d provider endpoint requestedModel currentBody)).1.ok
              = true then _ else _)
        generalize hcall : forwardCallFor d provider endpoint requestedModel currentBody = call
        have hcn : call.provider.Name = provider.Name := by rw [← hcall]; rfl
        cases hok : (s.forward d call).1.ok with
        | true =>
          simp only [if_true]
          refine ⟨[], provider.Name, d.now (s.calls + 1), ?_, ?_, ?_, hname, ?_⟩
          · have ho := outcomeOf_success _ hok
            simp only [Relay.forward] at ho ⊢
            simp [Relay.setLastUsedProvider, Relay.recordSuccess, Relay.affinitySet, hcn, ho]
          · intro e he; simp at he
          · intro B hB; simp at hB
          · simp [Relay.setLastUsedProvider, Relay.recordSuccess, Relay.affinitySet,
              Relay.forward]
        | false =>
          simp only [Bool.false_eq_true, if_false]
          have ho := outcomeOf_ne_success _ hok
          generalize hs1 : (if isClientAbortErr (s.forward d call).1.err = true
              then (s.forward d call).2
              else (s.forward d call).2.recordFailure d kind provider.Name) = s1
          generalize hs2 : (if (d.hasNotificationService &&
              nextProviderName groups levels level providersInLevel i != "") = true
              then s1.emit (Event.notifySwitch provider.Name
                (nextProviderName groups levels level providersInLevel i))
              else s1) = s2
          have h1 : ∃ pre1, s1.trace = s.trace ++ pre1 ∧ Avoids kind A pre1 ∧ NoSuccess pre1 ∧
              s1.affinity = s.affinity := by
            rw [← hs1]
            split
            · refine ⟨[Event.forward call.provider.Name (outcomeOf (s.forward d call).1)],
                rfl, ?_, ?_, rfl⟩
              · intro e he
                simp only [List.mem_singleton] at he
                subst he
                simp [Event.forwardName, hcn, hname]
              · intro B hB
                simp only [List.mem_singleton, Event.forward.injEq] at hB
                exact ho hB.2.symm
            · refine ⟨[Event.forward call.provider.Name (outcomeOf (s.forward d call).1),
                Event.recordFailure kind provider.Name], ?_, ?_, ?_, rfl⟩
              · simp [Relay.recordFailure, Relay.forward]
              · intro e he
                simp only [List.mem_cons, List.mem_singleton, List.not_mem_nil, or_false] at he
                rcases he with he | he
                · subst he
                  simp [Event.forwardName, hcn, hname]
                · subst he
                  simp [Event.forwardName, hname]
              · intro B hB
                simp only [List.mem_cons, List.mem_singleton, Event.forward.injEq,
                  List.not_mem_nil, or_false] at hB
                rcases hB with hB | hB
                · exact ho hB.2.symm
                · cases hB
          obtain ⟨pre1, ht1, hav1, hns1, haff1⟩ := h1
          have h2 : ∃ pre2, s2.trace = s.trace ++ pre2 ∧ Avoids kind A pre2 ∧ NoSuccess pre2 ∧
              s2.affinity = s.affinity := by
            rw [← hs2]
            split
            · refine ⟨pre1 ++ [Event.notifySwitch provider.Name
                (nextProviderName groups levels level providersInLevel i)], ?_, ?_, ?_, ?_⟩
              · simp [Relay.emit, ht1]
              · intro e he
                rcases List.mem_append.mp he with he | he
                · exact hav1 e he
                · simp only [List.mem_singleton] at he
                  subst he
                  simp [Event.forwardName]
              · intro B hB
                rcases List.mem_append.mp hB with hB | hB
                · exact hns1 B hB
                · simp at hB
              · simp [Relay.emit, haff1]
            · exact ⟨pre1, ht1, hav1, hns1, haff1⟩
          obtain ⟨pre2, ht2, hav2, hns2, haff2⟩ := h2
          exact failoverPost_extend kind key A s s2 pre2 _ ht2 hav2 hns2 haff2 (ih _ _ _)

theorem failoverLevels_post {σ : Type} (d : Deps σ)
    (kind endpoint requestedModel body key A : String) (roundRobinEnabled : Bool)
    (groups : List (Int × List Provider)) (levels : List Int) (l : List Int) :
    ∀ (s : Relay σ) (a : Attempts),
      FailoverPost kind key A s
        (failoverLevels d kind endpoint requestedModel body key A roundRobinEnabled groups
          levels l s a) := by
  induction l with
  | nil =>
    intro s a
    exact ⟨[], by simp, by intro e he; simp at he, by intro B hB; simp at hB, rfl⟩
  | cons level rest ih =>
    intro s a
    unfold failoverLevels
    generalize (if roundRobinEnabled = true
      then roundRobinOrder s.rrLastStart kind level (levelGroup groups level)
      else (levelGroup groups level, s.rrLastStart)) = rotated
    simp only []
    generalize hs0 : ({ s with rrLastStart := rotated.2 } : Relay σ) = s0
    have ht0 : s0.trace = s.trace ++ [] := by rw [← hs0]; simp
    have ha0 : s0.affinity = s.affinity := by rw [← hs0]
    have hp := failoverProviders_post d kind endpoint requestedModel body key A groups levels
      level rotated.1 rotated.1 0 s0 a
    apply failoverPost_extend kind key A s s0 [] _ ht0 (by intro e he; simp at he)
      (by intro B hB; simp at hB) ha0
    cases hflow : failoverProviders d kind endpoint requestedModel body key A groups levels
        level rotated.1 0 rotated.1 s0 a with
    | returned s1 =>
      rw [hflow] at hp
      exact hp
    | running s1 a1 =>
      rw [hflow] at hp
      obtain ⟨pre, h1, h2, h3, h4⟩ := hp
      exact failoverPost_extend kind key A s0 s1 pre _ h1 h2 h3 h4 (ih s1 a1)

theorem find_by_name (l : List Provider) (A : String) (h : ∃ p ∈ l, p.Name = A) :
    ∃ cp, l.find? (fun p => p.Name == A) = some cp ∧ cp.Name = A := by
  induction l with
  | nil => obtain ⟨p, hp, _⟩ := h; simp at hp
  | cons x xs ih =>
    by_cases hx : x.Name = A
    · exact ⟨x, by simp [List.find?, hx], hx⟩
    · obtain ⟨p, hp, hpA⟩ := h
      rcases List.mem_cons.mp hp with hpx | hpxs
      · subst hpx; exact absurd hpA hx
      · obtain ⟨cp, h1, h2⟩ := ih ⟨p, hpxs, hpA⟩
        have hxb : (x.Name == A) = false := by simpa using hx
        exact ⟨cp, by simp [List.find?, hxb, h1], h2⟩

theorem mapGet_invalidate (cam : CacheAffinityManager) (key : String) :
    mapGet (cam.Invalidate key).store key = none := by
  unfold CacheAffinityManager.Invalidate
  cases h : mapGet cam.store key with
  | none => simpa using h
  | some e => simpa using mapGet_mapDel_same cam.store key

/-- C4: in failover mode, when the affinity cache names a candidate `A` whose
attempt fails with a non-abort error, the handler first forwards to `A`, then
invalidates the affinity key and records one failure for `A`; nothing after
that is a forward to `A` or a failure recorded for `A`; and if a later provider
`B` succeeds, `RecordSuccess(B)` is issued and the affinity entry of the key is
`B` at the end (with no later success the key has no entry). -/
theorem failover_affinity_then_failure {σ : Type} (d : Deps σ) (kind endpoint : String)
    (req : Inbound) (providers : List Provider) (s : Relay σ) (A : String)
    (hread : req.bodyReadErr = false)
    (hmode : d.blacklistService.ShouldUseFixedMode s.blacklist = false)
    (hA : A ≠ "")
    (hcache : (s.affinity.Get (GenerateAffinityKey req.userID kind req.requestedModel)
      (d.now s.calls)).1 = A)
    (hcand : ∃ p ∈ (selectActive d s.blacklist kind req.requestedModel providers).1, p.Name = A)
    (hfail : ∀ call : ForwardCall, call.provider.Name = A →
      (forwardRequest (d.exchange s.calls call)).ok = false ∧
      isClientAbortErr (forwardRequest (d.exchange s.calls call)).err = false) :
    ∃ rest,
      (proxyHandler d kind endpoint req (some providers) s).1.trace =
        s.trace ++ (Event.forward A Outcome.failure ::
          Event.affinityInvalidate (GenerateAffinityKey req.userID kind req.requestedModel) ::
          Event.recordFailure kind A :: rest) ∧
      (∀ e ∈ rest, e.forwardName ≠ some A ∧ e ≠ Event.recordFailure kind A) ∧
      (∀ B, Event.forward B Outcome.success ∈ rest →
        Event.recordSuccess kind B ∈ rest ∧
        ∃ e, mapGet (proxyHandler d kind endpoint req (some providers) s).1.affinity.store
          (GenerateAffinityKey req.userID kind req.requestedModel) = some e ∧
          e.ProviderName = B) ∧
      ((∀ B, Event.forward B Outcome.success ∉ rest) →
        mapGet (proxyHandler d kind endpoint req (some providers) s).1.affinity.store
          (GenerateAffinityKey req.userID kind req.requestedModel) = none) := by
  generalize hkey : GenerateAffinityKey req.userID kind req.requestedModel = key at hcache ⊢
  obtain ⟨cp, hfind, hcpA⟩ := find_by_name _ A hcand
  have hne : (selectActive d s.blacklist kind req.requestedModel providers).1.length ≠ 0 := by
    obtain ⟨p, hp, _⟩ := hcand
    intro h0
    rw [List.length_eq_zero] at h0
    rw [h0] at hp
    simp at hp
  have hAb : (A != "") = true := by simpa using hA
  generalize hcam : (s.affinity.Get key (d.now s.calls)).2 = cam
  generalize hs1 : ({ s with affinity := cam } : Relay σ) = s1
  have hs1t : s1.trace = s.trace := by rw [← hs1]
  have hs1c : s1.calls = s.calls := by rw [← hs1]
  have hs1a : s1.affinity = cam := by rw [← hs1]
  generalize hcall : forwardCallFor d cp endpoint req.requestedModel
    ((mappedBody d cp req.requestedModel req.body).getD req.body) = call
  have hcn : call.provider.Name = A := by rw [← hcall]; exact hcpA
  obtain ⟨hok, habort⟩ := hfail call hcn
  have hout := outcomeOf_failure _ hok habort
  generalize hs3 : ((s1.forward d call).2.affinityInvalidate key).recordFailure d kind A = s3
  have hs3t : s3.trace = s.trace ++ [Event.forward A Outcome.failure,
      Event.affinityInvalidate key, Event.recordFailure kind A] := by
    rw [← hs3]
    simp [Relay.recordFailure, Relay.affinityInvalidate, Relay.forward, hs1t, hs1c, hcn, hout]
  have hs3a : s3.affinity = cam.Invalidate key := by
    rw [← hs3]
    simp [Relay.recordFailure, Relay.affinityInvalidate, Relay.forward, hs1a]
  have hmain : proxyHandler d kind endpoint req (some providers) s =
      finalAnswer none (failoverLevels d kind endpoint req.requestedModel req.body key A
          (isRoundRobinEnabled d s1.blacklist)
          (groupByLevel (selectActive d s.blacklist kind req.requestedModel providers).1)
          (sortedLevels (groupByLevel (selectActive d s.blacklist kind req.requestedModel
            providers).1))
          (sortedLevels (groupByLevel (selectActive d s.blacklist kind req.requestedModel
            providers).1)) s3
          { lastError := (s1.forward d call).1.err, lastProvider := A, totalAttempts := 1 }) := by
    have hs1b : s1.blacklist = s.blacklist := by rw [← hs1]
    have hok1 : (s1.forward d call).1.ok = false := by
      simpa [Relay.forward, hs1c] using hok
    have hab1 : isClientAbortErr (s1.forward d call).1.err = false := by
      simpa [Relay.forward, hs1c] using habort
    simp only [proxyHandler, hread, hne, hkey, hcache, hcam, hs1, hs1b, hmode, failoverMode,
      tryAffinityProvider, hAb, hA, hfind, hcall, hok1, hab1, hcpA, hs3, Bool.false_eq_true,
      if_false, if_true, Bool.true_and, Bool.and_false, Bool.and_true]
  rw [hmain]
  have hpost := failoverLevels_post d kind endpoint req.requestedModel req.body key A
    (isRoundRobinEnabled d s1.blacklist)
    (groupByLevel (selectActive d s.blacklist kind req.requestedModel providers).1)
    (sortedLevels (groupByLevel (selectActive d s.blacklist kind req.requestedModel
      providers).1))
    (sortedLevels (groupByLevel (selectActive d s.blacklist kind req.requestedModel
      providers).1)) s3
    { lastError := (s1.forward d call).1.err, lastProvider := A, totalAttempts := 1 }
  cases hflow : failoverLevels d kind endpoint req.requestedModel req.body key A
      (isRoundRobinEnabled d s1.blacklist)
      (groupByLevel (selectActive d s.blacklist kind req.requestedModel providers).1)
      (sortedLevels (groupByLevel (selectActive d s.blacklist kind req.requestedModel
        providers).1))
      (sortedLevels (groupByLevel (selectActive d s.blacklist kind req.requestedModel
        providers).1)) s3
      { lastError := (s1.forward d call).1.err, lastProvider := A, totalAttempts := 1 } with
  | running s4 a1 =>
    rw [hflow] at hpost
    obtain ⟨rest, h1, h2, h3, h4⟩ := hpost
    simp only [finalAnswer]
    refine ⟨rest, ?_, h2, ?_, ?_⟩
    · simp [h1, hs3t]
    · intro B hB
      exact absurd hB (h3 B)
    · intro _
      simp only [h4, hs3a]
      exact mapGet_invalidate cam key
  | returned s4 =>
    rw [hflow] at hpost
    obtain ⟨rest, B, t, h1, h2, h3, h4, h5⟩ := hpost
    simp only [finalAnswer]
    refine ⟨rest ++ [Event.forward B Outcome.success, Event.affinitySet key B,
      Event.recordSuccess kind B], ?_, ?_, ?_, ?_⟩
    · simp [h1, hs3t]
    · intro e he
      rcases List.mem_append.mp he with he | he
      · exact h2 e he
      · simp only [List.mem_cons, List.mem_singleton, List.not_mem_nil, or_false] at he
        rcases he with he | he | he <;> subst he <;> simp [Event.forwardName, h4]
    · intro B2 hB2
      have hB : B2 = B := by
        rcases List.mem_append.mp hB2 with hB2 | hB2
        · exact absurd hB2 (h3 B2)
        · simpa using hB2
      subst hB
      refine ⟨by simp, ?_⟩
      simp only [h5, CacheAffinityManager.Set]
      exact ⟨_, mapGet_mapSet_same _ _ _, rfl⟩
    · intro hno
      exact absurd (by simp) (hno B)

/-- Witness for C4 (scenario S4): B is the level-1 candidate, A the level-2
candidate named by the affinity cache; A answers 500 and B answers 200. -/
theorem failover_affinity_then_failure_witness :
    (∃ rest,
      (proxyHandler (scenarioDeps s4Upstream) "claude" "/v1/messages" scenarioInbound
        (some [scenarioProvider "B" 1, scenarioProvider "A" 2]) s4Relay).1.trace =
        s4Relay.trace ++ (Event.forward "A" Outcome.failure ::
          Event.affinityInvalidate
            (GenerateAffinityKey scenarioInbound.userID "claude" scenarioInbound.requestedModel) ::
          Event.recordFailure "claude" "A" :: rest) ∧
      (∀ e ∈ rest, e.forwardName ≠ some "A" ∧ e ≠ Event.recordFailure "claude" "A") ∧
      (∀ B, Event.forward B Outcome.success ∈ rest →
        Event.recordSuccess "claude" B ∈ rest ∧
        ∃ e, mapGet (proxyHandler (scenarioDeps s4Upstream) "claude" "/v1/messages"
            scenarioInbound (some [scenarioProvider "B" 1, scenarioProvider "A" 2])
            s4Relay).1.affinity.store
          (GenerateAffinityKey scenarioInbound.userID "claude" scenarioInbound.requestedModel)
            = some e ∧
          e.ProviderName = B) ∧
      ((∀ B, Event.forward B Outcome.success ∉ rest) →
        mapGet (proxyHandler (scenarioDeps s4Upstream) "claude" "/v1/messages"
            scenarioInbound (some [scenarioProvider "B" 1, scenarioProvider "A" 2])
            s4Relay).1.affinity.store
          (GenerateAffinityKey scenarioInbound.userID "claude" scenarioInbound.requestedModel)
            = none)) ∧
    (proxyHandler (scenarioDeps s4Upstream) "claude" "/v1/messages" scenarioInbound
        (some [scenarioProvider "B" 1, scenarioProvider "A" 2]) s4Relay).1.trace =
      [.forward "A" .failure, .affinityInvalidate "user1:claude:m",
       .recordFailure "claude" "A", .forward "B" .success,
       .affinitySet "user1:claude:m" "B", .recordSuccess "claude" "B"] :=
  ⟨failover_affinity_then_failure (scenarioDeps s4Upstream) "claude" "/v1/messages"
      scenarioInbound [scenarioProvider "B" 1, scenarioProvider "A" 2] s4Relay "A"
      (by decide) (by decide) (by decide) (by decide) (by decide)
      (fun call h => by
        have h2 : s4Upstream s4Relay.calls call = { resp := some 500 } := by
          simp [s4Upstream, h]
        have h3 : (scenarioDeps s4Upstream).exchange s4Relay.calls call =
            s4Upstream s4Relay.calls call := rfl
        rw [h3, h2]
        exact ⟨rfl, rfl⟩),
    by decide⟩

/-! ## Level tiers -/

theorem keys_mapSet {κ α : Type} [DecidableEq κ] (m : List (κ × α)) (k : κ) (v : α) (x : κ) :
    x ∈ (mapSet m k v).map Prod.fst ↔ x = k ∨ x ∈ m.map Prod.fst := by
  induction m with
  | nil => simp [mapSet]
  | cons e m ih =>
    obtain ⟨k', v'⟩ := e
    by_cases h : k' = k
    · subst h
      simp [mapSet]
    · simp only [mapSet, h, if_false, List.map_cons, List.mem_cons, ih]
      tauto

theorem keys_mapSet_nodup {κ α : Type} [DecidableEq κ] (m : List (κ × α)) (k : κ) (v : α)
    (h : (m.map Prod.fst).Nodup) : ((mapSet m k v).map Prod.fst).Nodup := by
  induction m with
  | nil => simp [mapSet]
  | cons e m ih =>
    obtain ⟨k', v'⟩ := e
    simp only [List.map_cons, List.nodup_cons] at h
    by_cases hk : k' = k
    · subst hk
      simpa [mapSet] using h
    · simp only [mapSet, hk, if_false, List.map_cons, List.nodup_cons]
      refine ⟨?_, ih h.2⟩
      intro hmem
      rcases (keys_mapSet m k v k').mp hmem with h1 | h1
      · exact hk h1
      · exact h.1 h1

theorem levelGroup_fold (l : List Provider) (acc : List (Int × List Provider)) (k : Int) :
    levelGroup (l.foldl (fun groups p =>
        mapSet groups (normalizedLevel p)
          ((mapGet groups (normalizedLevel p)).getD [] ++ [p])) acc) k =
      levelGroup acc k ++ l.filter (fun p => decide (normalizedLevel p = k)) := by
  induction l generalizing acc with
  | nil => simp
  | cons p rest ih =>
    rw [List.foldl_cons, ih]
    by_cases hk : normalizedLevel p = k
    · subst hk
      simp [levelGroup, mapGet_mapSet_same, List.filter]
    · simp [levelGroup, mapGet_mapSet_other _ _ _ _ hk, List.filter, hk]

theorem groupKeys_fold (l : List Provider) (acc : List (Int × List Provider)) :
    ((acc.map Prod.fst).Nodup →
      ((l.foldl (fun groups p =>
        mapSet groups (normalizedLevel p)
          ((mapGet groups (normalizedLevel p)).getD [] ++ [p])) acc).map Prod.fst).Nodup) ∧
    ∀ p ∈ l, normalizedLevel p ∈ (l.foldl (fun groups p =>
        mapSet groups (normalizedLevel p)
          ((mapGet groups (normalizedLevel p)).getD [] ++ [p])) acc).map Prod.fst := by
  induction l generalizing acc with
  | nil => exact ⟨fun h => h, fun p hp => by simp at hp⟩
  | cons q rest ih =>
    simp only [List.foldl_cons]
    refine ⟨fun h => (ih _).1 (keys_mapSet_nodup _ _ _ h), ?_⟩
    intro p hp
    rcases List.mem_cons.mp hp with hpq | hpr
    · subst hpq
      have hstay : ∀ (l2 : List Provider) (acc2 : List (Int × List Provider)) (x : Int),
          x ∈ acc2.map Prod.fst →
          x ∈ (l2.foldl (fun groups p =>
            mapSet groups (normalizedLevel p)
              ((mapGet groups (normalizedLevel p)).getD [] ++ [p])) acc2).map Prod.fst := by
        intro l2
        induction l2 with
        | nil => intro acc2 x hx; exact hx
        | cons r rs ih2 =>
          intro acc2 x hx
          simp only [List.foldl_cons]
          apply ih2
          rw [keys_mapSet]
          exact Or.inr hx
      apply hstay
      rw [keys_mapSet]
      exact Or.inl rfl
    · exact (ih _).2 p hpr

theorem levelGroup_groupByLevel (active : List Provider) (k : Int) :
    levelGroup (groupByLevel active) k =
      active.filter (fun p => decide (normalizedLevel p = k)) := by
  have := levelGroup_fold active [] k
  simpa [groupByLevel, levelGroup, mapGet] using this

theorem sortedLevels_nodup (active : List Provider) :
    (sortedLevels (groupByLevel active)).Nodup := by
  have h := (groupKeys_fold active []).1 (by simp)
  exact (List.perm_insertionSort _ _).nodup_iff.mpr h

theorem sortedLevels_cover (active : List Provider) (p : Provider) (hp : p ∈ active) :
    normalizedLevel p ∈ sortedLevels (groupByLevel active) := by
  have h := (groupKeys_fold active []).2 p hp
  exact (List.perm_insertionSort _ _).mem_iff.mpr h

theorem flatMap_filter_drop (f : Provider → Int) (A : List Provider) (l : Int) (L : List Int)
    (hl : l ∉ L) :
    L.flatMap (fun k => A.filter (fun a => decide (f a = k))) =
      L.flatMap (fun k => (A.filter (fun a => !decide (f a = l))).filter
        (fun a => decide (f a = k))) := by
  apply List.flatMap_congr
  intro k hk
  rw [List.filter_filter]
  apply List.filter_congr
  intro a _
  by_cases h : f a = k
  · have : f a ≠ l := fun h2 => hl (h2 ▸ h ▸ hk)
    simp [h, this]
    intro h3
    exact this (h.trans h3)
  · simp [h]

theorem flatMap_filter_perm (f : Provider → Int) (L : List Int) :
    ∀ A : List Provider, L.Nodup → (∀ a ∈ A, f a ∈ L) →
      (L.flatMap (fun k => A.filter (fun a => decide (f a = k)))).Perm A := by
  induction L with
  | nil =>
    intro A _ hcov
    cases A with
    | nil => simp
    | cons a A => exact absurd (hcov a (List.mem_cons_self _ _)) (by simp)
  | cons l L ih =>
    intro A hnd hcov
    simp only [List.nodup_cons] at hnd
    rw [List.flatMap_cons, flatMap_filter_drop f A l L hnd.1]
    have hcov2 : ∀ a ∈ A.filter (fun a => !decide (f a = l)), f a ∈ L := by
      intro a ha
      rw [List.mem_filter] at ha
      have hne : f a ≠ l := by simpa using ha.2
      rcases List.mem_cons.mp (hcov a ha.1) with h | h
      · exact absurd h hne
      · exact h
    have h1 := ih (A.filter (fun a => !decide (f a = l))) hnd.2 hcov2
    exact (List.Perm.append_left _ h1).trans (List.filter_append_perm _ A)

/-- The tier iteration visits every candidate exactly once. -/
theorem tierOrder_perm (active : List Provider) : (tierOrder active).Perm active := by
  have h : tierOrder active = (sortedLevels (groupByLevel active)).flatMap
      (fun k => active.filter (fun a => decide (normalizedLevel a = k))) := by
    unfold tierOrder
    apply List.flatMap_congr
    intro k _
    exact levelGroup_groupByLevel active k
  rw [h]
  exact flatMap_filter_perm normalizedLevel _ active (sortedLevels_nodup active)
    (fun a ha => sortedLevels_cover active a ha)

/-! ## Blacklist-retry mode -/

theorem blacklistPost_seq (kind : String) (c1 c2 : List String) (n1 n2 : Int)
    (t1 t2 : List String) (s s1 : Relay BlacklistStore) (a a1 : Attempts)
    (f : Flow BlacklistStore)
    (h1 : BlacklistPost kind c1 n1 t1 s a (.running s1 a1))
    (h2 : BlacklistPost kind c2 n2 t2 s1 a1 f) :
    BlacklistPost kind (c1 ++ c2) (n1 + n2) (t1 ++ t2) s a f := by
  cases f with
  | returned s2 => exact h2
  | running s2 a2 =>
    obtain ⟨r1, ht1, hc1, ha1, hf1, hr1, he1⟩ := h1
    obtain ⟨r2, ht2, hc2, ha2, hf2, hr2, he2⟩ := h2
    refine ⟨r1 ++ r2, ?_, ?_, ?_, ?_, ?_, ?_⟩
    · rw [ht2, ht1, List.append_assoc]
    · rw [List.filterMap_append, hc1, hc2]
    · rw [ha2, ha1]; omega
    · rw [hf2, hf1]
    · rw [hr2, hr1]
    · intro x hx
      simp only [List.mem_append, not_or] at hx
      rw [he2 x hx.2, he1 x hx.1]

theorem spec_isBlacklisted {d : Deps BlacklistStore}
    (hsvc : d.blacklistService = specBlacklistService) (st : BlacklistStore)
    (kind x : String) :
    d.blacklistService.IsBlacklisted st kind x = (st.entry kind x).suspended := by
  rw [hsvc]; rfl

theorem spec_recordFailure_same {d : Deps BlacklistStore}
    (hsvc : d.blacklistService = specBlacklistService) (s : Relay BlacklistStore)
    (kind x : String) :
    ((s.recordFailure d kind x).blacklist.entry kind x) =
      { failureCount := (s.blacklist.entry kind x).failureCount + 1,
        suspended := (s.blacklist.entry kind x).suspended ||
          decide (s.blacklist.retry.FailureThreshold ≤ (s.blacklist.entry kind x).failureCount + 1) } := by
  simp only [Relay.recordFailure, hsvc, specBlacklistService, BlacklistStore.entry,
    mapGet_mapSet_same, Option.getD_some]

theorem spec_recordFailure_other {d : Deps BlacklistStore}
    (hsvc : d.blacklistService = specBlacklistService) (s : Relay BlacklistStore)
    (kind x y : String) (h : y ≠ x) :
    ((s.recordFailure d kind x).blacklist.entry kind y) = s.blacklist.entry kind y := by
  have hk : ((kind, x) : String × String) ≠ (kind, y) := by
    intro h2
    exact h (Prod.mk.inj h2).2.symm
  simp only [Relay.recordFailure, hsvc, specBlacklistService, BlacklistStore.entry,
    mapGet_mapSet_other _ _ _ _ hk]

theorem spec_recordFailure_config {d : Deps BlacklistStore}
    (hsvc : d.blacklistService = specBlacklistService) (s : Relay BlacklistStore)
    (kind x : String) :
    (s.recordFailure d kind x).blacklist.fixedMode = s.blacklist.fixedMode ∧
    (s.recordFailure d kind x).blacklist.retry = s.blacklist.retry := by
  simp only [Relay.recordFailure, hsvc, specBlacklistService, and_self]

theorem retryLoop_all_fail (d : Deps BlacklistStore)
    (hsvc : d.blacklistService = specBlacklistService)
    (hfail : ∀ (n : Nat) (call : ForwardCall),
      (forwardRequest (d.exchange n call)).ok = false ∧
      isClientAbortErr (forwardRequest (d.exchange n call)).err = false)
    (kind : String) (call : ForwardCall) (T w : Int) :
    ∀ (n : Nat) (rc : Int) (s : Relay BlacklistStore) (a : Attempts),
      s.blacklist.retry.FailureThreshold = T →
      (s.blacklist.entry kind call.provider.Name).suspended = false →
      (s.blacklist.entry kind call.provider.Name).failureCount + (n + 1) = T →
      BlacklistPost kind (List.replicate (n + 1) call.provider.Name) (n + 1)
        [call.provider.Name] s a (retryLoop d kind call T w (n + 1) rc s a) := by
  intro n
  induction n with
  | zero =>
    intro rc s a hT hs hc
    obtain ⟨hok, hab⟩ := hfail s.calls call
    have hok1 : (s.forward d call).1.ok = false := hok
    have hab1 : isClientAbortErr (s.forward d call).1.err = false := hab
    have hsame := spec_recordFailure_same hsvc (s.forward d call).2 kind call.provider.Name
    have hb : (s.forward d call).2.blacklist = s.blacklist := rfl
    have hsus : (((s.forward d call).2.recordFailure d kind call.provider.Name).blacklist.entry
        kind call.provider.Name).suspended = true := by
      rw [hsame, hb, hT]
      simp only [Bool.or_eq_true, decide_eq_true_eq]
      right; omega
    unfold retryLoop
    simp only [spec_isBlacklisted hsvc, hs, hok1, hab1, hsus, Bool.false_eq_true, if_false,
      if_true]
    refine ⟨[Event.forward call.provider.Name (outcomeOf (s.forward d call).1),
      Event.recordFailure kind call.provider.Name], ?_, ?_, ?_, ?_, ?_, ?_⟩
    · simp [Relay.recordFailure, Relay.forward]
    · simp [Event.forwardName]
    · simp
    · exact (spec_recordFailure_config hsvc _ kind _).1
    · exact (spec_recordFailure_config hsvc _ kind _).2
    · intro x hx
      have hx2 : x ≠ call.provider.Name := by simpa using hx
      rw [spec_recordFailure_other hsvc _ kind _ x hx2, hb]
  | succ m ih =>
    intro rc s a hT hs hc
    obtain ⟨hok, hab⟩ := hfail s.calls call
    have hok1 : (s.forward d call).1.ok = false := hok
    have hab1 : isClientAbortErr (s.forward d call).1.err = false := hab
    have hsame := spec_recordFailure_same hsvc (s.forward d call).2 kind call.provider.Name
    have hb : (s.forward d call).2.blacklist = s.blacklist := rfl
    have hcfg := spec_recordFailure_config hsvc (s.forward d call).2 kind call.provider.Name
    have hsus : (((s.forward d call).2.recordFailure d kind call.provider.Name).blacklist.entry
        kind call.provider.Name).suspended = false := by
      rw [hsame, hb, hT, hs]
      simp only [Bool.false_or, decide_eq_false_iff_not]
      omega
    have hcnt : (((s.forward d call).2.recordFailure d kind call.provider.Name).blacklist.entry
        kind call.provider.Name).failureCount =
        (s.blacklist.entry kind call.provider.Name).failureCount + 1 := by
      rw [hsame, hb]
    unfold retryLoop
    simp only [spec_isBlacklisted hsvc, hs, hok1, hab1, hsus, Bool.false_eq_true, if_false]
    generalize hs2 : (if rc < T - 1
      then ((s.forward d call).2.recordFailure d kind call.provider.Name).emit (Event.sleep w)
      else (s.forward d call).2.recordFailure d kind call.provider.Name) = s2
    have hs2b : s2.blacklist =
        ((s.forward d call).2.recordFailure d kind call.provider.Name).blacklist := by
      rw [← hs2]; split <;> rfl
    have hs2t : ∃ pre, s2.trace = s.trace ++ pre ∧
        pre.filterMap Event.forwardName = [call.provider.Name] := by
      rw [← hs2]
      split
      · exact ⟨[Event.forward call.provider.Name (outcomeOf (s.forward d call).1),
          Event.recordFailure kind call.provider.Name, Event.sleep w],
          by simp [Relay.emit, Relay.recordFailure, Relay.forward], by simp [Event.forwardName]⟩
      · exact ⟨[Event.forward call.provider.Name (outcomeOf (s.forward d call).1),
          Event.recordFailure kind call.provider.Name],
          by simp [Relay.recordFailure, Relay.forward], by simp [Event.forwardName]⟩
    obtain ⟨pre, hpre, hprec⟩ := hs2t
    have hfirst : BlacklistPost kind [call.provider.Name] 1 [call.provider.Name] s a
        (.running s2 (Attempts.mk (s.forward d call).1.err call.provider.Name (a.totalAttempts + 1))) := by
      refine ⟨pre, hpre, hprec, rfl, ?_, ?_, ?_⟩
      · rw [hs2b, hcfg.1, hb]
      · rw [hs2b, hcfg.2, hb]
      · intro x hx
        have hx2 : x ≠ call.provider.Name := by simpa using hx
        rw [hs2b, spec_recordFailure_other hsvc _ kind _ x hx2, hb]
    have hrest := ih (rc + 1) s2 (Attempts.mk (s.forward d call).1.err call.provider.Name (a.totalAttempts + 1))
      (by rw [hs2b, hcfg.2, hb]; exact hT) (by rw [hs2b]; exact hsus)
      (by rw [hs2b, hcnt]; omega)
    have hseq := blacklistPost_seq kind _ _ _ _ _ _ s s2 a _ _ hfirst hrest
    have e1 : [call.provider.Name] ++ List.replicate (m + 1) call.provider.Name =
        List.replicate (m + 1 + 1) call.provider.Name := by
      simp [List.replicate_succ]
    have e2 : (1 : Int) + ((m : Int) + 1) = ((m + 1 : Nat) : Int) + 1 := by push_cast; omega
    have e3 : [call.provider.Name] ++ [call.provider.Name] ≠ [] := by simp
    rw [e1] at hseq
    have hseq2 : BlacklistPost kind (List.replicate (m + 1 + 1) call.provider.Name)
        (((m + 1 : Nat) : Int) + 1) [call.provider.Name] s a
        (retryLoop d kind call T w (m + 1) (rc + 1) s2
          (Attempts.mk (s.forward d call).1.err call.provider.Name (a.totalAttempts + 1))) := by
      cases hflow : retryLoop d kind call T w (m + 1) (rc + 1) s2
          (Attempts.mk (s.forward d call).1.err call.provider.Name (a.totalAttempts + 1)) with
      | returned s3 => rw [hflow] at hseq; exact hseq
      | running s3 a3 =>
        rw [hflow] at hseq
        obtain ⟨r, h1, h2, h3, h4, h5, h6⟩ := hseq
        refine ⟨r, h1, h2, ?_, h4, h5, ?_⟩
        · rw [h3]; push_cast; omega
        · intro x hx
          apply h6
          simpa using hx
    exact hseq2

theorem blacklistPost_cast (kind : String) (c1 c2 : List String) (n1 n2 : Int)
    (t1 t2 : List String) (s : Relay BlacklistStore) (a : Attempts) (f : Flow BlacklistStore)
    (hc : c1 = c2) (hn : n1 = n2) (ht : t1 = t2) (h : BlacklistPost kind c1 n1 t1 s a f) :
    BlacklistPost kind c2 n2 t2 s a f := by
  subst hc; subst hn; subst ht; exact h

theorem blacklistProviders_all_fail (d : Deps BlacklistStore)
    (hsvc : d.blacklistService = specBlacklistService)
    (hfail : ∀ (n : Nat) (call : ForwardCall),
      (forwardRequest (d.exchange n call)).ok = false ∧
      isClientAbortErr (forwardRequest (d.exchange n call)).err = false)
    (kind endpoint requestedModel body : String) (cfg : RetryConfig)
    (hT : 1 ≤ cfg.FailureThreshold) (ps : List Provider) :
    ∀ (s : Relay BlacklistStore) (a : Attempts),
      (ps.map (fun p => p.Name)).Nodup →
      (∀ p ∈ ps, s.blacklist.entry kind p.Name = {} ∧
        mappedBody d p requestedModel body ≠ none) →
      s.blacklist.retry = cfg →
      BlacklistPost kind
        (ps.flatMap (fun p => List.replicate cfg.FailureThreshold.toNat p.Name))
        (cfg.FailureThreshold * ps.length) (ps.map (fun p => p.Name)) s a
        (blacklistProviders d kind endpoint requestedModel body cfg ps s a) := by
  induction ps with
  | nil =>
    intro s a _ _ _
    exact ⟨[], by simp, by simp, by simp, rfl, rfl, fun _ _ => rfl⟩
  | cons p rest ih =>
    intro s a hnd hfresh hcfg
    simp only [List.map_cons, List.nodup_cons] at hnd
    obtain ⟨hent, hbody⟩ := hfresh p (List.mem_cons_self _ _)
    have hsus : (s.blacklist.entry kind p.Name).suspended = false := by rw [hent]
    have hcnt : (s.blacklist.entry kind p.Name).failureCount = 0 := by rw [hent]
    obtain ⟨k, hk⟩ : ∃ k : Nat, cfg.FailureThreshold.toNat = k + 1 :=
      ⟨cfg.FailureThreshold.toNat - 1, by omega⟩
    have hkT : ((k : Nat) : Int) + 1 = cfg.FailureThreshold := by omega
    unfold blacklistProviders
    simp only [spec_isBlacklisted hsvc, hsus, Bool.false_eq_true, if_false]
    cases hmb : mappedBody d p requestedModel body with
    | none => exact absurd hmb hbody
    | some currentBody =>
      simp only []
      generalize hcall : forwardCallFor d p endpoint requestedModel currentBody = call
      have hcn : call.provider.Name = p.Name := by rw [← hcall]; rfl
      have hretry := retryLoop_all_fail d hsvc hfail kind call cfg.FailureThreshold
        cfg.RetryWaitSeconds k 0 s a (by rw [hcfg]) (by rw [hcn]; exact hsus)
        (by rw [hcn, hcnt]; omega)
      rw [hk]
      cases hflow : retryLoop d kind call cfg.FailureThreshold cfg.RetryWaitSeconds (k + 1) 0 s a with
      | returned s1 =>
        rw [hflow] at hretry
        exact hretry.elim
      | running s1 a1 =>
        rw [hflow] at hretry
        simp only []
        have hpost1 := hretry
        obtain ⟨r, h1, h2, h3, h4, h5, h6⟩ := hretry
        have hrest := ih s1 a1 hnd.2
          (by
            intro q hq
            have hqn : q.Name ≠ p.Name := by
              intro he
              exact hnd.1 (List.mem_map.mpr ⟨q, hq, he⟩)
            refine ⟨?_, (hfresh q (List.mem_cons_of_mem _ hq)).2⟩
            rw [h6 q.Name (by rw [hcn]; simpa using hqn)]
            exact (hfresh q (List.mem_cons_of_mem _ hq)).1)
          (by rw [h5, hcfg])
        have hseq := blacklistPost_seq kind _ _ _ _ _ _ s s1 a a1 _ hpost1 hrest
        refine blacklistPost_cast kind _ _ _ _ _ _ s a _ ?_ ?_ ?_ hseq
        · simp [List.flatMap_cons, hk, hcn]
        · simp only [List.length_cons]
          push_cast
          rw [← hkT]
          ring
        · simp [hcn]

theorem blacklistLevels_all_fail (d : Deps BlacklistStore)
    (hsvc : d.blacklistService = specBlacklistService)
    (hfail : ∀ (n : Nat) (call : ForwardCall),
      (forwardRequest (d.exchange n call)).ok = false ∧
      isClientAbortErr (forwardRequest (d.exchange n call)).err = false)
    (kind endpoint requestedModel body : String) (cfg : RetryConfig)
    (hT : 1 ≤ cfg.FailureThreshold) (groups : List (Int × List Provider)) (ls : List Int) :
    ∀ (s : Relay BlacklistStore) (a : Attempts),
      ((ls.flatMap (levelGroup groups)).map (fun p => p.Name)).Nodup →
      (∀ p ∈ ls.flatMap (levelGroup groups), s.blacklist.entry kind p.Name = {} ∧
        mappedBody d p requestedModel body ≠ none) →
      s.blacklist.retry = cfg →
      BlacklistPost kind
        ((ls.flatMap (levelGroup groups)).flatMap
          (fun p => List.replicate cfg.FailureThreshold.toNat p.Name))
        (cfg.FailureThreshold * (ls.flatMap (levelGroup groups)).length)
        ((ls.flatMap (levelGroup groups)).map (fun p => p.Name)) s a
        (blacklistLevels d kind endpoint requestedModel body cfg groups ls s a) := by
  induction ls with
  | nil =>
    intro s a _ _ _
    exact ⟨[], by simp, by simp, by simp, rfl, rfl, fun _ _ => rfl⟩
  | cons l rest ih =>
    intro s a hnd hfresh hcfg
    simp only [List.flatMap_cons, List.map_append] at hnd
    rw [List.nodup_append] at hnd
    obtain ⟨hnd1, hnd2, hdis⟩ := hnd
    have hp := blacklistProviders_all_fail d hsvc hfail kind endpoint requestedModel body cfg hT
      (levelGroup groups l) s a hnd1
      (fun p hp => hfresh p (by simp only [List.flatMap_cons, List.mem_append]; exact Or.inl hp))
      hcfg
    unfold blacklistLevels
    cases hflow : blacklistProviders d kind endpoint requestedModel body cfg
        (levelGroup groups l) s a with
    | returned s1 =>
      rw [hflow] at hp
      exact hp.elim
    | running s1 a1 =>
      rw [hflow] at hp
      simp only []
      have hpost1 := hp
      obtain ⟨r, h1, h2, h3, h4, h5, h6⟩ := hp
      have hrest := ih s1 a1 hnd2
        (by
          intro q hq
          have hq2 : q ∈ (l :: rest).flatMap (levelGroup groups) := by
            simp only [List.flatMap_cons, List.mem_append]; exact Or.inr hq
          refine ⟨?_, (hfresh q hq2).2⟩
          have hqn : q.Name ∉ (levelGroup groups l).map (fun p => p.Name) := by
            intro hmem
            exact hdis hmem (List.mem_map.mpr ⟨q, hq, rfl⟩)
          rw [h6 q.Name hqn]
          exact (hfresh q hq2).1)
        (by rw [h5, hcfg])
      have hseq := blacklistPost_seq kind _ _ _ _ _ _ s s1 a a1 _ hpost1 hrest
      refine blacklistPost_cast kind _ _ _ _ _ _ s a _ ?_ ?_ ?_ hseq
      · simp [List.flatMap_cons]
      · simp only [List.flatMap_cons, List.length_append]
        push_cast
        ring
      · simp [List.flatMap_cons]

theorem count_flatMap_replicate_absent (n : Nat) (L : List Provider) (name : String)
    (h : name ∉ L.map (fun p => p.Name)) :
    (L.flatMap (fun q => List.replicate n q.Name)).count name = 0 := by
  rw [List.count_eq_zero]
  intro hmem
  rw [List.mem_flatMap] at hmem
  obtain ⟨q, hq, hin⟩ := hmem
  have := (List.mem_replicate.mp hin).2
  exact h (List.mem_map.mpr ⟨q, hq, this.symm⟩)

theorem count_flatMap_replicate (n : Nat) (L : List Provider)
    (hnd : (L.map (fun p => p.Name)).Nodup) (p : Provider) (hp : p ∈ L) :
    (L.flatMap (fun q => List.replicate n q.Name)).count p.Name = n := by
  induction L with
  | nil => simp at hp
  | cons x xs ih =>
    simp only [List.map_cons, List.nodup_cons] at hnd
    rw [List.flatMap_cons, List.count_append]
    by_cases hx : x.Name = p.Name
    · rw [hx, List.count_replicate_self,
        count_flatMap_replicate_absent n xs p.Name (by rw [← hx]; exact hnd.1)]
      rfl
    · have hpx : p ∈ xs := by
        rcases List.mem_cons.mp hp with h | h
        · subst h; exact absurd rfl hx
        · exact h
      rw [ih hnd.2 hpx]
      have : List.count p.Name (List.replicate n x.Name) = 0 := by
        rw [List.count_eq_zero]
        intro hmem
        exact hx (List.mem_replicate.mp hmem).2.symm
      omega

/-- C3: blacklist-retry mode with the store of the specification, threshold
`T >= 1`, candidates with pairwise distinct names and failure count zero, and
an upstream on which every attempt fails with a non-abort error. The forward
calls of the request are, tier by tier in visiting order, `T` consecutive calls
to each candidate; every candidate is visited once and so receives exactly `T`
calls; the answer is 502 with `totalAttempts = T * (number of candidates)` and
mode `blacklist_retry`. -/
theorem blacklist_retry_exhausts_every_candidate (d : Deps BlacklistStore)
    (kind endpoint : String) (req : Inbound) (providers : List Provider)
    (s : Relay BlacklistStore) (T : Int)
    (hsvc : d.blacklistService = specBlacklistService)
    (hread : req.bodyReadErr = false)
    (hfixed : s.blacklist.fixedMode = true)
    (hT : 1 ≤ T) (hthr : s.blacklist.retry.FailureThreshold = T)
    (hcand : (selectActive d s.blacklist kind req.requestedModel providers).1 ≠ [])
    (hnames : ((selectActive d s.blacklist kind req.requestedModel providers).1.map
      (fun p => p.Name)).Nodup)
    (hzero : ∀ p ∈ (selectActive d s.blacklist kind req.requestedModel providers).1,
      (s.blacklist.entry kind p.Name).failureCount = 0)
    (hbody : ∀ p ∈ (selectActive d s.blacklist kind req.requestedModel providers).1,
      mappedBody d p req.requestedModel req.body ≠ none)
    (hfail : ∀ (n : Nat) (call : ForwardCall),
      (forwardRequest (d.exchange n call)).ok = false ∧
      isClientAbortErr (forwardRequest (d.exchange n call)).err = false) :
    ∃ rest lastProvider lastError,
      (proxyHandler d kind endpoint req (some providers) s).1.trace = s.trace ++ rest ∧
      rest.filterMap Event.forwardName =
        (tierOrder (selectActive d s.blacklist kind req.requestedModel providers).1).flatMap
          (fun p => List.replicate T.toNat p.Name) ∧
      (tierOrder (selectActive d s.blacklist kind req.requestedModel providers).1).Perm
        (selectActive d s.blacklist kind req.requestedModel providers).1 ∧
      (∀ p ∈ (selectActive d s.blacklist kind req.requestedModel providers).1,
        (rest.filterMap Event.forwardName).count p.Name = T.toNat) ∧
      (proxyHandler d kind endpoint req (some providers) s).2 =
        some (.badGateway lastProvider lastError
          (T * (selectActive d s.blacklist kind req.requestedModel providers).1.length)
          (some "blacklist_retry")) := by
  generalize hact : (selectActive d s.blacklist kind req.requestedModel providers).1 = active
    at hcand hnames hzero hbody ⊢
  have hnotbl : ∀ p ∈ active, d.blacklistService.IsBlacklisted s.blacklist kind p.Name = false := by
    intro p hp
    rw [← hact] at hp
    exact selectActive_not_blacklisted d s.blacklist kind req.requestedModel providers p hp
  have hperm := tierOrder_perm active
  have hne : active.length ≠ 0 := by
    intro h0
    exact hcand (List.length_eq_zero.mp h0)
  generalize hcam : (s.affinity.Get (GenerateAffinityKey req.userID kind req.requestedModel)
    (d.now s.calls)).2 = cam
  generalize hs1 : ({ s with affinity := cam } : Relay BlacklistStore) = s1
  have hs1b : s1.blacklist = s.blacklist := by rw [← hs1]
  have hs1t : s1.trace = s.trace := by rw [← hs1]
  have hmode : d.blacklistService.ShouldUseFixedMode s.blacklist = true := by
    rw [hsvc]; exact hfixed
  have hcfg : d.blacklistService.GetRetryConfig s.blacklist = s.blacklist.retry := by
    rw [hsvc]; rfl
  have hmain : proxyHandler d kind endpoint req (some providers) s =
      finalAnswer (some "blacklist_retry")
        (blacklistLevels d kind endpoint req.requestedModel req.body s.blacklist.retry
          (groupByLevel active) (sortedLevels (groupByLevel active)) s1 {}) := by
    simp only [proxyHandler, hread, hact, hne, hcam, hs1, hs1b, hmode, blacklistRetryMode, hcfg,
      Bool.false_eq_true, if_false, if_true]
  have hpost := blacklistLevels_all_fail d hsvc hfail kind endpoint req.requestedModel req.body
    s.blacklist.retry (by rw [hthr]; exact hT) (groupByLevel active)
    (sortedLevels (groupByLevel active)) s1 {}
    ((hperm.map (fun p => p.Name)).nodup_iff.mpr hnames)
    (by
      intro p hp
      have hpa : p ∈ active := hperm.mem_iff.mp hp
      refine ⟨?_, hbody p hpa⟩
      have h1 := hzero p hpa
      have h2 := hnotbl p hpa
      rw [spec_isBlacklisted hsvc] at h2
      rw [hs1b]
      cases he : s.blacklist.entry kind p.Name with
      | mk c b =>
        rw [he] at h1 h2
        simp only at h1 h2
        subst h1; subst h2; rfl)
    (by rw [hs1b])
  rw [hmain]
  cases hflow : blacklistLevels d kind endpoint req.requestedModel req.body s.blacklist.retry
      (groupByLevel active) (sortedLevels (groupByLevel active)) s1 {} with
  | returned s2 =>
    rw [hflow] at hpost
    exact hpost.elim
  | running s2 a =>
    rw [hflow] at hpost
    obtain ⟨rest, h1, h2, h3, _, _, _⟩ := hpost
    simp only [finalAnswer]
    have hcalls : rest.filterMap Event.forwardName =
        (tierOrder active).flatMap (fun p => List.replicate T.toNat p.Name) := by
      rw [h2, hthr]; rfl
    refine ⟨rest, a.lastProvider, errorMessage a.lastError, ?_, hcalls, hperm, ?_, ?_⟩
    · simp [h1, hs1t]
    · intro p hp
      rw [hcalls]
      exact count_flatMap_replicate T.toNat (tierOrder active)
        ((hperm.map (fun p => p.Name)).nodup_iff.mpr hnames) p (hperm.mem_iff.mpr hp)
    · have hlen := hperm.length_eq
      unfold tierOrder at hlen
      simp only [h3, hthr, hlen]
      simp

/-- Witness for C3 (scenario S3): threshold 3, candidates A and B, every call
answered 502: three calls to A, then three to B, then 502 with six attempts. -/
theorem blacklist_retry_exhausts_every_candidate_witness :
    (∃ rest lastProvider lastError,
      (proxyHandler (scenarioDeps alwaysBadGateway) "claude" "/v1/messages" scenarioInbound
        (some [scenarioProvider "A" 1, scenarioProvider "B" 1])
        (scenarioRelay { fixedMode := true })).1.trace =
          (scenarioRelay { fixedMode := true }).trace ++ rest ∧
      rest.filterMap Event.forwardName =
        (tierOrder (selectActive (scenarioDeps alwaysBadGateway)
          (scenarioRelay { fixedMode := true }).blacklist "claude" scenarioInbound.requestedModel
          [scenarioProvider "A" 1, scenarioProvider "B" 1]).1).flatMap
          (fun p => List.replicate (3 : Int).toNat p.Name) ∧
      (tierOrder (selectActive (scenarioDeps alwaysBadGateway)
          (scenarioRelay { fixedMode := true }).blacklist "claude" scenarioInbound.requestedModel
          [scenarioProvider "A" 1, scenarioProvider "B" 1]).1).Perm
        (selectActive (scenarioDeps alwaysBadGateway)
          (scenarioRelay { fixedMode := true }).blacklist "claude" scenarioInbound.requestedModel
          [scenarioProvider "A" 1, scenarioProvider "B" 1]).1 ∧
      (∀ p ∈ (selectActive (scenarioDeps alwaysBadGateway)
          (scenarioRelay { fixedMode := true }).blacklist "claude" scenarioInbound.requestedModel
          [scenarioProvider "A" 1, scenarioProvider "B" 1]).1,
        (rest.filterMap Event.forwardName).count p.Name = (3 : Int).toNat) ∧
      (proxyHandler (scenarioDeps alwaysBadGateway) "claude" "/v1/messages" scenarioInbound
        (some [scenarioProvider "A" 1, scenarioProvider "B" 1])
        (scenarioRelay { fixedMode := true })).2 =
        some (.badGateway lastProvider lastError
          (3 * (selectActive (scenarioDeps alwaysBadGateway)
            (scenarioRelay { fixedMode := true }).blacklist "claude"
            scenarioInbound.requestedModel
            [scenarioProvider "A" 1, scenarioProvider "B" 1]).1.length)
          (some "blacklist_retry"))) ∧
    (proxyHandler (scenarioDeps alwaysBadGateway) "claude" "/v1/messages" scenarioInbound
        (some [scenarioProvider "A" 1, scenarioProvider "B" 1])
        (scenarioRelay { fixedMode := true })).1.trace.filterMap Event.forwardName =
      ["A", "A", "A", "B", "B", "B"] ∧
    (proxyHandler (scenarioDeps alwaysBadGateway) "claude" "/v1/messages" scenarioInbound
        (some [scenarioProvider "A" 1, scenarioProvider "B" 1])
        (scenarioRelay { fixedMode := true })).2 =
      some (.badGateway "B" "upstream status 502" 6 (some "blacklist_retry")) :=
  ⟨blacklist_retry_exhausts_every_candidate (scenarioDeps alwaysBadGateway) "claude"
      "/v1/messages" scenarioInbound [scenarioProvider "A" 1, scenarioProvider "B" 1]
      (scenarioRelay { fixedMode := true }) 3 rfl (by decide) (by decide) (by decide)
      (by decide) (by decide) (by decide) (by decide) (by decide)
      (fun _ _ => ⟨rfl, rfl⟩),
    by decide, by decide⟩

/-! ## Gemini: a written response stops the request -/

theorem noWritten_nil : NoWritten [] := by
  intro P h; simp at h

theorem noWritten_append {l1 l2 : List Event} (h1 : NoWritten l1) (h2 : NoWritten l2) :
    NoWritten (l1 ++ l2) := by
  intro P h
  rcases List.mem_append.mp h with h | h
  · exact h1 P h
  · exact h2 P h

theorem noWritten_cons {e : Event} {l : List Event}
    (he : ∀ P, e ≠ Event.forward P Outcome.failureWritten) (h : NoWritten l) :
    NoWritten (e :: l) := by
  intro P hmem
  rcases List.mem_cons.mp hmem with h1 | h1
  · exact he P h1.symm
  · exact h P h1

theorem geminiPost_extend {σ : Type} (s s2 : Relay σ) (pre : List Event) (f : GeminiFlow σ)
    (htrace : s2.trace = s.trace ++ pre) (hpre : NoWritten pre) (h : GeminiPost s2 f) :
    GeminiPost s f := by
  cases f with
  | running s1 a =>
    obtain ⟨rest, h1, h2⟩ := h
    exact ⟨pre ++ rest, by rw [h1, htrace, List.append_assoc], noWritten_append hpre h2⟩
  | returned s1 =>
    obtain ⟨rest, h1, h2⟩ := h
    refine ⟨pre ++ rest, by rw [h1, htrace, List.append_assoc], ?_⟩
    rcases h2 with h2 | ⟨pre0, P, tail, h3, h4, h5, h6, h7⟩
    · exact Or.inl (noWritten_append hpre h2)
    · refine Or.inr ⟨pre ++ pre0, P, tail, ?_, noWritten_append hpre h4, h5, h6, h7⟩
      rw [h3, List.append_assoc]

theorem geminiOutcome_success (r : GeminiForwardResult) (h : r.success = true) :
    geminiOutcomeOf r = Outcome.success := by
  simp [geminiOutcomeOf, h]

theorem geminiOutcome_written (r : GeminiForwardResult) (h : r.success = false)
    (h2 : r.responseWritten = true) : geminiOutcomeOf r = Outcome.failureWritten := by
  simp [geminiOutcomeOf, h, h2]

theorem geminiOutcome_failure (r : GeminiForwardResult) (h : r.success = false)
    (h2 : r.responseWritten = false) : geminiOutcomeOf r = Outcome.failure := by
  simp [geminiOutcomeOf, h, h2]

theorem forwardGemini_trace {σ : Type} (d : GeminiDeps σ) (s : Relay σ) (isStream : Bool)
    (p : GeminiProvider) :
    (s.forwardGemini d isStream p).2.trace =
      s.trace ++ [Event.forward p.Name (geminiOutcomeOf (s.forwardGemini d isStream p).1)] :=
  rfl

/-- The three ways one Gemini attempt can end, with the events it appends. -/
theorem gemini_attempt_cases {σ : Type} (d : GeminiDeps σ) (s : Relay σ) (isStream : Bool)
    (p : GeminiProvider) :
    ((s.forwardGemini d isStream p).1.success = true ∧
      (s.forwardGemini d isStream p).2.trace = s.trace ++ [Event.forward p.Name Outcome.success]) ∨
    ((s.forwardGemini d isStream p).1.success = false ∧
      (s.forwardGemini d isStream p).1.responseWritten = true ∧
      (s.forwardGemini d isStream p).2.trace =
        s.trace ++ [Event.forward p.Name Outcome.failureWritten]) ∨
    ((s.forwardGemini d isStream p).1.success = false ∧
      (s.forwardGemini d isStream p).1.responseWritten = false ∧
      (s.forwardGemini d isStream p).2.trace = s.trace ++ [Event.forward p.Name Outcome.failure]) := by
  cases hs : (s.forwardGemini d isStream p).1.success with
  | true =>
    left
    refine ⟨rfl, ?_⟩
    rw [forwardGemini_trace, geminiOutcome_success _ hs]
  | false =>
    right
    cases hw : (s.forwardGemini d isStream p).1.responseWritten with
    | true =>
      left
      refine ⟨rfl, rfl, ?_⟩
      rw [forwardGemini_trace, geminiOutcome_written _ hs hw]
    | false =>
      right
      refine ⟨rfl, rfl, ?_⟩
      rw [forwardGemini_trace, geminiOutcome_failure _ hs hw]

theorem gemini_written_return {σ : Type} (d : GeminiDeps σ) (s s1 : Relay σ) (name : String)
    (h : s1.trace = s.trace ++ [Event.forward name Outcome.failureWritten]) :
    GeminiPost s (.returned (s1.geminiFailure d name)) := by
  refine ⟨[Event.forward name Outcome.failureWritten, Event.recordFailure "gemini" name],
    by simp [Relay.geminiFailure, h], Or.inr ⟨[], name, [Event.recordFailure "gemini" name],
      rfl, noWritten_nil, ?_, ?_, ?_⟩⟩
  · exact noWritten_cons (by intro P h; cases h) noWritten_nil
  · simp [List.filter, Event.isRecordFailure]
  · intro e he
    simp only [List.mem_singleton] at he
    subst he
    rfl

theorem gemini_success_return {σ : Type} (s s1 : Relay σ) (name : String) (extra : List Event)
    (h : s1.trace = s.trace ++ (Event.forward name Outcome.success :: extra))
    (hextra : NoWritten extra) :
    GeminiPost s (.returned s1) :=
  ⟨_, h, Or.inl (noWritten_cons (by intro P h; cases h) hextra)⟩

theorem geminiRetryLoop_post {σ : Type} (d : GeminiDeps σ) (isStream : Bool)
    (provider : GeminiProvider) (maxRetry wait : Int) (n : Nat) :
    ∀ (rc : Int) (s : Relay σ) (a : GeminiAttempts),
      GeminiPost s (geminiRetryLoop d isStream provider maxRetry wait n rc s a) := by
  induction n with
  | zero =>
    intro rc s a
    exact ⟨[], by simp, noWritten_nil⟩
  | succ m ih =>
    intro rc s a
    unfold geminiRetryLoop
    cases hb : d.blacklistService.IsBlacklisted s.blacklist "gemini" provider.Name with
    | true =>
      simp only [if_true]
      exact ⟨[], by simp, noWritten_nil⟩
    | false =>
      simp only [Bool.false_eq_true, if_false]
      rcases gemini_attempt_cases d s isStream provider with ⟨hs, ht⟩ | ⟨hs, hw, ht⟩ | ⟨hs, hw, ht⟩
      · simp only [hs, if_true]
        apply gemini_success_return s _ provider.Name [Event.recordSuccess "gemini" provider.Name]
        · simp [Relay.setLastUsedProvider, Relay.geminiSuccess, ht]
        · exact noWritten_cons (by intro P h; cases h) noWritten_nil
      · simp only [hs, hw, Bool.false_eq_true, if_false, if_true]
        exact gemini_written_return d s _ provider.Name ht
      · simp only [hs, hw, Bool.false_eq_true, if_false]
        have hpre : NoWritten [Event.forward provider.Name Outcome.failure,
            Event.recordFailure "gemini" provider.Name] :=
          noWritten_cons (by intro P h; cases h)
            (noWritten_cons (by intro P h; cases h) noWritten_nil)
        have ht1 : ((s.forwardGemini d isStream provider).2.geminiFailure d provider.Name).trace =
            s.trace ++ [Event.forward provider.Name Outcome.failure,
              Event.recordFailure "gemini" provider.Name] := by
          simp [Relay.geminiFailure, ht]
        split
        · exact ⟨_, ht1, hpre⟩
        · split
          · apply geminiPost_extend s _ ([Event.forward provider.Name Outcome.failure,
              Event.recordFailure "gemini" provider.Name] ++ [Event.sleep wait]) _ ?_
              (noWritten_append hpre (noWritten_cons (by intro P h; cases h) noWritten_nil)) (ih _ _ _)
            simp [Relay.emit, ht1]
          · exact geminiPost_extend s _ _ _ ht1 hpre (ih _ _ _)

theorem geminiBlacklistProviders_post {σ : Type} (d : GeminiDeps σ) (isStream : Bool)
    (cfg : RetryConfig) (l : List GeminiProvider) :
    ∀ (s : Relay σ) (a : GeminiAttempts),
      GeminiPost s (geminiBlacklistProviders d isStream cfg l s a) := by
  induction l with
  | nil =>
    intro s a
    exact ⟨[], by simp, noWritten_nil⟩
  | cons p rest ih =>
    intro s a
    unfold geminiBlacklistProviders
    split
    · exact ih s a
    · have hp := geminiRetryLoop_post d isStream p cfg.FailureThreshold cfg.RetryWaitSeconds
        cfg.FailureThreshold.toNat 0 s a
      cases hflow : geminiRetryLoop d isStream p cfg.FailureThreshold cfg.RetryWaitSeconds
          cfg.FailureThreshold.toNat 0 s a with
      | returned s1 => rw [hflow] at hp; exact hp
      | running s1 a1 =>
        rw [hflow] at hp
        obtain ⟨pre, h1, h2⟩ := hp
        exact geminiPost_extend s s1 pre _ h1 h2 (ih s1 a1)

theorem geminiBlacklistLevels_post {σ : Type} (d : GeminiDeps σ) (isStream : Bool)
    (cfg : RetryConfig) (groups : List (Int × List GeminiProvider)) (l : List Int) :
    ∀ (s : Relay σ) (a : GeminiAttempts),
      GeminiPost s (geminiBlacklistLevels d isStream cfg groups l s a) := by
  induction l with
  | nil =>
    intro s a
    exact ⟨[], by simp, noWritten_nil⟩
  | cons level rest ih =>
    intro s a
    unfold geminiBlacklistLevels
    have hp := geminiBlacklistProviders_post d isStream cfg (levelGroupGemini groups level) s a
    cases hflow : geminiBlacklistProviders d isStream cfg (levelGroupGemini groups level) s a with
    | returned s1 => rw [hflow] at hp; exact hp
    | running s1 a1 =>
      rw [hflow] at hp
      obtain ⟨pre, h1, h2⟩ := hp
      exact geminiPost_extend s s1 pre _ h1 h2 (ih s1 a1)

theorem geminiFailoverProviders_post {σ : Type} (d : GeminiDeps σ) (isStream : Bool)
    (key cached : String) (l : List GeminiProvider) :
    ∀ (s : Relay σ) (a : GeminiAttempts),
      GeminiPost s (geminiFailoverProviders d isStream key cached l s a) := by
  induction l with
  | nil =>
    intro s a
    exact ⟨[], by simp, noWritten_nil⟩
  | cons p rest ih =>
    intro s a
    unfold geminiFailoverProviders
    split
    · exact ih s a
    · rcases gemini_attempt_cases d s isStream p with ⟨hs, ht⟩ | ⟨hs, hw, ht⟩ | ⟨hs, hw, ht⟩
      · simp only [hs, if_true]
        apply gemini_success_return s _ p.Name
          [Event.affinitySet key p.Name, Event.recordSuccess "gemini" p.Name]
        · simp [Relay.setLastUsedProvider, Relay.geminiSuccess, Relay.geminiAffinitySet, ht]
        · exact noWritten_cons (by intro P h; cases h)
            (noWritten_cons (by intro P h; cases h) noWritten_nil)
      · simp only [hs, hw, Bool.false_eq_true, if_false, if_true]
        exact gemini_written_return d s _ p.Name ht
      · simp only [hs, hw, Bool.false_eq_true, if_false]
        apply geminiPost_extend s _ [Event.forward p.Name Outcome.failure,
            Event.recordFailure "gemini" p.Name] _ ?_ ?_ (ih _ _)
        · simp [Relay.geminiFailure, ht]
        · exact noWritten_cons (by intro P h; cases h)
            (noWritten_cons (by intro P h; cases h) noWritten_nil)

theorem geminiFailoverLevels_post {σ : Type} (d : GeminiDeps σ) (isStream : Bool)
    (key cached : String) (rr : Bool) (groups : List (Int × List GeminiProvider))
    (l : List Int) :
    ∀ (s : Relay σ) (a : GeminiAttempts),
      GeminiPost s (geminiFailoverLevels d isStream key cached rr groups l s a) := by
  induction l with
  | nil =>
    intro s a
    exact ⟨[], by simp, noWritten_nil⟩
  | cons level rest ih =>
    intro s a
    unfold geminiFailoverLevels
    generalize (if rr = true
      then roundRobinOrderGemini s.rrLastStart level (levelGroupGemini groups level)
      else (levelGroupGemini groups level, s.rrLastStart)) = rotated
    simp only []
    generalize hs0 : ({ s with rrLastStart := rotated.2 } : Relay σ) = s0
    have ht0 : s0.trace = s.trace ++ [] := by rw [← hs0]; simp
    apply geminiPost_extend s s0 [] _ ht0 noWritten_nil
    have hp := geminiFailoverProviders_post d isStream key cached rotated.1 s0 a
    cases hflow : geminiFailoverProviders d isStream key cached rotated.1 s0 a with
    | returned s1 => rw [hflow] at hp; exact hp
    | running s1 a1 =>
      rw [hflow] at hp
      obtain ⟨pre, h1, h2⟩ := hp
      exact geminiPost_extend s0 s1 pre _ h1 h2 (ih s1 a1)

theorem geminiFinal_of_post {σ : Type} (s : Relay σ) (f : GeminiFlow σ)
    (ans : GeminiFlow σ → Relay σ × Option GeminiResponse)
    (hret : ∀ s1, ans (.returned s1) = (s1, none))
    (hrun : ∀ s1 a, (ans (.running s1 a)).1 = s1)
    (h : GeminiPost s f) : GeminiFinal s (ans f) := by
  cases f with
  | running s1 a =>
    obtain ⟨rest, h1, h2⟩ := h
    exact ⟨rest, by rw [hrun]; exact h1, Or.inl h2⟩
  | returned s1 =>
    obtain ⟨rest, h1, h2⟩ := h
    refine ⟨rest, by rw [hret]; exact h1, ?_⟩
    rcases h2 with h2 | ⟨pre, P, tail, h3, h4, h5, h6, h7⟩
    · exact Or.inl h2
    · exact Or.inr ⟨pre, P, tail, h3, h4, h5, h6, h7, by rw [hret]⟩

theorem tryGeminiAffinityProvider_post {σ : Type} (d : GeminiDeps σ) (key cached : String)
    (active : List GeminiProvider) (isStream : Bool) (s : Relay σ) :
    ((tryGeminiAffinityProvider d key cached active isStream s).1.Handled = true ∧
      GeminiPost s (.returned (tryGeminiAffinityProvider d key cached active isStream s).2)) ∨
    ((tryGeminiAffinityProvider d key cached active isStream s).1.Handled = false ∧
      ∃ pre, (tryGeminiAffinityProvider d key cached active isStream s).2.trace = s.trace ++ pre ∧
        NoWritten pre) := by
  unfold tryGeminiAffinityProvider
  split
  · exact Or.inr ⟨rfl, [], by simp, noWritten_nil⟩
  · split
    · exact Or.inr ⟨rfl, [], by simp, noWritten_nil⟩
    · rename_i cp _
      rcases gemini_attempt_cases d s isStream cp with ⟨hs, ht⟩ | ⟨hs, hw, ht⟩ | ⟨hs, hw, ht⟩
      · simp only [hs, if_true]
        refine Or.inl ⟨trivial, ?_⟩
        apply gemini_success_return s _ cp.Name
          [Event.affinitySet key cp.Name, Event.recordSuccess "gemini" cp.Name]
        · simp [Relay.setLastUsedProvider, Relay.geminiSuccess, Relay.geminiAffinitySet, ht]
        · exact noWritten_cons (by intro P h; cases h)
            (noWritten_cons (by intro P h; cases h) noWritten_nil)
      · simp only [hs, hw, Bool.false_eq_true, if_false]
        refine Or.inl ⟨trivial, [Event.forward cp.Name Outcome.failureWritten,
          Event.affinityInvalidate key, Event.recordFailure "gemini" cp.Name], ?_,
          Or.inr ⟨[], cp.Name,
            [Event.affinityInvalidate key, Event.recordFailure "gemini" cp.Name],
            rfl, noWritten_nil, ?_, ?_, ?_⟩⟩
        · simp [Relay.geminiFailure, Relay.affinityInvalidate, ht]
        · exact noWritten_cons (by intro P h; cases h)
            (noWritten_cons (by intro P h; cases h) noWritten_nil)
        · simp [List.filter, Event.isRecordFailure]
        · intro e he
          simp only [List.mem_cons, List.mem_singleton, List.not_mem_nil, or_false] at he
          rcases he with he | he <;> subst he <;> rfl
      · simp only [hs, hw, Bool.false_eq_true, if_false]
        refine Or.inr ⟨trivial, [Event.forward cp.Name Outcome.failure,
          Event.affinityInvalidate key, Event.recordFailure "gemini" cp.Name], ?_, ?_⟩
        · simp [Relay.geminiFailure, Relay.affinityInvalidate, ht]
        · exact noWritten_cons (by intro P h; cases h)
            (noWritten_cons (by intro P h; cases h)
              (noWritten_cons (by intro P h; cases h) noWritten_nil))

theorem geminiProxyHandler_final {σ : Type} (d : GeminiDeps σ) (req : GeminiInbound)
    (providers : List GeminiProvider) (s : Relay σ) :
    GeminiFinal s (geminiProxyHandler d req providers s) := by
  have hnil : ∀ r : Option GeminiResponse, GeminiFinal s (s, r) :=
    fun r => ⟨[], by simp, Or.inl noWritten_nil⟩
  unfold geminiProxyHandler
  split
  · exact hnil _
  · split
    · exact hnil _
    · simp only []
      split
      · exact hnil _
      · split
        · exact geminiFinal_of_post s _ geminiBlacklistAnswer (fun _ => rfl) (fun _ _ => rfl)
            (geminiBlacklistLevels_post d _ _ _ _ s _)
        · generalize hkey : GenerateAffinityKey req.userID "gemini" req.geminiModel = key
          generalize hgot : s.affinity.Get key (d.now s.calls) = got
          generalize hs1 : ({ s with affinity := got.2 } : Relay σ) = s1
          have hs1t : s1.trace = s.trace ++ [] := by rw [← hs1]; simp
          generalize hactive : selectActiveGemini d s.blacklist providers = active
          by_cases hc : got.1 = ""
          · have hcb : (got.1 != "") = false := by simp [hc]
            simp only [hcb, Bool.false_and, Bool.false_eq_true, if_false]
            apply geminiFinal_of_post s _ geminiFailoverAnswer (fun _ => rfl) (fun _ _ => rfl)
            exact geminiPost_extend s s1 [] _ hs1t noWritten_nil
              (geminiFailoverLevels_post d _ _ _ _ _ _ s1 _)
          · have hcb : (got.1 != "") = true := by simp [hc]
            simp only [hcb, Bool.true_and, if_true]
            rcases tryGeminiAffinityProvider_post d key got.1 active req.isStream s1 with
              ⟨hh, hp⟩ | ⟨hh, pre, hp1, hp2⟩
            · simp only [hh, if_true]
              have := geminiFinal_of_post s _ (fun f => match f with
                  | .returned s2 => (s2, none)
                  | .running s2 _ => (s2, none)) (fun _ => rfl) (fun _ _ => rfl)
                (geminiPost_extend s s1 [] _ hs1t noWritten_nil hp)
              exact this
            · simp only [hh, Bool.false_eq_true, if_false]
              apply geminiFinal_of_post s _ geminiFailoverAnswer (fun _ => rfl) (fun _ _ => rfl)
              apply geminiPost_extend s s1 [] _ hs1t noWritten_nil
              exact geminiPost_extend s1 _ pre _ hp1 hp2
                (geminiFailoverLevels_post d _ _ _ _ _ _ _ _)

theorem written_split_unique (pre tail : List Event) (P : String) (hpre : NoWritten pre)
    (htail : NoWritten tail) :
    ∀ (pre2 post2 : List Event) (P2 : String),
      pre2 ++ Event.forward P2 Outcome.failureWritten :: post2 =
        pre ++ Event.forward P Outcome.failureWritten :: tail →
      P2 = P ∧ post2 = tail := by
  induction pre with
  | nil =>
    intro pre2 post2 P2 h
    cases pre2 with
    | nil =>
      simp only [List.nil_append, List.cons.injEq, Event.forward.injEq, and_true] at h
      exact h
    | cons y ys =>
      simp only [List.cons_append, List.nil_append, List.cons.injEq] at h
      exfalso
      apply htail P2
      rw [← h.2]
      simp
  | cons x xs ih =>
    intro pre2 post2 P2 h
    cases pre2 with
    | nil =>
      simp only [List.nil_append, List.cons_append, List.cons.injEq] at h
      exfalso
      apply hpre P2
      rw [← h.1]
      simp
    | cons y ys =>
      simp only [List.cons_append, List.cons.injEq] at h
      exact ih (fun Q hQ => hpre Q (List.mem_cons_of_mem _ hQ)) ys post2 P2 h.2

/-- C5: in the Gemini handler, whichever path makes the attempt (affinity,
failover loop, blacklist-retry loop), once a forward attempt to `P` has failed
with the response already written, the events that follow contain exactly one
recorded failure, for `P`, and no forward attempt, and the handler writes no
error answer (no 502 body). -/
theorem gemini_response_written_stops {σ : Type} (d : GeminiDeps σ) (req : GeminiInbound)
    (providers : List GeminiProvider) (s : Relay σ) :
    ∃ new, (geminiProxyHandler d req providers s).1.trace = s.trace ++ new ∧
      ∀ (pre post : List Event) (P : String),
        new = pre ++ Event.forward P Outcome.failureWritten :: post →
        post.filter Event.isRecordFailure = [Event.recordFailure "gemini" P] ∧
        (∀ e ∈ post, e.isForward = false) ∧
        (geminiProxyHandler d req providers s).2 = none := by
  obtain ⟨new, h1, h2⟩ := geminiProxyHandler_final d req providers s
  refine ⟨new, h1, ?_⟩
  intro pre post P hsplit
  rcases h2 with h2 | ⟨pre0, P0, tail, h3, h4, h5, h6, h7, h8⟩
  · exfalso
    apply h2 P
    rw [hsplit]
    simp
  · obtain ⟨hP, hpost⟩ := written_split_unique pre0 tail P0 h4 h5 pre post P
      (by rw [← hsplit, h3])
    subst hP; subst hpost
    exact ⟨h6, h7, h8⟩

/-- Witness for C5: a Gemini stream to A breaks after the first flush, in
failover mode, in blacklist-retry mode and on the affinity path: one failure
recorded for A, B never tried, no error answer. -/
theorem gemini_response_written_stops_witness :
    (∃ new, (geminiProxyHandler (geminiScenarioDeps geminiStreamBreaks)
        { isStream := true, geminiModel := "gemini-2.5-pro", userID := "user1" }
        [geminiScenarioProvider "A" 1, geminiScenarioProvider "B" 1]
        (scenarioRelay {})).1.trace = (scenarioRelay {}).trace ++ new ∧
      ∀ (pre post : List Event) (P : String),
        new = pre ++ Event.forward P Outcome.failureWritten :: post →
        post.filter Event.isRecordFailure = [Event.recordFailure "gemini" P] ∧
        (∀ e ∈ post, e.isForward = false) ∧
        (geminiProxyHandler (geminiScenarioDeps geminiStreamBreaks)
          { isStream := true, geminiModel := "gemini-2.5-pro", userID := "user1" }
          [geminiScenarioProvider "A" 1, geminiScenarioProvider "B" 1]
          (scenarioRelay {})).2 = none) ∧
    ((geminiProxyHandler (geminiScenarioDeps geminiStreamBreaks)
        { isStream := true, geminiModel := "gemini-2.5-pro", userID := "user1" }
        [geminiScenarioProvider "A" 1, geminiScenarioProvider "B" 1] (scenarioRelay {})).1.trace =
      [.forward "A" .failureWritten, .recordFailure "gemini" "A"] ∧
     (geminiProxyHandler (geminiScenarioDeps geminiStreamBreaks)
        { isStream := true, geminiModel := "gemini-2.5-pro", userID := "user1" }
        [geminiScenarioProvider "A" 1, geminiScenarioProvider "B" 1] (scenarioRelay {})).2 =
      none) ∧
    (geminiProxyHandler (geminiScenarioDeps geminiStreamBreaks)
        { isStream := true, geminiModel := "gemini-2.5-pro", userID := "user1" }
        [geminiScenarioProvider "A" 1, geminiScenarioProvider "B" 1]
        (scenarioRelay { fixedMode := true })).1.trace =
      [.forward "A" .failureWritten, .recordFailure "gemini" "A"] ∧
    (geminiProxyHandler (geminiScenarioDeps geminiStreamBreaks)
        { isStream := true, geminiModel := "gemini-2.5-pro", userID := "user1" }
        [geminiScenarioProvider "B" 1, geminiScenarioProvider "A" 2]
        { scenarioRelay {} with
          affinity := (NewCacheAffinityManager 300000).Set "user1:gemini:gemini-2.5-pro" "A" 0
        }).1.trace =
      [.forward "A" .failureWritten, .affinityInvalidate "user1:gemini:gemini-2.5-pro",
       .recordFailure "gemini" "A"] :=
  ⟨gemini_response_written_stops (geminiScenarioDeps geminiStreamBreaks)
      { isStream := true, geminiModel := "gemini-2.5-pro", userID := "user1" }
      [geminiScenarioProvider "A" 1, geminiScenarioProvider "B" 1] (scenarioRelay {}),
    by decide, by decide, by decide⟩

/-! ## Affinity cache -/

theorem freshEntry_set (cam : CacheAffinityManager) (k P : String) (t0 : Int) :
    FreshEntry (cam.Set k P t0) k P (t0 + cam.defaultTTL) := by
  refine ⟨_, mapGet_mapSet_same cam.store k _, rfl, rfl⟩

theorem freshEntry_expireRecheck (cam : CacheAffinityManager) (k P key : String) (X now : Int)
    (h : FreshEntry cam k P X) (hnow : now ≤ X) :
    FreshEntry (cam.expireRecheck key now) k P X := by
  obtain ⟨e, hget, hP, hX⟩ := h
  by_cases hk : key = k
  · subst hk
    have hlt : ¬ e.ExpireAt < now := by omega
    simp only [CacheAffinityManager.expireRecheck, hget, hlt, if_false]
    exact ⟨e, hget, hP, hX⟩
  · unfold CacheAffinityManager.expireRecheck
    cases hg : mapGet cam.store key with
    | none => exact ⟨e, hget, hP, hX⟩
    | some aff =>
      by_cases hlt : aff.ExpireAt < now
      · simp only [hlt, if_true]
        exact ⟨e, by simpa [mapGet_mapDel_other cam.store key k hk] using hget, hP, hX⟩
      · simp only [hlt, if_false]
        exact ⟨e, hget, hP, hX⟩

theorem freshEntry_step (cam : CacheAffinityManager) (k P : String) (X : Int) (op : AffinityOp)
    (h : FreshEntry cam k P X) (hw : op.writes k = false)
    (ht : ∀ τ, op.time = some τ → τ ≤ X) :
    FreshEntry (AffinityOp.apply cam op) k P X := by
  cases op with
  | get key now =>
    have hnow : now ≤ X := ht now rfl
    obtain ⟨e, hget, hP, hX⟩ := h
    by_cases hk : key = k
    · subst hk
      have hlt : ¬ e.ExpireAt < now := by omega
      simp only [AffinityOp.apply, CacheAffinityManager.Get, hget, hlt, if_false]
      exact ⟨_, mapGet_mapSet_same cam.store key _, hP, hX⟩
    · simp only [AffinityOp.apply, CacheAffinityManager.Get]
      cases hg : mapGet cam.store key with
      | none => exact ⟨e, hget, hP, hX⟩
      | some aff =>
        by_cases hlt : aff.ExpireAt < now
        · simp only [hlt, if_true]
          exact freshEntry_expireRecheck cam k P key X now ⟨e, hget, hP, hX⟩ hnow
        · simp only [hlt, if_false]
          exact ⟨e, by simpa [mapGet_mapSet_other cam.store key k _ hk] using hget, hP, hX⟩
  | expireRecheck key now =>
    exact freshEntry_expireRecheck cam k P key X now h (ht now rfl)
  | set key name now =>
    obtain ⟨e, hget, hP, hX⟩ := h
    have hk : key ≠ k := by simpa [AffinityOp.writes] using hw
    exact ⟨e, by simpa [AffinityOp.apply, CacheAffinityManager.Set,
      mapGet_mapSet_other cam.store key k _ hk] using hget, hP, hX⟩
  | invalidate key =>
    obtain ⟨e, hget, hP, hX⟩ := h
    have hk : key ≠ k := by simpa [AffinityOp.writes] using hw
    simp only [AffinityOp.apply, CacheAffinityManager.Invalidate]
    cases hg : mapGet cam.store key with
    | none => exact ⟨e, hget, hP, hX⟩
    | some aff => exact ⟨e, by simpa [mapGet_mapDel_other cam.store key k hk] using hget, hP, hX⟩
  | cleanup now =>
    have hnow : now ≤ X := ht now rfl
    obtain ⟨e, hget, hP, hX⟩ := h
    refine ⟨e, ?_, hP, hX⟩
    simp only [AffinityOp.apply, CacheAffinityManager.cleanup]
    apply mapGet_filter_keep _ _ _ _ hget
    have hlt : ¬ e.ExpireAt < now := by omega
    simp [hlt]

theorem freshEntry_run (ops : List AffinityOp) (cam : CacheAffinityManager) (k P : String)
    (X : Int) (h : FreshEntry cam k P X) (hw : ∀ op ∈ ops, op.writes k = false)
    (ht : ∀ op ∈ ops, ∀ τ, op.time = some τ → τ ≤ X) :
    FreshEntry (runAffinityOps cam ops) k P X := by
  induction ops generalizing cam with
  | nil => exact h
  | cons op ops ih =>
    simp only [runAffinityOps, List.foldl_cons]
    apply ih
    · exact freshEntry_step cam k P X op h (hw op (List.mem_cons_self _ _))
        (ht op (List.mem_cons_self _ _))
    · intro o ho
      exact hw o (List.mem_cons_of_mem _ ho)
    · intro o ho
      exact ht o (List.mem_cons_of_mem _ ho)

/-- C1: after `Set(k, P)` at `t0`, any sequence of other operations on the shared
manager that contains no `Invalidate(k)` and no further `Set(k, _)` (Gets, stale
double-checks of Gets, sweeps, writes to other keys, all at instants up to `t`)
leaves `Get(k)` at every `t < t0 + TTL` returning `P`. -/
theorem affinity_get_after_set (cam : CacheAffinityManager) (k P : String) (t0 t : Int)
    (ops : List AffinityOp)
    (hw : ∀ op ∈ ops, op.writes k = false)
    (htime : ∀ op ∈ ops, ∀ τ, op.time = some τ → τ ≤ t)
    (ht : t < t0 + cam.defaultTTL) :
    ((runAffinityOps (cam.Set k P t0) ops).Get k t).1 = P := by
  have hfresh := freshEntry_run ops (cam.Set k P t0) k P (t0 + cam.defaultTTL)
    (freshEntry_set cam k P t0) hw
    (fun op hop τ hτ => by have := htime op hop τ hτ; omega)
  obtain ⟨e, hget, hP, hX⟩ := hfresh
  have hlt : ¬ e.ExpireAt < t := by omega
  simp only [CacheAffinityManager.Get, hget, hlt, if_false]
  exact hP

/-- Witness for C1: TTL 300, `Set` at 0, a hit, a sweep, traffic on another key
and a stale double-check in between, `Get` at 299. -/
theorem affinity_get_after_set_witness :
    ((runAffinityOps ((NewCacheAffinityManager 300).Set "u:claude:m" "A" 0)
        [.get "u:claude:m" 10, .cleanup 100, .set "u:codex:m" "B" 50,
         .expireRecheck "u:claude:m" 5, .invalidate "u:codex:m"]).Get "u:claude:m" 299).1
      = "A" :=
  affinity_get_after_set (NewCacheAffinityManager 300) "u:claude:m" "A" 0 299
    [.get "u:claude:m" 10, .cleanup 100, .set "u:codex:m" "B" 50,
     .expireRecheck "u:claude:m" 5, .invalidate "u:codex:m"]
    (by decide) (by simp [AffinityOp.time]) (by decide)

/-! ## Affinity expiry boundary -/

/-- C16, counterexample: an entry whose `ExpireAt` equals `now` is not strictly
in the future, yet `Get` at `now` still returns its provider name. -/
theorem affinity_get_boundary_counterexample :
    mapGet ((NewCacheAffinityManager 300).Set "k" "A" (-200)).store "k" =
        some { ProviderName := "A", ExpireAt := 100, RequestCount := 1 } ∧
    ¬ ((100 : Int) > 100) ∧
    (((NewCacheAffinityManager 300).Set "k" "A" (-200)).Get "k" 100).1 = "A" := by
  decide

/-- C16, amended: `Get(k)` at `now` returns the stored provider name exactly when
an entry for `k` exists and `now` is not after its `ExpireAt` (so also at
`now = ExpireAt`), and the empty string otherwise; an entry with
`ExpireAt < now` is no longer in the store after that `Get`. -/
theorem affinity_get_expiry (cam : CacheAffinityManager) (key : String) (now : Int) :
    (cam.Get key now).1 =
        (match mapGet cam.store key with
         | some e => if now ≤ e.ExpireAt then e.ProviderName else ""
         | none => "") ∧
    (∀ e, mapGet cam.store key = some e → e.ExpireAt < now →
        mapGet (cam.Get key now).2.store key = none) := by
  constructor
  · unfold CacheAffinityManager.Get
    cases h : mapGet cam.store key with
    | none => rfl
    | some e =>
      by_cases hlt : e.ExpireAt < now
      · have hle : ¬ now ≤ e.ExpireAt := by omega
        simp [hlt, hle]
      · have hle : now ≤ e.ExpireAt := by omega
        simp [hlt, hle]
  · intro e he hlt
    simp only [CacheAffinityManager.Get, he, hlt, if_true,
      CacheAffinityManager.expireRecheck]
    exact mapGet_mapDel_same cam.store key

/-- Witness for C16: an entry expiring at 100 is served at 99 and at 100 and is
gone after a `Get` at 101. -/
theorem affinity_get_expiry_witness :
    (((NewCacheAffinityManager 300).Set "k" "A" (-200)).Get "k" 99).1 = "A" ∧
    (((NewCacheAffinityManager 300).Set "k" "A" (-200)).Get "k" 100).1 = "A" ∧
    (((NewCacheAffinityManager 300).Set "k" "A" (-200)).Get "k" 101).1 = "" ∧
    mapGet (((NewCacheAffinityManager 300).Set "k" "A" (-200)).Get "k" 101).2.store "k" = none :=
  ⟨by decide, by decide, by decide,
   (affinity_get_expiry ((NewCacheAffinityManager 300).Set "k" "A" (-200)) "k" 101).2
     { ProviderName := "A", ExpireAt := 100, RequestCount := 1 } (by decide) (by decide)⟩

/-! ## Gemini usage accounting -/

theorem mergeGemini_fields (u : UsageMetadata) (r : RequestLog) :
    (mergeGeminiUsageMetadata (some u) r).InputTokens =
        max r.InputTokens (u.promptTokenCount.getD 0) ∧
    (mergeGeminiUsageMetadata (some u) r).CacheReadTokens =
        max r.CacheReadTokens (u.cachedContentTokenCount.getD 0) ∧
    (mergeGeminiUsageMetadata (some u) r).ReasoningTokens =
        max r.ReasoningTokens (u.thoughtsTokenCount.getD 0) ∧
    (mergeGeminiUsageMetadata (some u) r).CacheCreateTokens = r.CacheCreateTokens := by
  simp only [mergeGeminiUsageMetadata]
  refine ⟨?_, ?_, ?_, trivial⟩ <;>
  · split_ifs <;> omega

theorem mergeGemini_output (u : UsageMetadata) (r : RequestLog) :
    (mergeGeminiUsageMetadata (some u) r).OutputTokens =
      if 0 < u.totalTokenCount.getD 0 ∧
          max r.OutputTokens (u.candidatesTokenCount.getD 0) = 0 ∧
          0 < max r.InputTokens (u.promptTokenCount.getD 0) ∧
          max r.InputTokens (u.promptTokenCount.getD 0) < u.totalTokenCount.getD 0 then
        u.totalTokenCount.getD 0 - max r.InputTokens (u.promptTokenCount.getD 0)
      else max r.OutputTokens (u.candidatesTokenCount.getD 0) := by
  simp only [mergeGeminiUsageMetadata]
  generalize u.promptTokenCount.getD 0 = a
  generalize u.candidatesTokenCount.getD 0 = b
  generalize u.totalTokenCount.getD 0 = t
  split_ifs <;> omega

theorem mergeGeminiChunks_cons (u : UsageMetadata) (us : List UsageMetadata) (r : RequestLog) :
    mergeGeminiChunks (u :: us) r = mergeGeminiChunks us (mergeGeminiUsageMetadata (some u) r) :=
  rfl

/-- C17: one `mergeGeminiUsageMetadata` step sets InputTokens, CacheReadTokens and
ReasoningTokens to the maximum of the previous value and the reported count, and
OutputTokens to that maximum when `totalTokenCount` is absent; so feeding the
chunks of a stream in order leaves the running maximum of every field, not a sum. -/
theorem gemini_usage_takes_maximum (u : UsageMetadata) (us : List UsageMetadata)
    (r : RequestLog) :
    ((mergeGeminiUsageMetadata (some u) r).InputTokens =
        max r.InputTokens (u.promptTokenCount.getD 0) ∧
     (mergeGeminiUsageMetadata (some u) r).CacheReadTokens =
        max r.CacheReadTokens (u.cachedContentTokenCount.getD 0) ∧
     (mergeGeminiUsageMetadata (some u) r).ReasoningTokens =
        max r.ReasoningTokens (u.thoughtsTokenCount.getD 0) ∧
     (u.totalTokenCount = none →
        (mergeGeminiUsageMetadata (some u) r).OutputTokens =
          max r.OutputTokens (u.candidatesTokenCount.getD 0))) ∧
    ((mergeGeminiChunks us r).InputTokens =
        us.foldl (fun m c => max m (c.promptTokenCount.getD 0)) r.InputTokens ∧
     (mergeGeminiChunks us r).CacheReadTokens =
        us.foldl (fun m c => max m (c.cachedContentTokenCount.getD 0)) r.CacheReadTokens ∧
     (mergeGeminiChunks us r).ReasoningTokens =
        us.foldl (fun m c => max m (c.thoughtsTokenCount.getD 0)) r.ReasoningTokens ∧
     ((∀ c ∈ us, c.totalTokenCount = none) →
        (mergeGeminiChunks us r).OutputTokens =
          us.foldl (fun m c => max m (c.candidatesTokenCount.getD 0)) r.OutputTokens)) := by
  have hout : ∀ (c : UsageMetadata) (q : RequestLog), c.totalTokenCount = none →
      (mergeGeminiUsageMetadata (some c) q).OutputTokens =
        max q.OutputTokens (c.candidatesTokenCount.getD 0) := by
    intro c q hc
    rw [mergeGemini_output, hc]
    simp
  refine ⟨⟨(mergeGemini_fields u r).1, (mergeGemini_fields u r).2.1,
    (mergeGemini_fields u r).2.2.1, hout u r⟩, ?_⟩
  induction us generalizing r with
  | nil => exact ⟨rfl, rfl, rfl, fun _ => rfl⟩
  | cons c cs ih =>
    obtain ⟨h1, h2, h3, h4⟩ := ih (mergeGeminiUsageMetadata (some c) r)
    simp only [mergeGeminiChunks_cons, List.foldl_cons]
    refine ⟨?_, ?_, ?_, ?_⟩
    · rw [h1, (mergeGemini_fields c r).1]
    · rw [h2, (mergeGemini_fields c r).2.1]
    · rw [h3, (mergeGemini_fields c r).2.2.1]
    · intro hall
      rw [h4 (fun x hx => hall x (List.mem_cons_of_mem c hx)),
        hout c r (hall c (List.mem_cons_self c cs))]

/-- Witness for C17: three cumulative chunks reporting 10, 10 and 12 prompt tokens
and 0, 4 and 9 candidate tokens leave 12 input and 9 output tokens. -/
theorem gemini_usage_takes_maximum_witness :
    (mergeGeminiChunks
        [{ promptTokenCount := some 10 },
         { promptTokenCount := some 10, candidatesTokenCount := some 4 },
         { promptTokenCount := some 12, candidatesTokenCount := some 9 }] {}).InputTokens = 12 ∧
    (mergeGeminiChunks
        [{ promptTokenCount := some 10 },
         { promptTokenCount := some 10, candidatesTokenCount := some 4 },
         { promptTokenCount := some 12, candidatesTokenCount := some 9 }] {}).OutputTokens = 9 :=
  ⟨(gemini_usage_takes_maximum {}
      [{ promptTokenCount := some 10 },
       { promptTokenCount := some 10, candidatesTokenCount := some 4 },
       { promptTokenCount := some 12, candidatesTokenCount := some 9 }] {}).2.1.trans
      (by decide),
   ((gemini_usage_takes_maximum {}
      [{ promptTokenCount := some 10 },
       { promptTokenCount := some 10, candidatesTokenCount := some 4 },
       { promptTokenCount := some 12, candidatesTokenCount := some 9 }] {}).2.2.2.2
      (by decide)).trans (by decide)⟩

/-- Counterexample for C18: with `totalTokenCount` = 30 and no candidate count, an
accumulator that already holds 5 output tokens keeps them; an accumulator that
already holds 15 input tokens gets 30 - 15, not 30 - 10; and a chunk with no
prompt count leaves the output at 0. -/
theorem gemini_output_synthesis_counterexample :
    (mergeGeminiUsageMetadata
        (some { promptTokenCount := some 10, totalTokenCount := some 30 })
        { OutputTokens := 5 }).OutputTokens = 5 ∧
    (mergeGeminiUsageMetadata
        (some { promptTokenCount := some 10, totalTokenCount := some 30 })
        { InputTokens := 15 }).OutputTokens = 15 ∧
    (mergeGeminiUsageMetadata
        (some { totalTokenCount := some 30 }) {}).OutputTokens = 0 := by
  decide

/-- C18 (amended): when the accumulator holds no output tokens and no more input
tokens than the chunk reports, and the chunk carries `totalTokenCount` = t, a zero
or missing candidate count and a prompt count p with 0 < p < t, the merge sets
OutputTokens to t - p. -/
theorem gemini_output_synthesis (u : UsageMetadata) (r : RequestLog) (p t : Int)
    (hout : r.OutputTokens = 0) (hin : r.InputTokens ≤ p)
    (hp : u.promptTokenCount = some p) (ht : u.totalTokenCount = some t)
    (hc : u.candidatesTokenCount.getD 0 = 0) (hpos : 0 < p) (hlt : p < t) :
    (mergeGeminiUsageMetadata (some u) r).OutputTokens = t - p := by
  rw [mergeGemini_output, hp, ht, hc, hout]
  simp only [Option.getD_some]
  have hmax : max r.InputTokens p = p := max_eq_right hin
  rw [hmax]
  have h0 : max (0 : Int) 0 = 0 := rfl
  rw [h0, if_pos ⟨by omega, rfl, hpos, hlt⟩]

/-- Witness for C18: a fresh accumulator and a chunk with 10 prompt tokens out of
30 in total give 20 output tokens. -/
theorem gemini_output_synthesis_witness :
    (mergeGeminiUsageMetadata
        (some { promptTokenCount := some 10, totalTokenCount := some 30 }) {}).OutputTokens
      = 30 - 10 :=
  gemini_output_synthesis { promptTokenCount := some 10, totalTokenCount := some 30 } {} 10 30
    rfl (by decide) rfl rfl rfl (by decide) (by decide)

/-! ## Level tiers -/

theorem groupKeys_mem (l : List Provider) (acc : List (Int × List Provider)) (k : Int) :
    k ∈ (l.foldl (fun groups p =>
        mapSet groups (normalizedLevel p)
          ((mapGet groups (normalizedLevel p)).getD [] ++ [p])) acc).map Prod.fst ↔
      k ∈ acc.map Prod.fst ∨ ∃ p ∈ l, normalizedLevel p = k := by
  induction l generalizing acc with
  | nil => simp
  | cons q rest ih =>
    rw [List.foldl_cons, ih, keys_mapSet]
    constructor
    · rintro ((h | h) | ⟨p, hp, hk⟩)
      · exact Or.inr ⟨q, List.mem_cons_self _ _, h.symm⟩
      · exact Or.inl h
      · exact Or.inr ⟨p, List.mem_cons_of_mem _ hp, hk⟩
    · rintro (h | ⟨p, hp, hk⟩)
      · exact Or.inl (Or.inr h)
      · rcases List.mem_cons.mp hp with hpq | hpr
        · subst hpq
          exact Or.inl (Or.inl hk.symm)
        · exact Or.inr ⟨p, hpr, hk⟩

theorem sortedLevels_mem (active : List Provider) (k : Int) :
    k ∈ sortedLevels (groupByLevel active) ↔ ∃ p ∈ active, normalizedLevel p = k := by
  have h := groupKeys_mem active [] k
  simp only [List.map_nil, List.not_mem_nil, false_or] at h
  exact ((List.perm_insertionSort _ _).mem_iff).trans h

theorem sortedLevels_strict (active : List Provider) :
    (sortedLevels (groupByLevel active)).Pairwise (fun a b => a < b) := by
  have h : List.Sorted (fun a b : Int => a ≤ b) (sortedLevels (groupByLevel active)) :=
    List.sorted_insertionSort (fun a b : Int => a ≤ b) _
  exact h.lt_of_le (sortedLevels_nodup active)

theorem tierOrder_eq (active : List Provider) :
    tierOrder active = (sortedLevels (groupByLevel active)).flatMap
      (fun k => active.filter (fun a => decide (normalizedLevel a = k))) := by
  unfold tierOrder
  apply List.flatMap_congr
  intro k _
  exact levelGroup_groupByLevel active k

theorem flatMap_select (X : List Provider) (k : Int) (L : List Int) (hnd : L.Nodup) :
    L.flatMap (fun j => if j = k then X else []) = if k ∈ L then X else [] := by
  induction L with
  | nil => simp
  | cons l L ih =>
    simp only [List.nodup_cons] at hnd
    rw [List.flatMap_cons, ih hnd.2]
    by_cases hlk : l = k
    · subst hlk
      simp [hnd.1]
    · have hkl : ¬ k = l := fun h => hlk h.symm
      simp [hlk, hkl]

theorem tierOrder_filter (active : List Provider) (k : Int) :
    (tierOrder active).filter (fun a => decide (normalizedLevel a = k)) =
      active.filter (fun a => decide (normalizedLevel a = k)) := by
  rw [tierOrder_eq, List.filter_flatMap]
  have hstep : (sortedLevels (groupByLevel active)).flatMap
        (fun j => (active.filter (fun a => decide (normalizedLevel a = j))).filter
          (fun a => decide (normalizedLevel a = k))) =
      (sortedLevels (groupByLevel active)).flatMap
        (fun j => if j = k then active.filter (fun a => decide (normalizedLevel a = k))
          else []) := by
    apply List.flatMap_congr
    intro j _
    by_cases hjk : j = k
    · subst hjk
      simp [List.filter_filter]
    · rw [if_neg hjk, List.filter_filter, List.filter_eq_nil_iff]
      intro a _
      by_cases ha : normalizedLevel a = k
      · have : ¬ normalizedLevel a = j := fun h => hjk (h.symm.trans ha)
        simp [this]
      · simp [ha]
  rw [hstep, flatMap_select _ _ _ (sortedLevels_nodup active)]
  by_cases hk : k ∈ sortedLevels (groupByLevel active)
  · rw [if_pos hk]
  · rw [if_neg hk]
    symm
    rw [List.filter_eq_nil_iff]
    intro a ha
    have : ¬ normalizedLevel a = k := fun h => hk ((sortedLevels_mem active k).mpr ⟨a, ha, h⟩)
    simp [this]

theorem tierOrder_sorted (active : List Provider) :
    (tierOrder active).Pairwise (fun a b => normalizedLevel a ≤ normalizedLevel b) := by
  rw [tierOrder_eq, List.pairwise_flatMap]
  constructor
  · intro k _
    rw [List.pairwise_filter]
    exact List.pairwise_of_forall (fun x y hx hy => le_of_eq (hx.trans hy.symm))
  · refine (sortedLevels_strict active).imp ?_
    intro a b hab x hx y hy
    have hxa : normalizedLevel x = a := by simpa using (List.mem_filter.mp hx).2
    have hyb : normalizedLevel y = b := by simpa using (List.mem_filter.mp hy).2
    omega

/-- C13: the level keys the handler iterates are strictly ascending, are all at
least 1, and are exactly the levels of the candidates with a level at or below 0
counted as 1. The tier under key 1 holds the candidates of level 1 or less, the
tier under a key k of 2 or more those of level k, no tier has a key below 1, and
each tier lists its candidates in their configured order. The concatenation of
the tiers is a stable sort of the candidates by that level: a rearrangement of
them, ascending by level, in which the candidates of each level keep their
order. -/
theorem level_tiers_stable_partition (active : List Provider) :
    (sortedLevels (groupByLevel active)).Pairwise (fun a b => a < b) ∧
    (∀ k, k ∈ sortedLevels (groupByLevel active) ↔
      ∃ p ∈ active, (if p.Level ≤ 0 then 1 else p.Level) = k) ∧
    (∀ k ∈ sortedLevels (groupByLevel active), 1 ≤ k) ∧
    (∀ k, levelGroup (groupByLevel active) k =
        active.filter (fun p => decide ((if p.Level ≤ 0 then 1 else p.Level) = k))) ∧
    levelGroup (groupByLevel active) 1 = active.filter (fun p => decide (p.Level ≤ 1)) ∧
    (∀ k, 2 ≤ k →
      levelGroup (groupByLevel active) k = active.filter (fun p => decide (p.Level = k))) ∧
    (∀ k, k ≤ 0 → levelGroup (groupByLevel active) k = []) ∧
    (∀ p k, p ∈ levelGroup (groupByLevel active) k ↔
      p ∈ active ∧ (if p.Level ≤ 0 then 1 else p.Level) = k) ∧
    (tierOrder active).Perm active ∧
    (tierOrder active).Pairwise
      (fun a b => (if a.Level ≤ 0 then 1 else a.Level) ≤ (if b.Level ≤ 0 then 1 else b.Level)) ∧
    (∀ k, (tierOrder active).filter
          (fun p => decide ((if p.Level ≤ 0 then 1 else p.Level) = k)) =
        active.filter (fun p => decide ((if p.Level ≤ 0 then 1 else p.Level) = k))) := by
  have hgroup : ∀ k, levelGroup (groupByLevel active) k =
      active.filter (fun p => decide ((if p.Level ≤ 0 then 1 else p.Level) = k)) :=
    levelGroup_groupByLevel active
  refine ⟨sortedLevels_strict active, sortedLevels_mem active, ?_, hgroup, ?_, ?_, ?_, ?_,
    tierOrder_perm active, tierOrder_sorted active, tierOrder_filter active⟩
  · intro k hk
    obtain ⟨p, _, hp⟩ := (sortedLevels_mem active k).mp hk
    have hp2 : (if p.Level ≤ 0 then 1 else p.Level) = k := hp
    split_ifs at hp2 <;> omega
  · rw [hgroup]
    apply List.filter_congr
    intro p _
    by_cases h0 : p.Level ≤ 0
    · have h1 : p.Level ≤ 1 := by omega
      simp [h0, h1]
    · by_cases h1 : p.Level ≤ 1
      · have : p.Level = 1 := by omega
        simp [h0, h1, this]
      · have : ¬ p.Level = 1 := by omega
        simp [h0, h1, this]
  · intro k hk
    rw [hgroup]
    apply List.filter_congr
    intro p _
    by_cases h0 : p.Level ≤ 0
    · have h1 : ¬ (1 : Int) = k := by omega
      have h2 : ¬ p.Level = k := by omega
      simp [h0, h1, h2]
    · simp [h0]
  · intro k hk
    rw [hgroup, List.filter_eq_nil_iff]
    intro p _
    by_cases h0 : p.Level ≤ 0
    · have h1 : ¬ (1 : Int) = k := by omega
      simp [h0, h1]
    · have h2 : ¬ p.Level = k := by omega
      simp [h0, h2]
  · intro p k
    rw [hgroup, List.mem_filter]
    simp

/-- Witness for C13: candidates a to e with the levels 2, 0, -1, 1 and 2. The keys
are 1 and 2, the tier of key 1 is b, c, d (levels 0, -1 and 1), the tier of key 2
is a, e, and the handler visits b, c, d, a, e. -/
theorem level_tiers_stable_partition_witness :
    sortedLevels (groupByLevel
      [{ Name := "a", Level := 2 }, { Name := "b", Level := 0 }, { Name := "c", Level := -1 },
       { Name := "d", Level := 1 }, { Name := "e", Level := 2 }]) = [1, 2] ∧
    (levelGroup (groupByLevel
      [{ Name := "a", Level := 2 }, { Name := "b", Level := 0 }, { Name := "c", Level := -1 },
       { Name := "d", Level := 1 }, { Name := "e", Level := 2 }]) 1).map (fun p => p.Name) = ["b", "c", "d"] ∧
    (levelGroup (groupByLevel
      [{ Name := "a", Level := 2 }, { Name := "b", Level := 0 }, { Name := "c", Level := -1 },
       { Name := "d", Level := 1 }, { Name := "e", Level := 2 }]) 2).map (fun p => p.Name) = ["a", "e"] ∧
    (tierOrder
      [{ Name := "a", Level := 2 }, { Name := "b", Level := 0 }, { Name := "c", Level := -1 },
       { Name := "d", Level := 1 }, { Name := "e", Level := 2 }]).map (fun p => p.Name) = ["b", "c", "d", "a", "e"] ∧
    levelGroup (groupByLevel
      [{ Name := "a", Level := 2 }, { Name := "b", Level := 0 }, { Name := "c", Level := -1 },
       { Name := "d", Level := 1 }, { Name := "e", Level := 2 }]) 1 =
      ([{ Name := "a", Level := 2 }, { Name := "b", Level := 0 }, { Name := "c", Level := -1 },
       { Name := "d", Level := 1 }, { Name := "e", Level := 2 }]
        : List Provider).filter (fun p => decide (p.Level ≤ 1)) ∧
    (tierOrder
      [{ Name := "a", Level := 2 }, { Name := "b", Level := 0 }, { Name := "c", Level := -1 },
       { Name := "d", Level := 1 }, { Name := "e", Level := 2 }]).Perm
      [{ Name := "a", Level := 2 }, { Name := "b", Level := 0 }, { Name := "c", Level := -1 },
       { Name := "d", Level := 1 }, { Name := "e", Level := 2 }] :=
  ⟨by decide, by decide, by decide, by decide,
   (level_tiers_stable_partition
      [{ Name := "a", Level := 2 }, { Name := "b", Level := 0 }, { Name := "c", Level := -1 },
       { Name := "d", Level := 1 }, { Name := "e", Level := 2 }]).2.2.2.2.1,
   (level_tiers_stable_partition
      [{ Name := "a", Level := 2 }, { Name := "b", Level := 0 }, { Name := "c", Level := -1 },
       { Name := "d", Level := 1 }, { Name := "e", Level := 2 }]).2.2.2.2.2.2.2.2.1⟩

/-! ## Round-robin rotation -/

theorem range_filterMap_getElem {α : Type} (L : List α) :
    (List.range L.length).filterMap (fun k => L[k]?) = L := by
  induction L with
  | nil => simp
  | cons a L ih =>
    rw [List.length_cons, List.range_succ_eq_map, List.filterMap_cons]
    simp only [List.getElem?_cons_zero, List.filterMap_map]
    congr 1
    refine Eq.trans ?_ ih
    apply List.filterMap_congr
    intro k _
    simp

theorem range_filterMap_rotate {α : Type} (l : List α) (m : Nat) :
    (List.range l.length).filterMap (fun k => l[(m + k) % l.length]?) = l.rotate m := by
  have h1 : (List.range l.length).filterMap (fun k => l[(m + k) % l.length]?) =
      (List.range l.length).filterMap (fun k => (l.rotate m)[k]?) := by
    apply List.filterMap_congr
    intro k hk
    rw [List.getElem?_rotate (List.mem_range.mp hk), Nat.add_comm]
  have h2 := range_filterMap_getElem (l.rotate m)
  rw [List.length_rotate] at h2
  rw [h1, h2]

theorem findIdx_by_name (tier : List Provider) (hnd : (tier.map (fun p => p.Name)).Nodup)
    (i : Nat) (hi : i < tier.length) :
    tier.findIdx? (fun p => p.Name == tier[i].Name) = some i := by
  rw [List.findIdx?_eq_some_iff_getElem]
  refine ⟨hi, by simp, ?_⟩
  intro j hji hj
  have heq : tier[j].Name = tier[i].Name := by simpa using hj
  have hne := (List.nodup_iff_getElem?_ne_getElem?.mp hnd) j i hji (by simpa using hi)
  apply hne
  have hj2 : j < tier.length := by omega
  simp [List.getElem?_map, List.getElem?_eq_getElem hi, List.getElem?_eq_getElem hj2, heq]

theorem roundRobinOrder_hit (rr : List (String × String)) (platform : String) (level : Int)
    (tier : List Provider) (hnd : (tier.map (fun p => p.Name)).Nodup)
    (hne : ∀ p ∈ tier, p.Name ≠ "") (hlen : 2 ≤ tier.length)
    (i : Nat) (hi : i < tier.length)
    (hrr : mapGet rr (platform ++ ":" ++ toString level) = some tier[i].Name) :
    (roundRobinOrder rr platform level tier).1 = tier.rotate (i + 1) ∧
    mapGet (roundRobinOrder rr platform level tier).2 (platform ++ ":" ++ toString level) =
      (tier.rotate (i + 1)).head?.map (fun p => p.Name) := by
  have hnle : ¬ tier.length ≤ 1 := by omega
  have hname : ¬ tier[i].Name = "" := hne _ (List.getElem_mem _)
  unfold roundRobinOrder
  rw [if_neg hnle]
  simp only [hrr, Option.getD_some, if_neg hname, findIdx_by_name tier hnd i hi,
    range_filterMap_rotate]
  refine ⟨trivial, ?_⟩
  cases hh : (tier.rotate (i + 1)).head? with
  | none =>
    have : tier.rotate (i + 1) = [] := List.head?_eq_none_iff.mp hh
    have hl := congrArg List.length this
    rw [List.length_rotate, List.length_nil] at hl
    omega
  | some p => simp [mapGet_mapSet_same]

theorem roundRobinOrder_miss (rr : List (String × String)) (platform : String) (level : Int)
    (tier : List Provider)
    (hmiss : ∀ p ∈ tier, mapGet rr (platform ++ ":" ++ toString level) ≠ some p.Name) :
    (roundRobinOrder rr platform level tier).1 = tier ∧
    (2 ≤ tier.length →
      mapGet (roundRobinOrder rr platform level tier).2 (platform ++ ":" ++ toString level) =
        tier.head?.map (fun p => p.Name)) := by
  unfold roundRobinOrder
  by_cases hle : tier.length ≤ 1
  · rw [if_pos hle]
    exact ⟨rfl, fun h => by omega⟩
  · rw [if_neg hle]
    have hrr1 : mapGet (match tier.head? with
        | some p => mapSet rr (platform ++ ":" ++ toString level) p.Name
        | none => rr) (platform ++ ":" ++ toString level) =
        tier.head?.map (fun p => p.Name) := by
      cases tier with
      | nil => simp at hle
      | cons a t => simp [mapGet_mapSet_same]
    by_cases hempty : (mapGet rr (platform ++ ":" ++ toString level)).getD "" = ""
    · simp only [hempty, if_true]
      exact ⟨trivial, fun _ => hrr1⟩
    · have hnone : tier.findIdx? (fun p =>
          p.Name == (mapGet rr (platform ++ ":" ++ toString level)).getD "") = none := by
        rw [List.findIdx?_eq_none_iff]
        intro p hp
        cases hget : mapGet rr (platform ++ ":" ++ toString level) with
        | none => simp [hget] at hempty
        | some ls =>
          have := hmiss p hp
          rw [hget] at this
          have hpn : ¬ p.Name = ls := fun h => this (by rw [h])
          simpa using hpn
      simp only [hempty, if_false, hnone]
      exact ⟨trivial, fun _ => hrr1⟩

/-- Counterexample for C14: the recorded name is the empty string and is the name of
the provider at index 0 of a tier with distinct names, yet the tier comes back
unchanged instead of rotated to start at index 1. -/
theorem roundRobinOrder_empty_name_counterexample :
    ([({ Name := "" } : Provider), { Name := "b" }].map (fun p => p.Name)).Nodup ∧
    mapGet [("claude:1", "")] ("claude" ++ ":" ++ toString (1 : Int)) = some "" ∧
    (roundRobinOrder [("claude:1", "")] "claude" 1
        [{ Name := "" }, { Name := "b" }]).1.map (fun p => p.Name) = ["", "b"] ∧
    ([({ Name := "" } : Provider), { Name := "b" }].rotate 1).map (fun p => p.Name)
      = ["b", ""] := by
  decide

/-- C14 (amended): for a tier whose provider names are pairwise distinct and
non-empty, if the recorded name is the name of the provider at index i, the call
returns the tier rotated so that index (i + 1) mod n comes first and records the
name of that new first provider; if the recorded name is the name of no provider
of the tier (or nothing is recorded), the call returns the tier unchanged. -/
theorem roundRobinOrder_rotation_rule (rr : List (String × String)) (platform : String)
    (level : Int) (tier : List Provider) (hnd : (tier.map (fun p => p.Name)).Nodup)
    (hne : ∀ p ∈ tier, p.Name ≠ "") :
    (∀ (i : Nat) (hi : i < tier.length),
        mapGet rr (platform ++ ":" ++ toString level) = some tier[i].Name →
        (roundRobinOrder rr platform level tier).1 = tier.rotate (i + 1) ∧
        (tier.rotate (i + 1)).head? = tier[(i + 1) % tier.length]? ∧
        mapGet (roundRobinOrder rr platform level tier).2 (platform ++ ":" ++ toString level) =
          (tier.rotate (i + 1)).head?.map (fun p => p.Name)) ∧
    ((∀ p ∈ tier, mapGet rr (platform ++ ":" ++ toString level) ≠ some p.Name) →
        (roundRobinOrder rr platform level tier).1 = tier) := by
  refine ⟨?_, fun hmiss => (roundRobinOrder_miss rr platform level tier hmiss).1⟩
  intro i hi hrr
  have hhead : (tier.rotate (i + 1)).head? = tier[(i + 1) % tier.length]? := by
    rw [← List.rotate_mod, List.head?_rotate (Nat.mod_lt _ (by omega))]
  by_cases hlen : 2 ≤ tier.length
  · obtain ⟨h1, h2⟩ := roundRobinOrder_hit rr platform level tier hnd hne hlen i hi hrr
    exact ⟨h1, hhead, h2⟩
  · obtain ⟨a, rfl⟩ : ∃ a, tier = [a] := List.length_eq_one.mp (by omega)
    have hi0 : i = 0 := by
      simp only [List.length_singleton] at hi
      omega
    subst hi0
    refine ⟨?_, hhead, ?_⟩
    · simp [roundRobinOrder]
    · simpa [roundRobinOrder] using hrr

/-- Witness for C14: with "a" recorded, the tier a, b, c comes back as b, c, a and
"b" is recorded. -/
theorem roundRobinOrder_rotation_rule_witness :
    (roundRobinOrder [("claude:1", "a")] "claude" 1
        [{ Name := "a" }, { Name := "b" }, { Name := "c" }]).1 =
      [({ Name := "a" } : Provider), { Name := "b" }, { Name := "c" }].rotate (0 + 1) ∧
    (roundRobinOrder [("claude:1", "a")] "claude" 1
        [{ Name := "a" }, { Name := "b" }, { Name := "c" }]).1.map (fun p => p.Name) =
      ["b", "c", "a"] ∧
    mapGet (roundRobinOrder [("claude:1", "a")] "claude" 1
        [{ Name := "a" }, { Name := "b" }, { Name := "c" }]).2 "claude:1" = some "b" :=
  ⟨((roundRobinOrder_rotation_rule [("claude:1", "a")] "claude" 1
      [{ Name := "a" }, { Name := "b" }, { Name := "c" }] (by decide) (by decide)).1 0
      (by decide) (by decide)).1, by decide, by decide⟩

theorem roundRobinCalls_from (platform : String) (level : Int) (tier : List Provider)
    (hnd : (tier.map (fun p => p.Name)).Nodup) (hne : ∀ p ∈ tier, p.Name ≠ "")
    (hlen : 2 ≤ tier.length) :
    ∀ (m j : Nat) (rr : List (String × String)) (hj : j < tier.length),
      mapGet rr (platform ++ ":" ++ toString level) = some tier[j].Name →
      (roundRobinCalls platform level tier m rr).filterMap List.head? =
        (List.range m).filterMap (fun k => tier[(j + 1 + k) % tier.length]?) := by
  intro m
  induction m with
  | zero => intro j rr hj _; rfl
  | succ m ih =>
    intro j rr hj hrr
    obtain ⟨h1, h2⟩ := roundRobinOrder_hit rr platform level tier hnd hne hlen j hj hrr
    have hj2 : (j + 1) % tier.length < tier.length := Nat.mod_lt _ (by omega)
    have hhead : (tier.rotate (j + 1)).head? = some tier[(j + 1) % tier.length] := by
      rw [← List.rotate_mod, List.head?_rotate hj2, List.getElem?_eq_getElem hj2]
    rw [hhead] at h2
    have hrest := ih ((j + 1) % tier.length) _ hj2 h2
    rw [roundRobinCalls, List.filterMap_cons, h1, hhead]
    simp only []
    rw [hrest, List.range_succ_eq_map, List.filterMap_cons]
    have h0 : tier[(j + 1 + 0) % tier.length]? = some tier[(j + 1) % tier.length] :=
      List.getElem?_eq_getElem hj2
    rw [h0]
    simp only [List.filterMap_map]
    congr 1
    apply List.filterMap_congr
    intro k _
    simp only [Function.comp, Nat.succ_eq_add_one]
    have hk : ((j + 1) % tier.length + 1 + k) % tier.length =
        (j + 1 + (k + 1)) % tier.length := by
      rw [Nat.add_assoc ((j + 1) % tier.length), Nat.mod_add_mod, Nat.add_comm 1 k]
    rw [hk]

theorem roundRobinCalls_heads (rr : List (String × String)) (platform : String) (level : Int)
    (tier : List Provider) (hnd : (tier.map (fun p => p.Name)).Nodup)
    (hne : ∀ p ∈ tier, p.Name ≠ "") :
    ∃ j, (roundRobinCalls platform level tier tier.length rr).filterMap List.head? =
      tier.rotate j := by
  by_cases hlen : 2 ≤ tier.length
  · by_cases hhit : ∃ (i : Nat) (hi : i < tier.length),
        mapGet rr (platform ++ ":" ++ toString level) = some tier[i].Name
    · obtain ⟨i, hi, hrr⟩ := hhit
      refine ⟨i + 1, ?_⟩
      rw [roundRobinCalls_from platform level tier hnd hne hlen tier.length i rr hi hrr,
        range_filterMap_rotate]
    · have hmiss : ∀ p ∈ tier,
          mapGet rr (platform ++ ":" ++ toString level) ≠ some p.Name := by
        intro p hp hrr
        obtain ⟨i, hi, rfl⟩ := List.mem_iff_getElem.mp hp
        exact hhit ⟨i, hi, hrr⟩
      obtain ⟨h1, h2⟩ := roundRobinOrder_miss rr platform level tier hmiss
      have h2 := h2 hlen
      obtain ⟨a, t, rfl⟩ : ∃ a t, tier = a :: t := by
        cases tier with
        | nil => simp at hlen
        | cons a t => exact ⟨a, t, rfl⟩
      refine ⟨0, ?_⟩
      have h0 : (0 : Nat) < (a :: t).length := by simp
      have h2b : mapGet (roundRobinOrder rr platform level (a :: t)).2
          (platform ++ ":" ++ toString level) = some ((a :: t)[0]).Name := by
        simpa using h2
      have hrest := roundRobinCalls_from platform level (a :: t) hnd hne hlen t.length 0 _ h0 h2b
      rw [List.length_cons, roundRobinCalls, List.filterMap_cons, h1]
      simp only [List.head?_cons]
      rw [hrest, List.rotate_zero]
      have hfull := range_filterMap_rotate (a :: t) 0
      rw [List.rotate_zero, List.length_cons, List.range_succ_eq_map, List.filterMap_cons] at hfull
      simp only [Nat.add_zero, Nat.zero_mod, List.getElem?_cons_zero, List.filterMap_map,
        List.cons.injEq, true_and] at hfull
      congr 1
      refine Eq.trans ?_ hfull
      apply List.filterMap_congr
      intro k _
      simp only [Function.comp, Nat.succ_eq_add_one, List.length_cons]
      have hk : 0 + 1 + k = 0 + (k + 1) := by omega
      rw [hk]
  · rcases Nat.lt_or_ge tier.length 1 with h0 | h1
    · have : tier = [] := List.length_eq_zero.mp (by omega)
      subst this
      exact ⟨0, rfl⟩
    · obtain ⟨a, rfl⟩ : ∃ a, tier = [a] := List.length_eq_one.mp (by omega)
      exact ⟨0, by simp [roundRobinCalls, roundRobinOrder]⟩

/-- Counterexample for C15: a tier of two providers with distinct names, one of them
the empty string, and an empty `rrLastStart`: both of two consecutive calls put
the first provider first, so the second provider is never tried first. -/
theorem roundRobin_fairness_counterexample :
    ([({ Name := "" } : Provider), { Name := "b" }].map (fun p => p.Name)).Nodup ∧
    ((roundRobinCalls "claude" 1 [{ Name := "" }, { Name := "b" }] 2 []).filterMap
        List.head?).map (fun p => p.Name) = ["", ""] := by
  decide

/-- C15 (amended): for a tier of N providers whose names are pairwise distinct and
non-empty and every initial `rrLastStart`, the first elements of the orders
returned by N consecutive calls with that tier and key are a rotation of the tier:
every provider is first in exactly one of the N calls. -/
theorem roundRobin_fairness (rr : List (String × String)) (platform : String) (level : Int)
    (tier : List Provider) (hnd : (tier.map (fun p => p.Name)).Nodup)
    (hne : ∀ p ∈ tier, p.Name ≠ "") :
    (roundRobinCalls platform level tier tier.length rr).length = tier.length ∧
    ((roundRobinCalls platform level tier tier.length rr).filterMap List.head?).Perm tier ∧
    ((roundRobinCalls platform level tier tier.length rr).filterMap List.head?).Nodup := by
  have hlenCalls : ∀ (n : Nat) (r : List (String × String)),
      (roundRobinCalls platform level tier n r).length = n := by
    intro n
    induction n with
    | zero => intro r; rfl
    | succ n ih => intro r; simp [roundRobinCalls, ih]
  obtain ⟨j, hj⟩ := roundRobinCalls_heads rr platform level tier hnd hne
  have hperm : ((roundRobinCalls platform level tier tier.length rr).filterMap
      List.head?).Perm tier := by
    rw [hj]
    exact List.rotate_perm tier j
  exact ⟨hlenCalls _ _, hperm, hperm.nodup_iff.mpr (List.Nodup.of_map _ hnd)⟩

/-- Witness for C15: three calls on the tier a, b, c starting with "b" recorded put
c, a and b first, in that order. -/
theorem roundRobin_fairness_witness :
    ((roundRobinCalls "claude" 1 [{ Name := "a" }, { Name := "b" }, { Name := "c" }] 3
        [("claude:1", "b")]).filterMap List.head?).Perm
      [{ Name := "a" }, { Name := "b" }, { Name := "c" }] ∧
    ((roundRobinCalls "claude" 1 [{ Name := "a" }, { Name := "b" }, { Name := "c" }] 3
        [("claude:1", "b")]).filterMap List.head?).map (fun p => p.Name) = ["c", "a", "b"] :=
  ⟨(roundRobin_fairness [("claude:1", "b")] "claude" 1
      [{ Name := "a" }, { Name := "b" }, { Name := "c" }] (by decide) (by decide)).2.1,
   by decide⟩

/-! ## Outbound headers of `forwardRequest` -/

theorem mapGet_of_mem_keys {κ α : Type} [DecidableEq κ] (m : List (κ × α)) (k : κ)
    (h : k ∈ m.map Prod.fst) : ∃ v, mapGet m k = some v := by
  induction m with
  | nil => simp at h
  | cons e m ih =>
    obtain ⟨k', v'⟩ := e
    by_cases hk : k' = k
    · exact ⟨v', by simp [mapGet, hk]⟩
    · have hm : k ∈ m.map Prod.fst := by
        simp only [List.map_cons, List.mem_cons] at h
        rcases h with h | h
        · exact absurd h.symm hk
        · exact h
      obtain ⟨v, hv⟩ := ih hm
      exact ⟨v, by simp [mapGet, hk, hv]⟩

theorem mem_of_mapGet {κ α : Type} [DecidableEq κ] (m : List (κ × α)) (k : κ) (v : α)
    (h : mapGet m k = some v) : (k, v) ∈ m := by
  induction m with
  | nil => simp [mapGet] at h
  | cons e m ih =>
    obtain ⟨k', v'⟩ := e
    by_cases hk : k' = k
    · subst hk
      simp [mapGet] at h
      subst h
      exact List.mem_cons_self _ _
    · simp only [mapGet, hk, if_false] at h
      exact List.mem_cons_of_mem _ (ih h)

theorem keys_mapDel_nodup {κ α : Type} [DecidableEq κ] (m : List (κ × α)) (k : κ)
    (h : (m.map Prod.fst).Nodup) : ((mapDel m k).map Prod.fst).Nodup :=
  h.sublist ((List.filter_sublist m).map Prod.fst)

theorem keys_mapDel {κ α : Type} [DecidableEq κ] (m : List (κ × α)) (k x : κ)
    (h : x ∈ (mapDel m k).map Prod.fst) : x ∈ m.map Prod.fst :=
  ((List.filter_sublist m).map Prod.fst).subset h

theorem canonicalKeys_nil : CanonicalKeys [] :=
  ⟨List.nodup_nil, fun k hk => by simp at hk⟩

theorem canonicalKeys_mapSet (h : Header) (k : String) (v : List String)
    (hh : CanonicalKeys h) (hk : CanonicalHeaderKey k = k) : CanonicalKeys (mapSet h k v) := by
  refine ⟨keys_mapSet_nodup h k v hh.1, ?_⟩
  intro x hx
  rcases (keys_mapSet h k v x).mp hx with h1 | h1
  · rw [h1]; exact hk
  · exact hh.2 x h1

theorem canonicalKeys_mapDel (h : Header) (k : String) (hh : CanonicalKeys h) :
    CanonicalKeys (mapDel h k) :=
  ⟨keys_mapDel_nodup h k hh.1, fun x hx => hh.2 x (keys_mapDel h k x hx)⟩

theorem canonicalKeys_cloneFold (l : Header) (acc : Header) (hacc : CanonicalKeys acc) :
    CanonicalKeys (l.foldl cloneHeadersStep acc) := by
  induction l generalizing acc with
  | nil => exact hacc
  | cons x xs ih =>
    rw [List.foldl_cons]
    apply ih
    unfold cloneHeadersStep
    simp only []
    split_ifs
    · exact hacc
    · exact hacc
    · exact canonicalKeys_mapSet _ _ _ hacc (CanonicalHeaderKey_idem _)

theorem canonicalKeys_cloneHeaders (header : Header) : CanonicalKeys (cloneHeaders header) :=
  canonicalKeys_cloneFold header [] canonicalKeys_nil

theorem copyFold_canonicalKeys (l : Header) (acc : Header) (hacc : CanonicalKeys acc)
    (hl : ∀ e ∈ l, CanonicalHeaderKey e.1 = e.1) :
    CanonicalKeys (l.foldl (fun hs e => mapSet hs e.1 e.2) acc) := by
  induction l generalizing acc with
  | nil => exact hacc
  | cons x xs ih =>
    rw [List.foldl_cons]
    exact ih _ (canonicalKeys_mapSet _ _ _ hacc (hl x (List.mem_cons_self _ _)))
      (fun e he => hl e (List.mem_cons_of_mem _ he))

theorem copyFold_get (l : Header) (acc : Header) (hnd : (l.map Prod.fst).Nodup)
    (e : String × List String) (he : e ∈ l) :
    mapGet (l.foldl (fun hs e => mapSet hs e.1 e.2) acc) e.1 = some e.2 := by
  have huntouched : ∀ (xs : Header) (a : Header) (n : String), n ∉ xs.map Prod.fst →
      mapGet (xs.foldl (fun hs e => mapSet hs e.1 e.2) a) n = mapGet a n := by
    intro xs
    induction xs with
    | nil => intro a n _; rfl
    | cons x xs ih =>
      intro a n hn
      simp only [List.map_cons, List.mem_cons, not_or] at hn
      rw [List.foldl_cons, ih _ n hn.2, mapGet_mapSet_other _ _ _ _ (fun h => hn.1 h.symm)]
  induction l generalizing acc with
  | nil => simp at he
  | cons x xs ih =>
    simp only [List.map_cons, List.nodup_cons] at hnd
    rw [List.foldl_cons]
    rcases List.mem_cons.mp he with hx | hxs
    · subst hx
      rw [huntouched xs _ e.1 hnd.1, mapGet_mapSet_same]
    · exact ih _ hnd.2 hxs

theorem canonical_x_api_key : CanonicalHeaderKey "X-Api-Key" = "X-Api-Key" := by decide

theorem canonical_authorization : CanonicalHeaderKey "Authorization" = "Authorization" := by
  decide

theorem canonical_accept : CanonicalHeaderKey "Accept" = "Accept" := by decide

theorem canonical_content_type : CanonicalHeaderKey "Content-Type" = "Content-Type" := by
  decide

theorem acceptDefault_get (w : Header) (n : String) (hn : n ≠ "Accept") :
    mapGet (if Header.Get w "Accept" = "" then Header.Set w "Accept" "application/json" else w) n
      = mapGet w n := by
  split_ifs
  · rw [Header.Set, canonical_accept, mapGet_mapSet_other _ _ _ _ (fun h => hn h.symm)]
  · rfl

theorem forwardRequestHeaders_canonicalKeys (C : Header) (a : AuthMethod) (P : Provider)
    (hC : CanonicalKeys C) : CanonicalKeys (forwardRequestHeaders C a P) := by
  have hcopy : CanonicalKeys (C.foldl (fun hs e => mapSet hs e.1 e.2) []) :=
    copyFold_canonicalKeys C [] canonicalKeys_nil
      (fun e he => hC.2 e.1 (List.mem_map_of_mem Prod.fst he))
  unfold forwardRequestHeaders
  simp only []
  cases a with
  | AuthMethodBearer =>
    have hw : CanonicalKeys (Header.Del (Header.Set (C.foldl (fun hs e => mapSet hs e.1 e.2) [])
        "Authorization" ("Bearer " ++ P.APIKey)) "X-Api-Key") :=
      canonicalKeys_mapDel _ _ (canonicalKeys_mapSet _ _ _ hcopy (CanonicalHeaderKey_idem _))
    split_ifs
    · exact canonicalKeys_mapSet _ _ _ hw (CanonicalHeaderKey_idem _)
    · exact hw
  | AuthMethodXAPIKey =>
    have hw : CanonicalKeys (Header.Del (Header.Set (C.foldl (fun hs e => mapSet hs e.1 e.2) [])
        "X-Api-Key" P.APIKey) "Authorization") :=
      canonicalKeys_mapDel _ _ (canonicalKeys_mapSet _ _ _ hcopy (CanonicalHeaderKey_idem _))
    split_ifs
    · exact canonicalKeys_mapSet _ _ _ hw (CanonicalHeaderKey_idem _)
    · exact hw

theorem forwardRequestHeaders_xapikey (C : Header) (P : Provider) :
    mapGet (forwardRequestHeaders C .AuthMethodXAPIKey P) "X-Api-Key" = some [P.APIKey] ∧
    mapGet (forwardRequestHeaders C .AuthMethodXAPIKey P) "Authorization" = none := by
  unfold forwardRequestHeaders
  simp only []
  rw [acceptDefault_get _ _ (by decide), acceptDefault_get _ _ (by decide)]
  simp only [Header.Del, Header.Set, canonical_x_api_key, canonical_authorization]
  exact ⟨by rw [mapGet_mapDel_other _ _ _ (by decide), mapGet_mapSet_same],
    mapGet_mapDel_same _ _⟩

theorem forwardRequestHeaders_bearer (C : Header) (P : Provider) :
    mapGet (forwardRequestHeaders C .AuthMethodBearer P) "Authorization" =
      some ["Bearer " ++ P.APIKey] ∧
    mapGet (forwardRequestHeaders C .AuthMethodBearer P) "X-Api-Key" = none := by
  unfold forwardRequestHeaders
  simp only []
  rw [acceptDefault_get _ _ (by decide), acceptDefault_get _ _ (by decide)]
  simp only [Header.Del, Header.Set, canonical_x_api_key, canonical_authorization]
  exact ⟨by rw [mapGet_mapDel_other _ _ _ (by decide), mapGet_mapSet_same],
    mapGet_mapDel_same _ _⟩

theorem forwardRequestHeaders_other (C : Header) (a : AuthMethod) (P : Provider) (n : String)
    (h1 : n ≠ "X-Api-Key") (h2 : n ≠ "Authorization") (h3 : n ≠ "Accept") :
    mapGet (forwardRequestHeaders C a P) n =
      mapGet (C.foldl (fun hs e => mapSet hs e.1 e.2) []) n := by
  unfold forwardRequestHeaders
  simp only []
  rw [acceptDefault_get _ _ h3]
  cases a with
  | AuthMethodBearer =>
    simp only [Header.Del, Header.Set, canonical_x_api_key, canonical_authorization]
    rw [mapGet_mapDel_other _ _ _ (fun h => h1 h.symm),
      mapGet_mapSet_other _ _ _ _ (fun h => h2 h.symm)]
  | AuthMethodXAPIKey =>
    simp only [Header.Del, Header.Set, canonical_x_api_key, canonical_authorization]
    rw [mapGet_mapDel_other _ _ _ (fun h => h2 h.symm),
      mapGet_mapSet_other _ _ _ _ (fun h => h1 h.symm)]

theorem addValues_get (k : String) (vs : List String) (req : Header) (n : String) :
    mapGet (vs.foldl (fun r v => Header.Add r k v) req) n =
      if CanonicalHeaderKey k = n then
        (if vs = [] then mapGet req n else some ((mapGet req n).getD [] ++ vs))
      else mapGet req n := by
  induction vs generalizing req with
  | nil => simp
  | cons v vs ih =>
    rw [List.foldl_cons, ih]
    by_cases hk : CanonicalHeaderKey k = n
    · subst hk
      simp only [if_true, Header.Add, mapGet_mapSet_same, Option.getD_some]
      by_cases hvs : vs = []
      · subst hvs
        simp
      · simp [hvs]
    · simp only [hk, if_false, Header.Add]
      rw [mapGet_mapSet_other _ _ _ _ hk]

theorem addAll_untouched (hs acc : Header) (n : String)
    (h : ∀ e ∈ hs, CanonicalHeaderKey e.1 ≠ n) :
    mapGet (hs.foldl (fun req e => e.2.foldl (fun r v => Header.Add r e.1 v) req) acc) n =
      mapGet acc n := by
  induction hs generalizing acc with
  | nil => rfl
  | cons x xs ih =>
    rw [List.foldl_cons, ih _ (fun e he => h e (List.mem_cons_of_mem _ he)), addValues_get,
      if_neg (h x (List.mem_cons_self _ _))]

theorem addAll_get (hs acc : Header)
    (hnd : (hs.map (fun e => CanonicalHeaderKey e.1)).Nodup)
    (e : String × List String) (he : e ∈ hs) (hne : e.2 ≠ [])
    (hacc : mapGet acc (CanonicalHeaderKey e.1) = none) :
    mapGet (hs.foldl (fun req e => e.2.foldl (fun r v => Header.Add r e.1 v) req) acc)
      (CanonicalHeaderKey e.1) = some e.2 := by
  induction hs generalizing acc with
  | nil => simp at he
  | cons x xs ih =>
    simp only [List.map_cons, List.nodup_cons] at hnd
    rw [List.foldl_cons]
    rcases List.mem_cons.mp he with hx | hxs
    · subst hx
      rw [addAll_untouched xs _ _ (fun e' he' heq =>
        hnd.1 (List.mem_map.mpr ⟨e', he', heq⟩)), addValues_get, if_pos rfl, if_neg hne, hacc]
      rfl
    · apply ih _ hnd.2 hxs
      have hxe : CanonicalHeaderKey x.1 ≠ CanonicalHeaderKey e.1 := fun heq =>
        hnd.1 (List.mem_map.mpr ⟨e, hxs, heq.symm⟩)
      rw [addValues_get, if_neg hxe]
      exact hacc

theorem outboundRequestHeader_get (h : Header) (hg : CanonicalKeys h) (n : String)
    (vs : List String) (hn : n ≠ "Content-Type") (hvs : vs ≠ [])
    (hget : mapGet h n = some vs) : mapGet (outboundRequestHeader h) n = some vs := by
  have hmem : (n, vs) ∈ h := mem_of_mapGet h n vs hget
  have hcn : CanonicalHeaderKey n = n := hg.2 n (List.mem_map_of_mem Prod.fst hmem)
  have hmap : h.map (fun e => CanonicalHeaderKey e.1) = h.map Prod.fst :=
    List.map_congr_left (fun e he => hg.2 e.1 (List.mem_map_of_mem Prod.fst he))
  have hnd : (h.map (fun e => CanonicalHeaderKey e.1)).Nodup := by
    rw [hmap]; exact hg.1
  have hmain := addAll_get h [] hnd (n, vs) hmem hvs rfl
  simp only [hcn] at hmain
  unfold outboundRequestHeader
  rw [Header.Set, canonical_content_type, mapGet_mapSet_other _ _ _ _ (fun hh => hn hh.symm)]
  exact hmain

theorem outboundRequestHeader_none (h : Header) (hg : CanonicalKeys h) (n : String)
    (hc : mapGet h (CanonicalHeaderKey n) = none)
    (hn : CanonicalHeaderKey n ≠ "Content-Type") :
    mapGet (outboundRequestHeader h) n = none := by
  have hnct : n ≠ "Content-Type" := by
    intro hh
    rw [hh, canonical_content_type] at hn
    exact hn rfl
  unfold outboundRequestHeader
  rw [Header.Set, canonical_content_type, mapGet_mapSet_other _ _ _ _ (fun hh => hnct hh.symm),
    addAll_untouched]
  · rfl
  · intro e he heq
    have hkey : e.1 ∈ h.map Prod.fst := List.mem_map_of_mem Prod.fst he
    have hce : CanonicalHeaderKey e.1 = e.1 := hg.2 e.1 hkey
    have hcn : CanonicalHeaderKey n = n := by
      rw [← heq, CanonicalHeaderKey_idem]
    obtain ⟨v, hv⟩ := mapGet_of_mem_keys h e.1 hkey
    rw [hcn, ← heq, hce, hv] at hc
    exact Option.noConfusion hc

/-- C11: the outbound header of an attempt carries exactly one upstream credential,
made from the key of the provider alone. When the inbound request has a non-empty
`X-Api-Key`, the outbound `X-Api-Key` is the key of the provider and no header
whose name canonicalises to `Authorization` is present; otherwise the outbound
`Authorization` is "Bearer " followed by the key of the provider and no header
whose name canonicalises to `X-Api-Key` is present. -/
theorem forwardRequest_auth_injection (inbound : Header) (P : Provider) :
    (Header.Get inbound "X-Api-Key" ≠ "" →
      mapGet (outboundHeaders inbound P) "X-Api-Key" = some [P.APIKey] ∧
      ∀ name, CanonicalHeaderKey name = "Authorization" →
        mapGet (outboundHeaders inbound P) name = none) ∧
    (Header.Get inbound "X-Api-Key" = "" →
      mapGet (outboundHeaders inbound P) "Authorization" = some ["Bearer " ++ P.APIKey] ∧
      ∀ name, CanonicalHeaderKey name = "X-Api-Key" →
        mapGet (outboundHeaders inbound P) name = none) := by
  constructor
  · intro hx
    have hd : detectAuthMethod inbound = .AuthMethodXAPIKey := by
      simp only [detectAuthMethod, hx, ne_eq, not_false_eq_true, if_true]
    have hg := forwardRequestHeaders_canonicalKeys (cloneHeaders inbound) .AuthMethodXAPIKey P
      (canonicalKeys_cloneHeaders inbound)
    obtain ⟨h1, h2⟩ := forwardRequestHeaders_xapikey (cloneHeaders inbound) P
    unfold outboundHeaders
    rw [hd]
    refine ⟨outboundRequestHeader_get _ hg _ _ (by decide) (by simp) h1, ?_⟩
    intro name hname
    apply outboundRequestHeader_none _ hg
    · rw [hname]; exact h2
    · rw [hname]; decide
  · intro hx
    have hd : detectAuthMethod inbound = .AuthMethodBearer := by
      simp only [detectAuthMethod, hx, ne_eq, not_true_eq_false, if_false]
    have hg := forwardRequestHeaders_canonicalKeys (cloneHeaders inbound) .AuthMethodBearer P
      (canonicalKeys_cloneHeaders inbound)
    obtain ⟨h1, h2⟩ := forwardRequestHeaders_bearer (cloneHeaders inbound) P
    unfold outboundHeaders
    rw [hd]
    refine ⟨outboundRequestHeader_get _ hg _ _ (by decide) (by simp) h1, ?_⟩
    intro name hname
    apply outboundRequestHeader_none _ hg
    · rw [hname]; exact h2
    · rw [hname]; decide

/-- Witness for C11: an inbound request with both credential headers is forwarded
with the key of the provider under `X-Api-Key` and without `Authorization`. -/
theorem forwardRequest_auth_injection_witness :
    mapGet (outboundHeaders [("X-Api-Key", ["sk-in"]), ("Authorization", ["Bearer in"])]
        { Name := "p", APIKey := "k1" }) "X-Api-Key" = some ["k1"] ∧
    ∀ name, CanonicalHeaderKey name = "Authorization" →
      mapGet (outboundHeaders [("X-Api-Key", ["sk-in"]), ("Authorization", ["Bearer in"])]
        { Name := "p", APIKey := "k1" }) name = none :=
  (forwardRequest_auth_injection [("X-Api-Key", ["sk-in"]), ("Authorization", ["Bearer in"])]
    { Name := "p", APIKey := "k1" }).1 (by decide)

/-- Counterexample for C12: a `claude` request that authenticates with
`Authorization` and sends no `anthropic-version` is forwarded to the provider
with `Authorization: Bearer k1`, without `x-api-key` and without
`anthropic-version`; one that sends `x-api-key` but no `anthropic-version` is
forwarded without `anthropic-version`. -/
theorem claude_dialect_defaults_counterexample :
    (mapGet (outboundHeaders [("Authorization", ["Bearer tok"])]
        { Name := "p", APIURL := "https://a.example/api", APIKey := "k1" }) "X-Api-Key" = none ∧
     mapGet (outboundHeaders [("Authorization", ["Bearer tok"])]
        { Name := "p", APIURL := "https://a.example/api", APIKey := "k1" }) "Anthropic-Version"
        = none ∧
     mapGet (outboundHeaders [("Authorization", ["Bearer tok"])]
        { Name := "p", APIURL := "https://a.example/api", APIKey := "k1" }) "Authorization"
        = some ["Bearer k1"]) ∧
    (mapGet (outboundHeaders [("X-Api-Key", ["tok"])]
        { Name := "p", APIURL := "https://a.example/api", APIKey := "k1" }) "X-Api-Key"
        = some ["k1"] ∧
     mapGet (outboundHeaders [("X-Api-Key", ["tok"])]
        { Name := "p", APIURL := "https://a.example/api", APIKey := "k1" }) "Anthropic-Version"
        = none) := by
  decide

/-- C12 (amended): for a provider with API URL u and key k whose effective endpoint
for `/v1/messages` is `/v1/messages`, and an inbound request that carries a
non-empty `X-Api-Key` and the header `anthropic-version: 2023-06-01`, the
outbound request targets u with a trailing slash removed followed by
`/v1/messages` (the inbound query parameters, if any, merged into it) and carries
`x-api-key` = k and `anthropic-version` = 2023-06-01. -/
theorem claude_dialect_defaults (withQuery : String → List (String × String) → String)
    (methods : ProviderMethods) (P : Provider) (inbound : Header)
    (query : List (String × String)) (name : String)
    (hendpoint : methods.GetEffectiveEndpoint P "/v1/messages" = "/v1/messages")
    (hdistinct : (inbound.map (fun e => CanonicalHeaderKey e.1)).Nodup)
    (hkey : Header.Get inbound "X-Api-Key" ≠ "")
    (hname : CanonicalHeaderKey name = "Anthropic-Version")
    (hver : (name, ["2023-06-01"]) ∈ inbound) :
    forwardRequestTargetURL withQuery P (methods.GetEffectiveEndpoint P "/v1/messages") query =
      (if query.length > 0 then withQuery (TrimSuffix P.APIURL "/" ++ "/v1/messages") query
       else TrimSuffix P.APIURL "/" ++ "/v1/messages") ∧
    mapGet (outboundHeaders inbound P) "X-Api-Key" = some [P.APIKey] ∧
    mapGet (outboundHeaders inbound P) "Anthropic-Version" = some ["2023-06-01"] := by
  have hd : detectAuthMethod inbound = .AuthMethodXAPIKey := by
    simp only [detectAuthMethod, hkey, ne_eq, not_false_eq_true, if_true]
  have hg := forwardRequestHeaders_canonicalKeys (cloneHeaders inbound) .AuthMethodXAPIKey P
    (canonicalKeys_cloneHeaders inbound)
  have hclone : mapGet (cloneHeaders inbound) "Anthropic-Version" = some ["2023-06-01"] := by
    have h := cloneHeaders_lookup_value inbound [] (name, ["2023-06-01"]) hdistinct hver
      (by simp only [hname]; decide) (by simp only [hname]; decide)
    simpa only [hname] using h
  have hcopy : mapGet ((cloneHeaders inbound).foldl (fun hs e => mapSet hs e.1 e.2) [])
      "Anthropic-Version" = some ["2023-06-01"] :=
    copyFold_get (cloneHeaders inbound) [] (canonicalKeys_cloneHeaders inbound).1
      ("Anthropic-Version", ["2023-06-01"]) (mem_of_mapGet _ _ _ hclone)
  have hfwd : mapGet (forwardRequestHeaders (cloneHeaders inbound) .AuthMethodXAPIKey P)
      "Anthropic-Version" = some ["2023-06-01"] := by
    rw [forwardRequestHeaders_other _ _ _ _ (by decide) (by decide) (by decide)]
    exact hcopy
  refine ⟨?_, ?_, ?_⟩
  · rw [hendpoint]
    rfl
  · unfold outboundHeaders
    rw [hd]
    exact outboundRequestHeader_get _ hg _ _ (by decide) (by simp)
      (forwardRequestHeaders_xapikey (cloneHeaders inbound) P).1
  · unfold outboundHeaders
    rw [hd]
    exact outboundRequestHeader_get _ hg _ _ (by decide) (by simp) hfwd

/-- Witness for C12: u = https://a.example/api and k = k1. -/
theorem claude_dialect_defaults_witness :
    forwardRequestTargetURL (fun u _ => u)
        { Name := "p", APIURL := "https://a.example/api", APIKey := "k1" } "/v1/messages" []
      = "https://a.example/api/v1/messages" ∧
    mapGet (outboundHeaders [("X-Api-Key", ["tok"]), ("Anthropic-Version", ["2023-06-01"])]
        { Name := "p", APIURL := "https://a.example/api", APIKey := "k1" }) "X-Api-Key"
      = some ["k1"] ∧
    mapGet (outboundHeaders [("X-Api-Key", ["tok"]), ("Anthropic-Version", ["2023-06-01"])]
        { Name := "p", APIURL := "https://a.example/api", APIKey := "k1" }) "Anthropic-Version"
      = some ["2023-06-01"] :=
  ⟨by decide,
   (claude_dialect_defaults (fun u _ => u) plainMethods
      { Name := "p", APIURL := "https://a.example/api", APIKey := "k1" }
      [("X-Api-Key", ["tok"]), ("Anthropic-Version", ["2023-06-01"])] [] "Anthropic-Version"
      rfl (by decide) (by decide) (by decide) (by decide)).2⟩

/-! ## Gemini SSE buffering -/

theorem splitLines_ne_nil (s : List Char) : splitLines s ≠ [] := by
  cases s with
  | nil => simp [splitLines]
  | cons c cs =>
    unfold splitLines
    split_ifs <;> simp

theorem splitLines_append_newline (e s : List Char) :
    splitLines (e ++ '\n' :: s) = splitLines e ++ splitLines s := by
  induction e with
  | nil => simp [splitLines]
  | cons c e ih =>
    rw [List.cons_append, splitLines, ih]
    by_cases hc : c = '\n'
    · subst hc
      simp [splitLines]
    · rw [if_neg hc]
      conv_rhs => rw [splitLines, if_neg hc]
      cases hsp : splitLines e with
      | nil => exact absurd hsp (splitLines_ne_nil e)
      | cons l ls => simp

theorem geminiDataLine_empty (lib : SSELib) (hTrim : lib.TrimSpace [] = [])
    (r : RequestLog) : geminiDataLine lib r [] = r := by
  have hp : bytesHasPrefix [] "data:".data = false := by decide
  simp only [geminiDataLine, hTrim, hp, Bool.not_false, if_true]

theorem parseGeminiSSELine_append (lib : SSELib) (hTrim : lib.TrimSpace [] = [])
    (e s : List Char) (r : RequestLog) :
    parseGeminiSSELine lib ((e ++ ['\n']) ++ s) r =
      parseGeminiSSELine lib s (parseGeminiSSELine lib (e ++ ['\n']) r) := by
  have h1 : (e ++ ['\n']) ++ s = e ++ '\n' :: s := by simp
  have h2 : splitLines (e ++ ['\n']) = splitLines e ++ [[]] := by
    rw [splitLines_append_newline]
    rfl
  unfold parseGeminiSSELine
  rw [h1, splitLines_append_newline, h2, List.foldl_append, List.foldl_append]
  simp only [List.foldl_cons, List.foldl_nil, geminiDataLine_empty lib hTrim]

theorem bytesIndex_some (sep : List Char) (s : List Char) (i : Nat)
    (h : bytesIndex sep s = some i) :
    s.take (i + sep.length) = s.take i ++ sep ∧ i + sep.length ≤ s.length := by
  induction s generalizing i with
  | nil =>
    simp only [bytesIndex] at h
    split_ifs at h with hs
    have hnil : sep = [] := by simpa using hs
    subst hnil
    simp only [Option.some.injEq] at h
    subst h
    simp
  | cons c cs ih =>
    simp only [bytesIndex] at h
    split_ifs at h with hp
    · simp only [Option.some.injEq] at h
      subst h
      obtain ⟨t, ht⟩ := List.isPrefixOf_iff_prefix.mp hp
      rw [← ht]
      simp
    · cases hi : bytesIndex sep cs with
      | none => simp [hi] at h
      | some j =>
        simp only [hi, Option.map_some', Option.some.injEq] at h
        subst h
        obtain ⟨h1, h2⟩ := ih j hi
        have hadd : j + 1 + sep.length = (j + sep.length) + 1 := by omega
        rw [hadd, List.take_succ_cons, h1, List.take_succ_cons]
        exact ⟨rfl, by simp only [List.length_cons]; omega⟩

theorem nextEventEnd_some (content : List Char) (idx : Nat)
    (h : nextEventEnd content = some idx) :
    (∃ e, content.take idx = e ++ ['\n']) ∧ 2 ≤ idx ∧ idx ≤ content.length := by
  unfold nextEventEnd at h
  cases h1 : bytesIndex "\n\n".data content with
  | some i =>
    simp only [h1, Option.some.injEq] at h
    subst h
    obtain ⟨ht, hl⟩ := bytesIndex_some _ _ _ h1
    have hlen : ("\n\n".data).length = 2 := by decide
    rw [hlen] at ht hl
    refine ⟨⟨content.take i ++ ['\n'], ?_⟩, by omega, hl⟩
    rw [ht]
    simp
  | none =>
    simp only [h1] at h
    cases h2 : bytesIndex "\r\n\r\n".data content with
    | none => simp [h2] at h
    | some i =>
      simp only [h2, Option.some.injEq] at h
      subst h
      obtain ⟨ht, hl⟩ := bytesIndex_some _ _ _ h2
      have hlen : ("\r\n\r\n".data).length = 4 := by decide
      rw [hlen] at ht hl
      refine ⟨⟨content.take i ++ ['\r', '\n', '\r'], ?_⟩, by omega, hl⟩
      rw [ht]
      simp

theorem geminiEventLoop_lines (lib : SSELib) (hTrim : lib.TrimSpace [] = []) (fuel : Nat) :
    ∀ (content : List Char) (r : RequestLog) (rest : List Char),
      parseGeminiSSELine lib ((geminiEventLoop lib fuel content r).1 ++ rest)
          (geminiEventLoop lib fuel content r).2 =
        parseGeminiSSELine lib (content ++ rest) r := by
  induction fuel with
  | zero => intro content r rest; rfl
  | succ fuel ih =>
    intro content r rest
    unfold geminiEventLoop
    cases hn : nextEventEnd content with
    | none => rfl
    | some idx =>
      simp only []
      obtain ⟨⟨e, he⟩, _, _⟩ := nextEventEnd_some content idx hn
      rw [ih]
      have hsplit : content ++ rest = (e ++ ['\n']) ++ (content.drop idx ++ rest) := by
        rw [← he, ← List.append_assoc, List.take_append_drop]
      rw [hsplit, parseGeminiSSELine_append lib hTrim, he]

theorem geminiEventLoop_done (lib : SSELib) (fuel : Nat) :
    ∀ (content : List Char) (r : RequestLog), content.length ≤ fuel →
      nextEventEnd (geminiEventLoop lib fuel content r).1 = none := by
  induction fuel with
  | zero =>
    intro content r hlen
    have : content = [] := List.length_eq_zero.mp (by omega)
    subst this
    rfl
  | succ fuel ih =>
    intro content r hlen
    unfold geminiEventLoop
    cases hn : nextEventEnd content with
    | none => exact hn
    | some idx =>
      simp only []
      obtain ⟨_, h2, hle⟩ := nextEventEnd_some content idx hn
      apply ih
      rw [List.length_drop]
      omega

theorem geminiFeed_lines (lib : SSELib) (hTrim : lib.TrimSpace [] = [])
    (chunks : List (List Char)) :
    ∀ (st : List Char × RequestLog) (rest : List Char),
      parseGeminiSSELine lib
          ((chunks.foldl (fun (st : List Char × RequestLog) chunk =>
              if chunk.length > 0 then parseGeminiSSEWithBuffer lib chunk st.1 st.2 else st)
            st).1 ++ rest)
          (chunks.foldl (fun (st : List Char × RequestLog) chunk =>
              if chunk.length > 0 then parseGeminiSSEWithBuffer lib chunk st.1 st.2 else st)
            st).2 =
        parseGeminiSSELine lib (st.1 ++ (chunks.flatten ++ rest)) st.2 := by
  induction chunks with
  | nil => intro st rest; rfl
  | cons c cs ih =>
    intro st rest
    rw [List.foldl_cons, ih]
    by_cases hc : c.length > 0
    · rw [if_pos hc]
      unfold parseGeminiSSEWithBuffer
      rw [geminiEventLoop_lines lib hTrim]
      simp [List.append_assoc]
    · have hnil : c = [] := List.length_eq_zero.mp (by omega)
      subst hnil
      simp

theorem streamGemini_eq_lines (lib : SSELib) (hTrim : lib.TrimSpace [] = [])
    (chunks : List (List Char)) (r : RequestLog) :
    streamGeminiResponseWithHook lib chunks r = parseGeminiSSELine lib chunks.flatten r := by
  have h := geminiFeed_lines lib hTrim chunks ([], r) []
  simp only [List.append_nil, List.nil_append] at h
  unfold streamGeminiResponseWithHook
  simp only []
  split_ifs with hlen
  · exact h
  · have hnil : (chunks.foldl (fun (st : List Char × RequestLog) chunk =>
        if chunk.length > 0 then parseGeminiSSEWithBuffer lib chunk st.1 st.2 else st)
        ([], r)).1 = [] := List.length_eq_zero.mp (by omega)
    rw [hnil] at h
    rw [← h]
    exact (geminiDataLine_empty lib hTrim _).symm

/-- C19: whatever way the stream is cut into chunks, `streamGeminiResponseWithHook`
leaves the request log it leaves when the whole stream arrives as one chunk
(`strings.TrimSpace` of the empty string being the empty string). After every
call of `parseGeminiSSEWithBuffer` the buffer holds no complete event, so the
loop ran until no terminator was left; and when the buffered bytes and the
chunk together hold no terminator, nothing is dispatched: the request log is
unchanged and all these bytes stay in the buffer. -/
theorem gemini_sse_chunking_invariant (lib : SSELib) (hTrim : lib.TrimSpace [] = [])
    (chunks : List (List Char)) (r : RequestLog) :
    streamGeminiResponseWithHook lib chunks r =
      streamGeminiResponseWithHook lib [chunks.flatten] r ∧
    (∀ (chunk lineBuf : List Char) (q : RequestLog),
      nextEventEnd (parseGeminiSSEWithBuffer lib chunk lineBuf q).1 = none) ∧
    (∀ (chunk lineBuf : List Char) (q : RequestLog),
      nextEventEnd (lineBuf ++ chunk) = none →
        parseGeminiSSEWithBuffer lib chunk lineBuf q = (lineBuf ++ chunk, q)) := by
  refine ⟨?_, ?_, ?_⟩
  · rw [streamGemini_eq_lines lib hTrim, streamGemini_eq_lines lib hTrim]
    simp
  · intro chunk lineBuf q
    exact geminiEventLoop_done lib _ _ q (Nat.le_refl _)
  · intro chunk lineBuf q hnone
    unfold parseGeminiSSEWithBuffer
    cases hlen : (lineBuf ++ chunk).length with
    | zero => rfl
    | succ n =>
      unfold geminiEventLoop
      rw [hnone]

/-- Witness for C19: an event whose JSON is cut in two chunks is counted as when
it arrives whole, and after the first chunk it is still in the buffer. -/
theorem gemini_sse_chunking_invariant_witness :
    streamGeminiResponseWithHook
        (scenarioSSELib "\x7b\"usageMetadata\":1\x7d".data [] (some { promptTokenCount := some 7 }))
        ["data: \x7b\"usageMeta".data, "data\":1\x7d\n\ndata: [DONE]\n\n".data] {} =
      streamGeminiResponseWithHook
        (scenarioSSELib "\x7b\"usageMetadata\":1\x7d".data [] (some { promptTokenCount := some 7 }))
        [["data: \x7b\"usageMeta".data,
          "data\":1\x7d\n\ndata: [DONE]\n\n".data].flatten] {} ∧
    (streamGeminiResponseWithHook
        (scenarioSSELib "\x7b\"usageMetadata\":1\x7d".data [] (some { promptTokenCount := some 7 }))
        ["data: \x7b\"usageMeta".data, "data\":1\x7d\n\ndata: [DONE]\n\n".data]
        {}).InputTokens = 7 ∧
    parseGeminiSSEWithBuffer
        (scenarioSSELib "\x7b\"usageMetadata\":1\x7d".data [] (some { promptTokenCount := some 7 }))
        "data: \x7b\"usageMeta".data [] {} = ("data: \x7b\"usageMeta".data, {}) :=
  ⟨(gemini_sse_chunking_invariant
      (scenarioSSELib "\x7b\"usageMetadata\":1\x7d".data [] (some { promptTokenCount := some 7 }))
      rfl ["data: \x7b\"usageMeta".data, "data\":1\x7d\n\ndata: [DONE]\n\n".data] {}).1,
   by decide, by decide⟩

/-! ## Per-chunk parsing of the Anthropic and OpenAI streams -/

/-- C20: the hook installed by `RequestLogHook` parses each read on its own. When
the stream of one event `data: J` followed by a blank line is read as the two
chunks `da` and `ta: J` (with the blank line), neither chunk holds a `data:`
line and the request log is left unchanged, for `claude` and for `codex`; read
as one chunk, the same stream has the parser of the dialect applied to `J`. With
4 input tokens in `J` the totals are 0 and 4. -/
theorem requestLogHook_loses_split_event (gjsonInt : List Char → String → Int)
    (usageMetadata : List Char → Option UsageMetadata) (usage : RequestLog) :
    copyResponseBodyWithHook ⟨asciiTrimSpace, gjsonInt, usageMetadata⟩ "claude"
        ["da".data, "ta: J\n\n".data] usage = usage ∧
    copyResponseBodyWithHook ⟨asciiTrimSpace, gjsonInt, usageMetadata⟩ "claude"
        ["data: J\n\n".data] usage =
      ClaudeCodeParseTokenUsageFromResponse ⟨asciiTrimSpace, gjsonInt, usageMetadata⟩
        "J".data usage ∧
    copyResponseBodyWithHook ⟨asciiTrimSpace, gjsonInt, usageMetadata⟩ "codex"
        ["da".data, "ta: J\n\n".data] usage = usage ∧
    copyResponseBodyWithHook ⟨asciiTrimSpace, gjsonInt, usageMetadata⟩ "codex"
        ["data: J\n\n".data] usage =
      CodexParseTokenUsageFromResponse ⟨asciiTrimSpace, gjsonInt, usageMetadata⟩
        "J".data usage ∧
    (copyResponseBodyWithHook (scenarioSSELib "J".data [("usage.input_tokens", 4)] none) "claude"
        ["da".data, "ta: J\n\n".data] {}).InputTokens = 0 ∧
    (copyResponseBodyWithHook (scenarioSSELib "J".data [("usage.input_tokens", 4)] none) "claude"
        ["data: J\n\n".data] {}).InputTokens = 4 := by
  refine ⟨rfl, rfl, rfl, rfl, by decide, by decide⟩

/-! ## Truncation and redaction of request details -/

/-- C23: for a limit n that is not negative, `TruncateBody(b, n)` returns a prefix
of b of length min(len(b), n), and truncating that prefix again with the same n
returns it unchanged, with the flag unset. -/
theorem truncateBody_idempotent (b : List Char) (n : Int) (hn : 0 ≤ n) :
    ∃ t flag, TruncateBody b n = some (t, flag) ∧ t <+: b ∧
      t.length = min b.length n.toNat ∧ t = b.take n.toNat ∧
      TruncateBody t n = some (t, false) := by
  by_cases hle : (b.length : Int) ≤ n
  · refine ⟨b, false, by simp [TruncateBody, hle], List.prefix_refl b, ?_, ?_,
      by simp [TruncateBody, hle]⟩
    · have : b.length ≤ n.toNat := by omega
      omega
    · have : b.length ≤ n.toNat := by omega
      exact (List.take_of_length_le this).symm
  · have hneg : ¬ n < 0 := by omega
    have hlen : (b.take n.toNat).length = n.toNat := by
      rw [List.length_take]
      omega
    refine ⟨b.take n.toNat, true, by simp [TruncateBody, hle, hneg], List.take_prefix _ _, ?_, rfl,
      ?_⟩
    · rw [hlen]; omega
    · have hle2 : ((b.take n.toNat).length : Int) ≤ n := by
        rw [hlen]; omega
      simp only [TruncateBody, hle2, if_true]

/-- Witness for C23: a body of five bytes and the limit 3. -/
theorem truncateBody_idempotent_witness :
    ∃ t flag, TruncateBody "hello".data 3 = some (t, flag) ∧ t <+: "hello".data ∧
      t.length = min "hello".data.length (3 : Int).toNat ∧ t = "hello".data.take (3 : Int).toNat ∧
      TruncateBody t 3 = some (t, false) :=
  truncateBody_idempotent "hello".data 3 (by decide)

/-- `toLower` on an ASCII name, and on the two bytes of a character outside ASCII
(195, 137): the second byte is not visited and stays 0. -/
theorem toLower_examples :
    toLower "X-API-Key".data = "x-api-key".data ∧
    toLower [Char.ofNat 195, Char.ofNat 137] = [Char.ofNat 195, Char.ofNat 0] ∧
    toLower [Char.ofNat 195, 'A'] = [Char.ofNat 195, 'a'] := by
  decide

theorem toLowerFrom_length (s : List Char) : ∀ skip, (toLowerFrom skip s).length = s.length := by
  induction s with
  | nil => intro skip; cases skip <;> rfl
  | cons c rest ih =>
    intro skip
    cases skip with
    | zero => simp [toLowerFrom, ih]
    | succ n => simp [toLowerFrom, ih]

theorem sanitizeValue_idem (v : List Char) : sanitizeValue (sanitizeValue v) = sanitizeValue v := by
  have h4 : "****".data.length = 4 := by decide
  by_cases h12 : v.length > 12
  · have hv : sanitizeValue v = v.take 8 ++ "****".data ++ v.drop (v.length - 4) := by
      simp only [sanitizeValue, h12, if_true]
    have hl8 : (v.take 8).length = 8 := by rw [List.length_take]; omega
    have hl : (sanitizeValue v).length = 16 := by
      rw [hv, List.length_append, List.length_append, hl8, h4, List.length_drop]
      omega
    have hgt : (sanitizeValue v).length > 12 := by omega
    conv_lhs => rw [sanitizeValue, if_pos hgt, hl]
    rw [hv]
    have ht : (v.take 8 ++ "****".data ++ v.drop (v.length - 4)).take 8 = v.take 8 := by
      rw [List.append_assoc, List.take_append_of_le_length (by omega), List.take_take]
      simp
    have hd : (v.take 8 ++ "****".data ++ v.drop (v.length - 4)).drop (16 - 4) =
        v.drop (v.length - 4) := by
      have hl12 : (v.take 8 ++ "****".data).length = 12 := by
        rw [List.length_append, hl8, h4]
      have : 16 - 4 = (v.take 8 ++ "****".data).length := by omega
      rw [this, List.drop_left]
    rw [ht, hd]
  · by_cases hgt4 : v.length > 4
    · have hv : sanitizeValue v = v.take 4 ++ "****".data := by
        simp only [sanitizeValue, h12, hgt4, if_true, if_false]
      have hl4 : (v.take 4).length = 4 := by rw [List.length_take]; omega
      have hl : (sanitizeValue v).length = 8 := by
        rw [hv, List.length_append, hl4, h4]
      have hn12 : ¬ (sanitizeValue v).length > 12 := by omega
      have hg4 : (sanitizeValue v).length > 4 := by omega
      conv_lhs => rw [sanitizeValue, if_neg hn12, if_pos hg4]
      rw [hv, List.take_append_of_le_length (by omega), List.take_take]
      simp
    · have hv : sanitizeValue v = "****".data := by
        simp only [sanitizeValue, h12, hgt4, if_false]
      rw [hv]
      decide

theorem sanitizeEntry_idem (e : List Char × List Char) :
    sanitizeEntry (sanitizeEntry e) = sanitizeEntry e := by
  unfold sanitizeEntry
  simp only []
  split_ifs
  · rw [sanitizeValue_idem]
  · rfl

theorem mapSet_new {κ α : Type} [DecidableEq κ] (m : List (κ × α)) (k : κ) (v : α)
    (h : k ∉ m.map Prod.fst) : mapSet m k v = m ++ [(k, v)] := by
  induction m with
  | nil => rfl
  | cons e m ih =>
    obtain ⟨k', v'⟩ := e
    simp only [List.map_cons, List.mem_cons, not_or] at h
    have hk : ¬ k' = k := fun hh => h.1 hh.symm
    simp only [mapSet, hk, if_false, List.cons_append, ih h.2]

theorem sanitizeStep_eq (acc : List (List Char × List Char)) (e : List Char × List Char) :
    sanitizeStep acc e = mapSet acc (sanitizeEntry e).1 (sanitizeEntry e).2 := by
  unfold sanitizeStep sanitizeEntry
  simp only []
  split_ifs <;> rfl

theorem sanitizeFold_eq (l acc : List (List Char × List Char))
    (hnd : (l.map Prod.fst).Nodup) (hdis : ∀ e ∈ l, e.1 ∉ acc.map Prod.fst) :
    l.foldl sanitizeStep acc = acc ++ l.map sanitizeEntry := by
  induction l generalizing acc with
  | nil => simp
  | cons x xs ih =>
    simp only [List.map_cons, List.nodup_cons] at hnd
    have hnew : mapSet acc (sanitizeEntry x).1 (sanitizeEntry x).2 = acc ++ [sanitizeEntry x] :=
      mapSet_new acc (sanitizeEntry x).1 (sanitizeEntry x).2 (hdis x (List.mem_cons_self _ _))
    rw [List.foldl_cons, sanitizeStep_eq, hnew, ih]
    · simp
    · exact hnd.2
    · intro e he hmem
      simp only [List.map_append, List.map_cons, List.map_nil, List.mem_append,
        List.mem_singleton] at hmem
      rcases hmem with h1 | h1
      · exact hdis e (List.mem_cons_of_mem _ he) h1
      · have hx : (sanitizeEntry x).1 = x.1 := rfl
        rw [hx] at h1
        exact hnd.1 (h1 ▸ List.mem_map_of_mem Prod.fst he)

theorem sanitizeHeaders_eq_map (H : List (List Char × List Char))
    (hnd : (H.map Prod.fst).Nodup) : SanitizeHeaders H = H.map sanitizeEntry := by
  unfold SanitizeHeaders
  rw [sanitizeFold_eq H [] hnd (fun e _ h => by simp at h)]
  simp

theorem mapGet_of_mem_nodup {κ α : Type} [DecidableEq κ] (m : List (κ × α)) (k : κ) (v : α)
    (hnd : (m.map Prod.fst).Nodup) (h : (k, v) ∈ m) : mapGet m k = some v := by
  induction m with
  | nil => simp at h
  | cons e m ih =>
    obtain ⟨k', v'⟩ := e
    simp only [List.map_cons, List.nodup_cons] at hnd
    rcases List.mem_cons.mp h with h1 | h1
    · have hk : k' = k := (Prod.mk.inj h1).1.symm
      have hv : v' = v := (Prod.mk.inj h1).2.symm
      simp [mapGet, hk, hv]
    · have hk : ¬ k' = k := by
        intro hh
        exact hnd.1 (hh ▸ List.mem_map_of_mem Prod.fst h1)
      simp only [mapGet, hk, if_false]
      exact ih hnd.2 h1

/-- C24: for a header map (no key twice), redacting the redacted map changes
nothing; the redacted map has the keys of the map, in its order; and a key whose
lower-case form is not one of the five sensitive names keeps its value. -/
theorem sanitizeHeaders_stable (H : List (List Char × List Char))
    (hnd : (H.map Prod.fst).Nodup) :
    SanitizeHeaders (SanitizeHeaders H) = SanitizeHeaders H ∧
    (SanitizeHeaders H).map Prod.fst = H.map Prod.fst ∧
    (∀ k v, (k, v) ∈ H → (mapGet sensitiveKeys (toLower k)).getD false = false →
      mapGet (SanitizeHeaders H) k = some v) ∧
    (∀ k v, (k, v) ∈ H → (mapGet sensitiveKeys (toLower k)).getD false = true →
      mapGet (SanitizeHeaders H) k = some (sanitizeValue v)) := by
  have hkeys : (H.map sanitizeEntry).map Prod.fst = H.map Prod.fst := by
    rw [List.map_map]
    rfl
  have hS := sanitizeHeaders_eq_map H hnd
  have hnd2 : ((H.map sanitizeEntry).map Prod.fst).Nodup := by rw [hkeys]; exact hnd
  refine ⟨?_, ?_, ?_, ?_⟩
  · rw [hS, sanitizeHeaders_eq_map _ hnd2, List.map_map]
    apply List.map_congr_left
    intro e _
    exact sanitizeEntry_idem e
  · rw [hS, hkeys]
  · intro k v hmem hs
    rw [hS]
    apply mapGet_of_mem_nodup _ _ _ hnd2
    have := List.mem_map_of_mem sanitizeEntry hmem
    simpa [sanitizeEntry, hs] using this
  · intro k v hmem hs
    rw [hS]
    apply mapGet_of_mem_nodup _ _ _ hnd2
    have := List.mem_map_of_mem sanitizeEntry hmem
    simpa [sanitizeEntry, hs] using this

/-- Witness for C24: a map with a long credential under `Authorization` and a
plain header. -/
theorem sanitizeHeaders_stable_witness :
    SanitizeHeaders (SanitizeHeaders
        [("Authorization".data, "Bearer sk-1234567890".data), ("Accept".data, "a/b".data)]) =
      SanitizeHeaders
        [("Authorization".data, "Bearer sk-1234567890".data), ("Accept".data, "a/b".data)] ∧
    SanitizeHeaders
        [("Authorization".data, "Bearer sk-1234567890".data), ("Accept".data, "a/b".data)] =
      [("Authorization".data, "Bearer s****7890".data), ("Accept".data, "a/b".data)] :=
  ⟨(sanitizeHeaders_stable
      [("Authorization".data, "Bearer sk-1234567890".data), ("Accept".data, "a/b".data)]
      (by decide)).1, by decide⟩

/-! ## The listening address -/

/-- Counterexample for C25: the argument `0.0.0.0:18100` is kept as it is, and it
is the address `Start` gives to the server; it names every interface, not the
loopback one. The same holds for `:18100`. -/
theorem listen_address_counterexample :
    (NewProviderRelayService "0.0.0.0:18100").Addr = "0.0.0.0:18100" ∧
    (NewProviderRelayService "0.0.0.0:18100").serverAddr = "0.0.0.0:18100" ∧
    isLoopbackAddr (NewProviderRelayService "0.0.0.0:18100").Addr = false ∧
    isLoopbackAddr (NewProviderRelayService ":18100").Addr = false := by
  decide

/-- C25 (amended): when the `addr` argument is empty or is itself a loopback
address, the address the service listens on is a loopback address; with an empty
argument it is 127.0.0.1:18100, and a non-empty argument is used as it is. -/
theorem listen_address_loopback (addr : String)
    (h : addr = "" ∨ isLoopbackAddr addr = true) :
    isLoopbackAddr (NewProviderRelayService addr).Addr = true ∧
    (NewProviderRelayService addr).serverAddr = (NewProviderRelayService addr).Addr ∧
    (addr = "" → (NewProviderRelayService addr).Addr = "127.0.0.1:18100") ∧
    (addr ≠ "" → (NewProviderRelayService addr).Addr = addr) := by
  have hdefault : isLoopbackAddr "127.0.0.1:18100" = true := by decide
  by_cases he : addr = ""
  · subst he
    exact ⟨hdefault, rfl, fun _ => rfl, fun hne => absurd rfl hne⟩
  · have hl : isLoopbackAddr addr = true := h.resolve_left he
    have ha : (NewProviderRelayService addr).Addr = addr := by
      simp only [NewProviderRelayService, ProviderRelayService.Addr, he, if_false]
    exact ⟨by rw [ha]; exact hl, rfl, fun h0 => absurd h0 he, fun _ => ha⟩

/-- Witness for C25: the empty argument. -/
theorem listen_address_loopback_witness :
    isLoopbackAddr (NewProviderRelayService "").Addr = true ∧
    (NewProviderRelayService "").Addr = "127.0.0.1:18100" :=
  ⟨(listen_address_loopback "" (Or.inl rfl)).1, (listen_address_loopback "" (Or.inl rfl)).2.2.1 rfl⟩

/-! ## Idempotence of the Gemini merge -/

theorem requestLog_ext (a b : RequestLog) (h1 : a.Platform = b.Platform)
    (h2 : a.Model = b.Model) (h3 : a.Provider = b.Provider) (h4 : a.HttpCode = b.HttpCode)
    (h5 : a.InputTokens = b.InputTokens) (h6 : a.OutputTokens = b.OutputTokens)
    (h7 : a.CacheCreateTokens = b.CacheCreateTokens)
    (h8 : a.CacheReadTokens = b.CacheReadTokens)
    (h9 : a.ReasoningTokens = b.ReasoningTokens) (h10 : a.IsStream = b.IsStream) : a = b := by
  cases a
  cases b
  simp only [RequestLog.mk.injEq]
  exact ⟨h1, h2, h3, h4, h5, h6, h7, h8, h9, h10⟩

theorem mergeGemini_output_again (t c o inp : Int) :
    (if 0 < t ∧
        max (if 0 < t ∧ max o c = 0 ∧ 0 < inp ∧ inp < t then t - inp else max o c) c = 0 ∧
        0 < inp ∧ inp < t then t - inp
      else max (if 0 < t ∧ max o c = 0 ∧ 0 < inp ∧ inp < t then t - inp else max o c) c) =
      (if 0 < t ∧ max o c = 0 ∧ 0 < inp ∧ inp < t then t - inp else max o c) := by
  split_ifs <;> omega

/-- C30: merging the same `usageMetadata` object a second time changes nothing,
whatever the counts (negative, missing) and whatever `totalTokenCount`; the same
holds when the object does not exist. -/
theorem mergeGemini_idempotent (usage : Option UsageMetadata) (r : RequestLog) :
    mergeGeminiUsageMetadata usage (mergeGeminiUsageMetadata usage r) =
      mergeGeminiUsageMetadata usage r := by
  cases usage with
  | none => rfl
  | some u =>
    obtain ⟨h1, h2, h3, _⟩ := mergeGemini_fields u r
    have ho := mergeGemini_output u r
    obtain ⟨k1, k2, k3, _⟩ := mergeGemini_fields u (mergeGeminiUsageMetadata (some u) r)
    have ko := mergeGemini_output u (mergeGeminiUsageMetadata (some u) r)
    have hmax : max (max r.InputTokens (u.promptTokenCount.getD 0)) (u.promptTokenCount.getD 0)
        = max r.InputTokens (u.promptTokenCount.getD 0) := by omega
    apply requestLog_ext
    · rfl
    · rfl
    · rfl
    · rfl
    · rw [k1, h1, hmax]
    · rw [ko, h1, hmax, ho]
      exact mergeGemini_output_again _ _ _ _
    · rfl
    · rw [k2, h2]; omega
    · rw [k3, h3]; omega
    · rfl

/-! ## Round-robin order is a rotation -/

theorem roundRobinOrder_rotate (rr : List (String × String)) (platform : String) (level : Int)
    (tier : List Provider) : ∃ k, (roundRobinOrder rr platform level tier).1 = tier.rotate k := by
  unfold roundRobinOrder
  simp only []
  split_ifs
  · exact ⟨0, (List.rotate_zero tier).symm⟩
  · exact ⟨0, (List.rotate_zero tier).symm⟩
  · cases hf : tier.findIdx? (fun p => p.Name == (mapGet rr (platform ++ ":" ++ toString level)).getD "") with
    | none => exact ⟨0, (List.rotate_zero tier).symm⟩
    | some i => exact ⟨i + 1, range_filterMap_rotate tier (i + 1)⟩

theorem roundRobinOrderGemini_shape (rr : List (String × String)) (level : Int)
    (tierG : List GeminiProvider) :
    roundRobinOrderGemini rr level tierG =
      if tierG.length ≤ 1 then (tierG, rr)
      else if (mapGet rr ("gemini:" ++ toString level)).getD "" = "" then
        (tierG, mapSet rr ("gemini:" ++ toString level) ((tierG.map (fun p => p.Name)).headD ""))
      else
        match (tierG.map (fun p => p.Name)).findIdx?
            (fun n => n == (mapGet rr ("gemini:" ++ toString level)).getD "") with
        | none =>
          (tierG,
            mapSet rr ("gemini:" ++ toString level) ((tierG.map (fun p => p.Name)).headD ""))
        | some i =>
          (tierG.rotate (i + 1),
            mapSet (mapSet rr ("gemini:" ++ toString level)
                ((tierG.map (fun p => p.Name)).headD ""))
              ("gemini:" ++ toString level)
              (((tierG.map (fun p => p.Name)).rotate (i + 1)).headD "")) := by
  unfold roundRobinOrderGemini
  by_cases hle : tierG.length ≤ 1
  · simp only [hle, if_true]
  · simp only [hle, if_false]
    cases tierG with
    | nil => simp at hle
    | cons a t =>
      have hfind : ∀ s : String, (a :: t).findIdx? (fun p => p.Name == s) =
          ((a :: t).map (fun p => p.Name)).findIdx? (fun n => n == s) := by
        intro s
        rw [List.findIdx?_map]
        rfl
      simp only [List.head?_cons, hfind]
      split_ifs
      · rfl
      · cases hf : ((a :: t).map (fun p => p.Name)).findIdx?
            (fun n => n == (mapGet rr ("gemini:" ++ toString level)).getD "") with
        | none => rfl
        | some i =>
          simp only [range_filterMap_rotate]
          have hne : (a :: t).rotate (i + 1) ≠ [] := by
            intro h0
            have := congrArg List.length h0
            simp at this
          cases hr : (a :: t).rotate (i + 1) with
          | nil => exact absurd hr hne
          | cons b u =>
            have hm : ((a :: t).map (fun p => p.Name)).rotate (i + 1) =
                b.Name :: u.map (fun p => p.Name) := by
              rw [← List.map_rotate, hr]
              rfl
            rw [hm]
            rfl

theorem roundRobinOrder_shape (rr : List (String × String)) (platform : String) (level : Int)
    (tier : List Provider) :
    roundRobinOrder rr platform level tier =
      if tier.length ≤ 1 then (tier, rr)
      else if (mapGet rr (platform ++ ":" ++ toString level)).getD "" = "" then
        (tier, mapSet rr (platform ++ ":" ++ toString level)
          ((tier.map (fun p => p.Name)).headD ""))
      else
        match (tier.map (fun p => p.Name)).findIdx?
            (fun n => n == (mapGet rr (platform ++ ":" ++ toString level)).getD "") with
        | none =>
          (tier, mapSet rr (platform ++ ":" ++ toString level)
            ((tier.map (fun p => p.Name)).headD ""))
        | some i =>
          (tier.rotate (i + 1),
            mapSet (mapSet rr (platform ++ ":" ++ toString level)
                ((tier.map (fun p => p.Name)).headD ""))
              (platform ++ ":" ++ toString level)
              (((tier.map (fun p => p.Name)).rotate (i + 1)).headD "")) := by
  unfold roundRobinOrder
  by_cases hle : tier.length ≤ 1
  · simp only [hle, if_true]
  · simp only [hle, if_false]
    cases tier with
    | nil => simp at hle
    | cons a t =>
      have hfind : ∀ s : String, (a :: t).findIdx? (fun p => p.Name == s) =
          ((a :: t).map (fun p => p.Name)).findIdx? (fun n => n == s) := by
        intro s
        rw [List.findIdx?_map]
        rfl
      simp only [List.head?_cons, hfind]
      split_ifs
      · rfl
      · cases hf : ((a :: t).map (fun p => p.Name)).findIdx?
            (fun n => n == (mapGet rr (platform ++ ":" ++ toString level)).getD "") with
        | none => rfl
        | some i =>
          simp only [range_filterMap_rotate]
          have hne : (a :: t).rotate (i + 1) ≠ [] := by
            intro h0
            have := congrArg List.length h0
            simp at this
          cases hr : (a :: t).rotate (i + 1) with
          | nil => exact absurd hr hne
          | cons b u =>
            have hm : ((a :: t).map (fun p => p.Name)).rotate (i + 1) =
                b.Name :: u.map (fun p => p.Name) := by
              rw [← List.map_rotate, hr]
              rfl
            rw [hm]
            rfl

/-- C29: the order `roundRobinOrder` returns is a rotation of the tier it is given
(same length, same providers, same cyclic order), whatever the tier and whatever
`rrLastStart`; and on a Gemini tier with the same names in the same order,
`roundRobinOrderGemini` rotates by the same amount as `roundRobinOrder` with
platform `gemini` and leaves the same `rrLastStart`. -/
theorem roundRobin_rotation_and_gemini (rr : List (String × String)) (platform : String)
    (level : Int) (tier : List Provider) (tierG : List GeminiProvider)
    (hnames : tierG.map (fun p => p.Name) = tier.map (fun p => p.Name)) :
    (∃ k, (roundRobinOrder rr platform level tier).1 = tier.rotate k) ∧
    (roundRobinOrder rr platform level tier).1.length = tier.length ∧
    ((roundRobinOrder rr platform level tier).1).Perm tier ∧
    (∃ k, (roundRobinOrder rr "gemini" level tier).1 = tier.rotate k ∧
        (roundRobinOrderGemini rr level tierG).1 = tierG.rotate k) ∧
    (roundRobinOrderGemini rr level tierG).2 = (roundRobinOrder rr "gemini" level tier).2 := by
  obtain ⟨k, hk⟩ := roundRobinOrder_rotate rr platform level tier
  refine ⟨⟨k, hk⟩, by rw [hk, List.length_rotate], by rw [hk]; exact List.rotate_perm tier k,
    ?_⟩
  have hkey : "gemini" ++ ":" ++ toString level = "gemini:" ++ toString level := by
    have h0 : "gemini" ++ ":" = "gemini:" := by decide
    rw [h0]
  have hlen : tierG.length = tier.length := by
    have := congrArg List.length hnames
    simpa using this
  rw [roundRobinOrder_shape, roundRobinOrderGemini_shape, hkey, hnames, hlen]
  split_ifs
  · exact ⟨⟨0, (List.rotate_zero _).symm, (List.rotate_zero _).symm⟩, rfl⟩
  · exact ⟨⟨0, (List.rotate_zero _).symm, (List.rotate_zero _).symm⟩, rfl⟩
  · cases hf : (tier.map (fun p => p.Name)).findIdx?
        (fun n => n == (mapGet rr ("gemini:" ++ toString level)).getD "") with
    | none => exact ⟨⟨0, (List.rotate_zero _).symm, (List.rotate_zero _).symm⟩, rfl⟩
    | some i => exact ⟨⟨i + 1, rfl, rfl⟩, rfl⟩

/-- Witness for C29: the tier a, b, c with "a" recorded, and a Gemini tier with the
same names. -/
theorem roundRobin_rotation_and_gemini_witness :
    (roundRobinOrderGemini [("gemini:1", "a")] 1
        [{ Name := "a" }, { Name := "b" }, { Name := "c" }]).2 =
      (roundRobinOrder [("gemini:1", "a")] "gemini" 1
        [{ Name := "a" }, { Name := "b" }, { Name := "c" }]).2 ∧
    (roundRobinOrderGemini [("gemini:1", "a")] 1
        [{ Name := "a" }, { Name := "b" }, { Name := "c" }]).1.map (fun p => p.Name) =
      ["b", "c", "a"] :=
  ⟨(roundRobin_rotation_and_gemini [("gemini:1", "a")] "gemini" 1
      [{ Name := "a" }, { Name := "b" }, { Name := "c" }]
      [{ Name := "a" }, { Name := "b" }, { Name := "c" }] (by decide)).2.2.2.2, by decide⟩

/-! ## The stream forwarder -/

theorem copyLoop_never_fails (lib : SSELib) (kind : String) (collect : Bool)
    (final : List Char × ReadError) (reads : List (List Char)) :
    ∀ st : CopyState,
      (copyLoop lib kind (fun _ => none) collect final reads st).state.written =
        st.written ++ (reads ++ [final.1]).filter (fun c => decide (c.length > 0)) ∧
      (copyLoop lib kind (fun _ => none) collect final reads st).state.usage =
        copyResponseBodyWithHook lib kind (reads ++ [final.1]) st.usage ∧
      (copyLoop lib kind (fun _ => none) collect final reads st).err =
        (match final.2 with
         | .eof => none
         | .other text => some text) := by
  induction reads with
  | nil =>
    intro st
    unfold copyLoop copyChunk
    by_cases hlen : final.1.length > 0
    · cases hf : final.2 <;>
        simp [hlen, copyResponseBodyWithHook]
    · cases hf : final.2 <;>
        simp [hlen, copyResponseBodyWithHook]
  | cons data rest ih =>
    intro st
    unfold copyLoop copyChunk
    by_cases hlen : data.length > 0
    · simp only [hlen, if_true]
      obtain ⟨h1, h2, h3⟩ := ih
        { written := st.written ++ [data], usage := RequestLogHook lib kind st.usage data,
          collected :=
            if collect ∧ st.collected.length < MaxStreamResponseSize then
              st.collected ++
                data.take (min data.length (MaxStreamResponseSize - st.collected.length))
            else st.collected }
      refine ⟨?_, ?_, h3⟩
      · rw [h1]
        simp [List.filter_cons, hlen]
      · rw [h2]
        simp [copyResponseBodyWithHook, hlen]
    · simp only [hlen, if_false]
      obtain ⟨h1, h2, h3⟩ := ih st
      refine ⟨?_, ?_, h3⟩
      · rw [h1]
        simp [List.filter_cons, hlen]
      · rw [h2]
        simp [copyResponseBodyWithHook, hlen]

theorem flatten_filter_nonempty (l : List (List Char)) :
    (l.filter (fun c => decide (c.length > 0))).flatten = l.flatten := by
  induction l with
  | nil => rfl
  | cons c l ih =>
    by_cases hc : c.length > 0
    · simp [List.filter_cons, hc, ih]
    · have hnil : c = [] := List.length_eq_zero.mp (by omega)
      subst hnil
      simpa using ih

/-- C22: with a client writer that never fails, the forwarder writes the chunks it
reads one by one in their order (an empty read writes nothing), so the client
receives exactly the concatenation of the bytes read; it returns nil when the
last read ends with EOF and the error of the read otherwise, the bytes of that
last read having been written first. The request log it leaves is the one of
the hook run on every chunk in turn. -/
theorem copyResponseBody_verbatim (lib : SSELib) (kind : String) (collect : Bool)
    (writeErr : Nat → Option String) (hwrite : ∀ k, writeErr k = none)
    (reads : List (List Char)) (final : List Char × ReadError) (usage : RequestLog) :
    (copyResponseBodyWithHookAndCollector lib kind writeErr collect reads final usage).state.written
      = (reads ++ [final.1]).filter (fun c => decide (c.length > 0)) ∧
    (copyResponseBodyWithHookAndCollector lib kind writeErr collect reads final
        usage).state.written.flatten = reads.flatten ++ final.1 ∧
    (copyResponseBodyWithHookAndCollector lib kind writeErr collect reads final usage).err =
      (match final.2 with
       | .eof => none
       | .other text => some text) ∧
    (copyResponseBodyWithHookAndCollector lib kind writeErr collect reads final usage).state.usage
      = copyResponseBodyWithHook lib kind (reads ++ [final.1]) usage := by
  have hw : writeErr = fun _ => none := funext hwrite
  subst hw
  obtain ⟨h1, h2, h3⟩ := copyLoop_never_fails lib kind collect final reads
    { written := [], usage := usage, collected := [] }
  unfold copyResponseBodyWithHookAndCollector
  refine ⟨by simpa using h1, ?_, h3, h2⟩
  rw [h1]
  simp [flatten_filter_nonempty]

/-- Witness for C22: two reads and a last read that fails after delivering two
bytes. -/
theorem copyResponseBody_verbatim_witness :
    (copyResponseBodyWithHookAndCollector (scenarioSSELib [] [] none) "claude" (fun _ => none)
        false ["ab".data, "cd".data] ("ef".data, .other "reset") {}).state.written.flatten
      = ["ab".data, "cd".data].flatten ++ "ef".data ∧
    (copyResponseBodyWithHookAndCollector (scenarioSSELib [] [] none) "claude" (fun _ => none)
        false ["ab".data, "cd".data] ("ef".data, .other "reset") {}).err = some "reset" :=
  ⟨(copyResponseBody_verbatim (scenarioSSELib [] [] none) "claude" false (fun _ => none)
      (fun _ => rfl) ["ab".data, "cd".data] ("ef".data, .other "reset") {}).2.1,
   (copyResponseBody_verbatim (scenarioSSELib [] [] none) "claude" false (fun _ => none)
      (fun _ => rfl) ["ab".data, "cd".data] ("ef".data, .other "reset") {}).2.2.1⟩

/-! ## Usage of a response that is not a stream -/

/-- C21: a 200 answer whose body is the plain JSON object of scenario S1 reaches the
hook as one chunk with no `data:` line, so no parser is called: the request log
written has HttpCode 200 but 0 input and 0 output tokens, whatever `gjson` would
find in the body. Applied to that body, the parser of the dialect would add the
10 input and 5 output tokens of its top-level `usage` object. -/
theorem plain_json_usage_not_counted (gjsonInt : List Char → String → Int)
    (usageMetadata : List Char → Option UsageMetadata) (provider : Provider) (model : String) :
    (forwardRequestLog ⟨asciiTrimSpace, gjsonInt, usageMetadata⟩ "claude" provider model false
        200 (fun _ => none) false [] (
          "\x7b\"content\":[], \"usage\":\x7b\"input_tokens\":10,\"output_tokens\":5\x7d\x7d".data, .eof)).InputTokens = 0 ∧
    (forwardRequestLog ⟨asciiTrimSpace, gjsonInt, usageMetadata⟩ "claude" provider model false
        200 (fun _ => none) false [] (
          "\x7b\"content\":[], \"usage\":\x7b\"input_tokens\":10,\"output_tokens\":5\x7d\x7d".data, .eof)).OutputTokens = 0 ∧
    (forwardRequestLog ⟨asciiTrimSpace, gjsonInt, usageMetadata⟩ "claude" provider model false
        200 (fun _ => none) false [] (
          "\x7b\"content\":[], \"usage\":\x7b\"input_tokens\":10,\"output_tokens\":5\x7d\x7d".data, .eof)).HttpCode = 200 ∧
    (ClaudeCodeParseTokenUsageFromResponse
        (scenarioSSELib 
          "\x7b\"content\":[], \"usage\":\x7b\"input_tokens\":10,\"output_tokens\":5\x7d\x7d".data [("usage.input_tokens", 10), ("usage.output_tokens", 5)] none)
        
          "\x7b\"content\":[], \"usage\":\x7b\"input_tokens\":10,\"output_tokens\":5\x7d\x7d".data {}).InputTokens = 10 ∧
    (ClaudeCodeParseTokenUsageFromResponse
        (scenarioSSELib 
          "\x7b\"content\":[], \"usage\":\x7b\"input_tokens\":10,\"output_tokens\":5\x7d\x7d".data [("usage.input_tokens", 10), ("usage.output_tokens", 5)] none)
        
          "\x7b\"content\":[], \"usage\":\x7b\"input_tokens\":10,\"output_tokens\":5\x7d\x7d".data {}).OutputTokens = 5 := by
  refine ⟨rfl, rfl, rfl, by decide, by decide⟩

/-! ## DNS errors and the network-level retry -/

/-- C27: the DNS test of `isTransientNetworkError` comes third and is not reached
by every DNS error. A DNS error with IsNotFound and IsTimeout both set is
classified transient (its `Timeout()` answers the first test) and is retried; a
`no such host` error wrapped in the `*net.OpError` of the dial is classified by
the text of that error, so a host name containing `reset` makes it transient and
retried; and a temporary DNS error wrapped in a `*net.OpError` is not transient
although IsTemporary is set and IsNotFound is not. -/
theorem dns_not_found_retried :
    isTransientNetworkError toLower
      (some { chain := [.dnsError ⟨true, false, true⟩], text := "lookup a.example".data })
      = true ∧
    (RoundTrip toLower 1
      { ctxErr := fun _ => none, getBodyErr := fun _ => none,
        base := fun _ => some
          { chain := [.dnsError ⟨true, false, true⟩], text := "lookup a.example".data }
      }).baseCalls = 2 ∧
    isTransientNetworkError toLower
      (some { chain := [.opError false "dial tcp: lookup reset.example: no such host".data,
                        .dnsError ⟨true, false, false⟩],
              text := "dial tcp: lookup reset.example: no such host".data }) = true ∧
    isTransientNetworkError toLower
      (some { chain := [.opError false "dial tcp: lookup a.example: server misbehaving".data,
                        .dnsError ⟨false, true, false⟩],
              text := "dial tcp: lookup a.example: server misbehaving".data }) = false := by
  decide

/-- The DNS test where it is reached: for an error whose chain holds no
`*net.OpError` and whose first `net.Error` does not report a timeout, and whose
first `net.DNSError` has the flags d, the error is transient exactly when (IsTemporary or IsTimeout) and not
IsNotFound; with IsNotFound set it is not transient, and a `RoundTrip` whose
first call of the base transport returns it makes no second call and returns
that error. -/
theorem dns_test_when_reached (ToLower : List Char → List Char) (e : GoError)
    (d : DNSFlags) (MaxRetries : Int) (env : RoundTripEnv)
    (hnet : e.chain.findSome? ChainError.netErrorTimeout ≠ some true)
    (hop : e.chain.findSome? ChainError.asOpError = none)
    (hdns : e.chain.findSome? ChainError.asDNSError = some d) :
    isTransientNetworkError ToLower (some e) =
      ((d.IsTemporary || d.IsTimeout) && !d.IsNotFound) ∧
    (d.IsNotFound = true → isTransientNetworkError ToLower (some e) = false) ∧
    (d.IsNotFound = true → 0 ≤ MaxRetries → env.ctxErr 0 = none → env.base 0 = some e →
      RoundTrip ToLower MaxRetries env = { resp := none, err := some e, baseCalls := 1 }) := by
  have hval : isTransientNetworkError ToLower (some e) =
      ((d.IsTemporary || d.IsTimeout) && !d.IsNotFound) := by
    simp only [isTransientNetworkError, hnet, if_false, hop, hdns]
    cases d.IsNotFound <;> simp
  have hnf : d.IsNotFound = true → isTransientNetworkError ToLower (some e) = false := by
    intro h
    rw [hval, h]
    simp
  refine ⟨hval, hnf, ?_⟩
  intro h hmax hctx hbase
  obtain ⟨n, hn⟩ : ∃ n, (MaxRetries + 1).toNat = n + 1 := ⟨MaxRetries.toNat, by omega⟩
  unfold RoundTrip
  rw [hn]
  unfold roundTripLoop
  simp only [hctx, hbase, hnf h, Nat.lt_irrefl, if_false]
  by_cases hc : (e.isCanceled || e.isDeadlineExceeded) = true
  · simp [hc]
  · simp [hc]

/-! ## The ring buffer of request details -/

theorem ringInvariant_new (capacity : Int) : RingInvariant (NewRequestDetailCache capacity) := by
  have hpos : 0 < (if capacity ≤ 0 then DefaultCacheCapacity else capacity.toNat) := by
    split_ifs with h
    · decide
    · omega
  unfold RingInvariant NewRequestDetailCache
  refine ⟨hpos, List.length_replicate _ _, hpos, Nat.zero_le _, ?_, fun _ => rfl, ?_⟩
  · intro j hj
    have hj2 : j < (if capacity ≤ 0 then DefaultCacheCapacity else capacity.toNat) := hj
    simp [List.getElem?_replicate, hj2]
  · intro id i h
    simp [mapGet] at h

theorem ringInvariant_clear (c : RequestDetailCache) (h : RingInvariant c) :
    RingInvariant c.Clear := by
  obtain ⟨hpos, _⟩ := h
  unfold RingInvariant RequestDetailCache.Clear
  refine ⟨hpos, List.length_replicate _ _, hpos, Nat.zero_le _, ?_, fun _ => rfl, ?_⟩
  · intro j hj
    have hj2 : j < c.capacity := hj
    simp [List.getElem?_replicate, hj2]
  · intro id i h
    simp [mapGet] at h

theorem ringInvariant_store (c : RequestDetailCache) (detail : Option RequestDetail)
    (h : RingInvariant c) : RingInvariant (c.Store detail) := by
  cases detail with
  | none => exact h
  | some d =>
    unfold RequestDetailCache.Store
    simp only []
    by_cases hoff : c.mode = "off"
    · rw [if_pos hoff]
      exact h
    · rw [if_neg hoff]
      obtain ⟨hpos, hlen, hhead, hcount, hocc, hrel, hseq⟩ := h
      have hheadlen : c.head < c.buffer.length := by rw [hlen]; exact hhead
      have hset : (c.buffer.set c.head (some d))[c.head]? = some (some d) := by
        rw [List.getElem?_set_self hheadlen]
      have hother : ∀ j, j ≠ c.head → (c.buffer.set c.head (some d))[j]? = c.buffer[j]? := by
        intro j hj
        exact List.getElem?_set_ne (fun hh => hj hh.symm)
      unfold RingInvariant
      dsimp only
      refine ⟨hpos, by rw [List.length_set]; exact hlen, Nat.mod_lt _ hpos, ?_, ?_, ?_, ?_⟩
      · split_ifs <;> omega
      · intro j hj
        have hjc : j < c.capacity := hj
        by_cases hjh : j = c.head
        · have hs : ((c.buffer.set c.head (some d))[j]?).join.isSome = true := by
            rw [hjh, hset]
            rfl
          have hlt : j < (if c.count < c.capacity then c.count + 1 else c.count) := by
            by_cases hc : c.count < c.capacity
            · rw [if_pos hc]
              have := hrel hc
              omega
            · rw [if_neg hc]
              omega
          exact ⟨fun _ => hlt, fun _ => hs⟩
        · rw [hother j hjh, hocc j hjc]
          by_cases hc : c.count < c.capacity
          · rw [if_pos hc]
            have := hrel hc
            omega
          · rw [if_neg hc]
      · intro hlt
        by_cases hc : c.count < c.capacity
        · rw [if_pos hc] at hlt
          rw [if_pos hc, hrel hc, Nat.mod_eq_of_lt hlt]
        · rw [if_neg hc] at hlt
          omega
      · intro id i hget
        by_cases hid : d.SequenceID = id
        · rw [hid, mapGet_mapSet_same] at hget
          have hi : i = c.head := (Option.some.inj hget).symm
          rw [hi]
          exact ⟨d, hset, hid⟩
        · rw [mapGet_mapSet_other _ _ _ _ hid] at hget
          have hold : mapGet c.seqToIndex id = some i ∧ i ≠ c.head := by
            cases hjoin : (c.buffer[c.head]?).join with
            | none =>
              rw [hjoin] at hget
              refine ⟨hget, ?_⟩
              intro hi
              obtain ⟨d', hd', _⟩ := hseq id i hget
              rw [hi] at hd'
              rw [hd'] at hjoin
              simp at hjoin
            | some o =>
              rw [hjoin] at hget
              simp only [] at hget
              by_cases ho : o.SequenceID = id
              · rw [ho, mapGet_mapDel_same] at hget
                exact Option.noConfusion hget
              · rw [mapGet_mapDel_other _ _ _ ho] at hget
                refine ⟨hget, ?_⟩
                intro hi
                obtain ⟨d', hd', hd'id⟩ := hseq id i hget
                rw [hi] at hd'
                rw [hd'] at hjoin
                have hjo : some d' = some o := hjoin
                have hdo : d' = o := Option.some.inj hjo
                exact ho (hdo ▸ hd'id)
          obtain ⟨d', hd', hd'id⟩ := hseq id i hold.1
          exact ⟨d', by rw [hother i hold.2]; exact hd', hd'id⟩

theorem ringInvariant_run (ops : List CacheOp) :
    ∀ c : RequestDetailCache, RingInvariant c → RingInvariant (runCacheOps c ops) := by
  induction ops with
  | nil => intro c h; exact h
  | cons op ops ih =>
    intro c h
    unfold runCacheOps
    rw [List.foldl_cons]
    apply ih
    cases op with
    | store detail => exact ringInvariant_store c detail h
    | clear => exact ringInvariant_clear c h
    | setMode mode => exact h

theorem occupied_prefix (L : List (Option RequestDetail)) :
    ∀ n : Nat, (∀ j, j < L.length → ((L[j]?).join.isSome = true ↔ j < n)) →
      n ≤ L.length → (L.filter (fun slot => slot.isSome)).length = n := by
  induction L with
  | nil =>
    intro n _ hn
    simp only [List.length_nil, Nat.le_zero] at hn
    simp [hn]
  | cons a L ih =>
    intro n hocc hn
    have h0 := hocc 0 (by simp)
    simp only [List.getElem?_cons_zero, Option.join] at h0
    cases n with
    | zero =>
      have hnone : ∀ slot ∈ (a :: L), slot.isSome = false := by
        intro slot hslot
        obtain ⟨j, hj, hjs⟩ := List.mem_iff_getElem.mp hslot
        have := hocc j hj
        rw [List.getElem?_eq_getElem hj, hjs] at this
        simp only [Option.join, Nat.not_lt_zero, iff_false] at this
        simpa using this
      have : (a :: L).filter (fun slot => slot.isSome) = [] :=
        List.filter_eq_nil_iff.mpr (fun slot hslot => by simp [hnone slot hslot])
      rw [this]
      rfl
    | succ m =>
      have ha : a.isSome = true := h0.mpr (Nat.succ_pos m)
      have hrest := ih m (fun j hj => by
        have := hocc (j + 1) (by simp only [List.length_cons]; omega)
        simp only [List.getElem?_cons_succ] at this
        rw [this]
        omega) (by simp only [List.length_cons] at hn; omega)
      rw [List.filter_cons, if_pos ha, List.length_cons, hrest]

/-- C28: in every state reached from `NewRequestDetailCache` through `Store`,
`Clear` and `SetMode`, `head` is below the capacity, `count` is at most the
capacity and is the number of occupied slots of the buffer (which has one slot
per unit of capacity), and every entry of `seqToIndex` points to an occupied
slot whose detail carries that sequence id. `Store` of a nil detail, and `Store`
in mode off, leave the state as it is; `Clear` sets `head` and `count` to 0 and
keeps the mode and the capacity. -/
theorem ring_buffer_invariant (capacity : Int) (ops : List CacheOp) :
    0 < (runCacheOps (NewRequestDetailCache capacity) ops).capacity ∧
    (runCacheOps (NewRequestDetailCache capacity) ops).head <
      (runCacheOps (NewRequestDetailCache capacity) ops).capacity ∧
    (runCacheOps (NewRequestDetailCache capacity) ops).count ≤
      (runCacheOps (NewRequestDetailCache capacity) ops).capacity ∧
    (runCacheOps (NewRequestDetailCache capacity) ops).buffer.length =
      (runCacheOps (NewRequestDetailCache capacity) ops).capacity ∧
    occupiedSlots (runCacheOps (NewRequestDetailCache capacity) ops) =
      (runCacheOps (NewRequestDetailCache capacity) ops).count ∧
    (∀ id i, mapGet (runCacheOps (NewRequestDetailCache capacity) ops).seqToIndex id = some i →
      ∃ d, (runCacheOps (NewRequestDetailCache capacity) ops).buffer[i]? = some (some d) ∧
        d.SequenceID = id) ∧
    (runCacheOps (NewRequestDetailCache capacity) ops).Store none =
      runCacheOps (NewRequestDetailCache capacity) ops ∧
    (∀ detail, ((runCacheOps (NewRequestDetailCache capacity) ops).SetMode "off").Store detail =
      (runCacheOps (NewRequestDetailCache capacity) ops).SetMode "off") ∧
    (runCacheOps (NewRequestDetailCache capacity) ops).Clear.head = 0 ∧
    (runCacheOps (NewRequestDetailCache capacity) ops).Clear.count = 0 ∧
    (runCacheOps (NewRequestDetailCache capacity) ops).Clear.mode =
      (runCacheOps (NewRequestDetailCache capacity) ops).mode ∧
    (runCacheOps (NewRequestDetailCache capacity) ops).Clear.capacity =
      (runCacheOps (NewRequestDetailCache capacity) ops).capacity := by
  obtain ⟨hpos, hlen, hhead, hcount, hocc, _, hseq⟩ :=
    ringInvariant_run ops _ (ringInvariant_new capacity)
  refine ⟨hpos, hhead, hcount, hlen, ?_, hseq, rfl, ?_, rfl, rfl, rfl, rfl⟩
  · unfold occupiedSlots
    apply occupied_prefix
    · intro j hj
      exact hocc j (hlen ▸ hj)
    · rw [hlen]; exact hcount
  · intro detail
    cases detail with
    | none => rfl
    | some d => simp [RequestDetailCache.Store, RequestDetailCache.SetMode]

/-- C26: with capacity 2 and mode all, after the details A and B, both with
sequence id 5, and then C with id 6, the buffer holds C and B, the last two
details stored; yet `Get(5)` returns nil, because storing C over A removed the
entry of id 5 from `seqToIndex` although it pointed to B. Before C was stored,
`Get(5)` returned B. -/
theorem ring_buffer_loses_recent_detail :
    (runCacheOps (NewRequestDetailCache 2)
      [.setMode "all", .store (some ⟨5, "A", 200⟩), .store (some ⟨5, "B", 200⟩),
       .store (some ⟨6, "C", 200⟩)]).buffer = [some ⟨6, "C", 200⟩, some ⟨5, "B", 200⟩] ∧
    (runCacheOps (NewRequestDetailCache 2)
      [.setMode "all", .store (some ⟨5, "A", 200⟩), .store (some ⟨5, "B", 200⟩),
       .store (some ⟨6, "C", 200⟩)]).Get 5 = none ∧
    (runCacheOps (NewRequestDetailCache 2)
      [.setMode "all", .store (some ⟨5, "A", 200⟩), .store (some ⟨5, "B", 200⟩),
       .store (some ⟨6, "C", 200⟩)]).Get 6 = some ⟨6, "C", 200⟩ ∧
    (runCacheOps (NewRequestDetailCache 2)
      [.setMode "all", .store (some ⟨5, "A", 200⟩), .store (some ⟨5, "B", 200⟩)]).Get 5 =
      some ⟨5, "B", 200⟩ := by
  decide

end CodeSwitch
